import Mathlib

/-!
# Verification of the TimeTable_Scheduler core pipeline

A shallow embedding, in Lean 4, of the scheduling core of the
TimeTable_Scheduler repository (greedy seed scheduler, genetic optimizer,
conflict detector/resolver, NEP compliance auditor), together with proofs
and refutations of the frozen specification claims.

Modelling conventions, used consistently below:

* Python dictionaries with a fixed set of possible keys become structures
  whose fields are `Option`-valued; a missing key is `none`, and `d.get(k, v)`
  becomes `(field).getD v`.  Python `dict` equality then coincides with
  structure equality.
* Python object references are modelled by values.  List removal by `!=`
  (dict value inequality) is modelled by filtering on value inequality.
* Python `set`s whose consumers only test membership, take minima or count
  elements are modelled by duplicate-free lists (insertion only adds an
  element that is not yet present), which preserves membership and size.
* Python floats are modelled by `ℚ`; every float the source manipulates is
  produced by `+ - * /` on small integers, where binary floating point is
  exact for all quantities any claim below depends on.
* Where the source would raise on malformed data (out-of-range list index,
  missing mandatory dict key), and that site is unreachable for the values
  the pipeline constructs, the embedding totalises with a default; sites
  whose reachability a claim depends on instead return `Except` errors.
* `Priority` and integer arithmetic follow the source exactly
  (`//` is Python floor division, `Int.fdiv`).
-/

namespace TTS

/-- Python errors the embedded code can raise. `catalogInvalid` is the error
classification the specification's §7 prescribes; it is included so that
claims about error classification are statable, and (provably) the source
never produces it. -/
inductive PyError where
  | valueError (msg : String)
  | keyError (msg : String)
  | catalogInvalid (msg : String)
deriving DecidableEq, Repr

/-- Association-list lookup (Python `dict.get` without default). -/
def alGet? {κ β : Type} [DecidableEq κ] : List (κ × β) → κ → Option β
  | [], _ => none
  | (k2, v) :: t, k => if k2 = k then some v else alGet? t k

/-- Association-list lookup with default (Python `dict.get(k, d)`). -/
def alGetD {κ β : Type} [DecidableEq κ] (l : List (κ × β)) (k : κ) (d : β) : β :=
  (alGet? l k).getD d

/-- Association-list update (Python `dict[k] = v`): overwrite in place,
append at the end when the key is new (insertion order). -/
def alSet {κ β : Type} [DecidableEq κ] (k : κ) (v : β) : List (κ × β) → List (κ × β)
  | [] => [(k, v)]
  | (k2, v2) :: t => if k2 = k then (k2, v) :: t else (k2, v2) :: alSet k v t

/-- Membership-preserving set insertion (Python `set.add`): no duplicates. -/
def setAdd {α : Type} [DecidableEq α] (a : α) (l : List α) : List α :=
  if a ∈ l then l else a :: l

/-- First-occurrence deduplication.  Python's `list(set(xs))` enumerates in an
interpreter-dependent hash order; the embedding fixes first-occurrence order.
No claim below depends on the order of such a list. -/
def dedupFirstAux {α : Type} [DecidableEq α] (seen : List α) : List α → List α
  | [] => []
  | a :: t => if a ∈ seen then dedupFirstAux seen t else a :: dedupFirstAux (a :: seen) t

/-- Python `list(set(xs))`, in first-occurrence order. -/
def pySetList {α : Type} [DecidableEq α] (l : List α) : List α :=
  dedupFirstAux [] l

/-- One step of a stable insertion sort: insert `a` before the first element
`b` with `lt a b`, hence after all elements it ties with. -/
def pyInsort {α : Type} (lt : α → α → Bool) (a : α) : List α → List α
  | [] => [a]
  | b :: t => if lt a b then a :: b :: t else b :: pyInsort lt a t

/-- Stable ascending sort by the strict comparison `lt`, matching the
observable behaviour of Python's stable `list.sort`. -/
def pySort {α : Type} (lt : α → α → Bool) (l : List α) : List α :=
  l.foldl (fun acc a => pyInsort lt a acc) []

/-- Python `str.lower()` (ASCII case mapping, which covers every string the
pipeline manipulates). -/
def pyLower (s : String) : String := ⟨s.data.map Char.toLower⟩

/-- Python truthiness for optional strings: `None` and `""` are falsy. -/
def pyTruthy : Option String → Bool
  | none => false
  | some s => s ≠ ""

/-- Python `a or b` on optional strings (first truthy operand, else `b`). -/
def pyOr (a b : Option String) : Option String :=
  if pyTruthy a then a else b

/-- Python `list.index`, as an `Option` (the caller turns `none` into the
`ValueError` the source raises). -/
def idxOf : List String → String → Option Nat
  | [], _ => none
  | a :: t, x => if a = x then some 0 else (idxOf t x).map (· + 1)

/-- Digits of a decimal string, if every character is a digit. -/
def digitsToNat? : List Char → Option Nat
  | [] => none
  | cs =>
    cs.foldl (fun acc c =>
      match acc with
      | none => none
      | some n => if c.isDigit then some (n * 10 + (c.toNat - 48)) else none)
      (some 0)

/-- Strip surrounding whitespace (structural rendering of `str.strip`). -/
def pyTrim (s : String) : String :=
  ⟨((s.data.dropWhile Char.isWhitespace).reverse.dropWhile Char.isWhitespace).reverse⟩

/-- Python `s.split('_')`: split at every underscore, keeping empty parts. -/
def splitUnderscoreAux : List Char → List Char → List String
  | acc, [] => [⟨acc.reverse⟩]
  | acc, c :: t =>
    if c = '_' then String.mk acc.reverse :: splitUnderscoreAux [] t
    else splitUnderscoreAux (c :: acc) t

/-- Python `slot_str.split('_')`. -/
def pySplitUnderscore (s : String) : List String := splitUnderscoreAux [] s.data

/-- Python `int(s)`: optional surrounding whitespace, optional sign, at
least one digit (the period substrings the pipeline parses never contain
the digit-group underscores Python additionally allows). -/
def pyInt (s : String) : Except PyError Int :=
  let t := pyTrim s
  match t.data with
  | '-' :: rest =>
    match digitsToNat? rest with
    | some n => .ok (-(n : Int))
    | none => .error (.valueError ("invalid literal for int() with base 10: " ++ s))
  | '+' :: rest =>
    match digitsToNat? rest with
    | some n => .ok (n : Int)
    | none => .error (.valueError ("invalid literal for int() with base 10: " ++ s))
  | cs =>
    match digitsToNat? cs with
    | some n => .ok (n : Int)
    | none => .error (.valueError ("invalid literal for int() with base 10: " ++ s))

/-- Python floor division `//`. -/
def pyFloorDiv (a b : Int) : Int := Int.fdiv a b

/-! ## Data model of `greedy_algorithm.py` -/

/-- `TimeSlot` (greedy_algorithm.py): a day index and a period.  The period
is an `Int` because faculty constraint strings are parsed with `int(...)`
and may denote any integer. -/
structure TimeSlot where
  day : Nat
  period : Int
deriving DecidableEq, Repr

/-- `Priority` (greedy_algorithm.py). -/
inductive Priority where
  | high
  | medium
  | low
deriving DecidableEq, Repr

/-- The numeric `.value` of a `Priority` member. -/
def Priority.val : Priority → Nat
  | .high => 1
  | .medium => 2
  | .low => 3

/-- `SchedulingConstraint` (greedy_algorithm.py). -/
structure SchedulingConstraint where
  faculty_id : String
  unavailable_slots : List TimeSlot
  max_consecutive_hours : Int
  preferred_days : List Nat
  min_gap_between_classes : Int
deriving DecidableEq, Repr

/-- `ClassRequirement` (greedy_algorithm.py). -/
structure ClassRequirement where
  subject_id : String
  subject_name : String
  faculty_id : String
  student_group_id : String
  room_type : String
  duration : Nat
  weekly_frequency : Nat
  priority : Priority
  preferred_slots : List TimeSlot
deriving DecidableEq, Repr

/-- A subject record of the request catalog (keys read with `.get`). -/
structure SubjectRec where
  subject_id : Option String := none
  name : Option String := none
  faculty_id : Option String := none
  subjtype : Option String := none
  credits : Option Int := none
  theory_hours : Option Int := none
  practical_hours : Option Int := none
  programs : List String := []
  semester : Option Int := none
  department : Option String := none
  hours : Option Int := none
deriving DecidableEq, Repr

/-- A student-group record of the request catalog. -/
structure GroupRec where
  group_id : Option String := none
  program : Option String := none
  semester : Option Int := none
  strength : Option Int := none
deriving DecidableEq, Repr

/-- A faculty record of the request catalog. -/
structure FacultyRec where
  faculty_id : Option String := none
  unavailable_slots : List String := []
  preferred_days : List String := []
  max_consecutive_hours : Option Int := none
  min_gap : Option Int := none
deriving DecidableEq, Repr

/-- A room record of the request catalog.  The source indexes
`room['room_id']` directly (a missing key would abort the run), so the id
is mandatory here. -/
structure RoomRec where
  room_id : String
  name : Option String := none
  roomtype : Option String := none
  capacity : Option Int := none
deriving DecidableEq, Repr

/-- The request catalog consumed by `generate_initial_schedule`
(each list read with `.get(key, [])`). -/
structure RequestData where
  subjects : List SubjectRec := []
  student_groups : List GroupRec := []
  faculty : List FacultyRec := []
  rooms : List RoomRec := []
deriving DecidableEq, Repr

/-- The five working-day names, in order. -/
def dayNames : List String :=
  ["monday", "tuesday", "wednesday", "thursday", "friday"]

/-- The eight period labels (`self.time_slots`). -/
def timeSlotLabels : List String :=
  ["09:00-10:00", "10:00-11:00", "11:00-12:00", "12:00-13:00",
   "14:00-15:00", "15:00-16:00", "16:00-17:00", "17:00-18:00"]

/-- `_group_needs_subject`. -/
def groupNeedsSubject (group : GroupRec) (subject : SubjectRec) : Bool :=
  let group_program := pyLower (group.program.getD "")
  let subject_programs := subject.programs.map pyLower
  if subject_programs ≠ [] ∧ group_program ∉ subject_programs then
    false
  else
    group.semester.getD 0 == subject.semester.getD 0

/-- `_determine_subject_priority`. -/
def determineSubjectPriority (subject : SubjectRec) : Priority :=
  let subject_type := pyLower (subject.subjtype.getD "")
  if subject_type ∈ ["major", "core"] then
    .high
  else if subject_type ∈ ["minor", "skill", "ability_enhancement"] then
    .medium
  else
    .low

/-- The requirements one (subject, group) pair contributes in
`_parse_class_requirements`: a theory lecture when `theory_hours > 0`, a
two-period lab when `practical_hours > 0`. -/
def requirementsFor (subject : SubjectRec) (group : GroupRec) : List ClassRequirement :=
  if groupNeedsSubject group subject then
    let priority := determineSubjectPriority subject
    let weekly_freq : Int := max 1 (pyFloorDiv (subject.credits.getD 3) 2)
    let theory : List ClassRequirement :=
      if subject.theory_hours.getD 0 > 0 then
        [{ subject_id := subject.subject_id.getD ""
           subject_name := subject.name.getD ""
           faculty_id := subject.faculty_id.getD ""
           student_group_id := group.group_id.getD ""
           room_type := "lecture"
           duration := 1
           weekly_frequency := weekly_freq.toNat
           priority := priority
           preferred_slots := [] }]
      else []
    let practical : List ClassRequirement :=
      if subject.practical_hours.getD 0 > 0 then
        [{ subject_id := subject.subject_id.getD "" ++ "_lab"
           subject_name := subject.name.getD "" ++ " Lab"
           faculty_id := subject.faculty_id.getD ""
           student_group_id := group.group_id.getD ""
           room_type := "lab"
           duration := 2
           weekly_frequency := (max 1 (pyFloorDiv weekly_freq 2)).toNat
           priority := priority
           preferred_slots := [] }]
      else []
    theory ++ practical
  else []

/-- `_parse_class_requirements`: collect requirements over the
subject × group nesting, then stable-sort ascending by priority value. -/
def parseClassRequirements (rd : RequestData) : List ClassRequirement :=
  let requirements :=
    rd.subjects.flatMap fun subject =>
      rd.student_groups.flatMap fun group => requirementsFor subject group
  pySort (fun a b => a.priority.val < b.priority.val) requirements

/-- Rooms partitioned by type (`_parse_room_data`). -/
structure RoomsByType where
  lecture : List RoomRec := []
  lab : List RoomRec := []
  seminar : List RoomRec := []
deriving DecidableEq, Repr

/-- The loop body of `_parse_room_data`: append the room to the bucket
named by `room.get('type', 'lecture')`, dropping unknown types. -/
def roomStep (acc : RoomsByType) (room : RoomRec) : RoomsByType :=
  let rt := room.roomtype.getD "lecture"
  if rt = "lecture" then { acc with lecture := acc.lecture ++ [room] }
  else if rt = "lab" then { acc with lab := acc.lab ++ [room] }
  else if rt = "seminar" then { acc with seminar := acc.seminar ++ [room] }
  else acc

/-- `_parse_room_data`. -/
def parseRoomData (rd : RequestData) : RoomsByType :=
  rd.rooms.foldl roomStep {}

/-- `available_rooms.get(req.room_type, [])`. -/
def roomsOfType (rbt : RoomsByType) (t : String) : List RoomRec :=
  if t = "lecture" then rbt.lecture
  else if t = "lab" then rbt.lab
  else if t = "seminar" then rbt.seminar
  else []

/-- Parse one faculty's `unavailable_slots` strings.  A string without an
underscore is skipped; otherwise it is split on every underscore, unpacked
into exactly two parts (else the `ValueError` Python raises on unpacking),
the day part is looked up case-insensitively in the day list (else the
`ValueError` of `list.index`), and the period parsed with `int(...)`. -/
def parseUnavailable (slots : List String) : Except PyError (List TimeSlot) :=
  slots.foldlM
    (fun acc slot_str =>
      if '_' ∈ slot_str.data then
        match pySplitUnderscore slot_str with
        | [day_name, period] =>
          match idxOf dayNames (pyLower day_name) with
          | some day_idx => do
            let p ← pyInt period
            pure (setAdd (TimeSlot.mk day_idx p) acc)
          | none =>
            .error (.valueError ("'" ++ pyLower day_name ++ "' is not in list"))
        | _ => .error (.valueError "values to unpack")
      else
        pure acc)
    []

/-- Parse one faculty's `preferred_days` (each looked up with `list.index`). -/
def parsePreferredDays (days : List String) : Except PyError (List Nat) :=
  days.foldlM
    (fun acc day_name =>
      match idxOf dayNames (pyLower day_name) with
      | some day_idx => pure (acc ++ [day_idx])
      | none => .error (.valueError ("'" ++ pyLower day_name ++ "' is not in list")))
    []

/-- `_parse_faculty_constraints`: build the `faculty_id → constraint`
dictionary, propagating the first exception raised. -/
def parseFacultyConstraints (rd : RequestData) :
    Except PyError (List (String × SchedulingConstraint)) :=
  rd.faculty.foldlM
    (fun cons f => do
      let faculty_id := f.faculty_id.getD ""
      let unavailable ← parseUnavailable f.unavailable_slots
      let preferred ← parsePreferredDays f.preferred_days
      let constraint : SchedulingConstraint :=
        { faculty_id := faculty_id
          unavailable_slots := unavailable
          max_consecutive_hours := f.max_consecutive_hours.getD 3
          preferred_days := preferred
          min_gap_between_classes := f.min_gap.getD 0 }
      pure (alSet faculty_id constraint cons))
    []

/-! ## Greedy scheduling core -/

/-- The three incremental busy-set indices of `GreedyScheduler`
(`faculty_schedule`, `room_schedule`, `group_schedule`), each a set of
(entity id, slot) pairs. -/
structure GreedyState where
  facBusy : List (String × TimeSlot) := []
  roomBusy : List (String × TimeSlot) := []
  groupBusy : List (String × TimeSlot) := []
deriving DecidableEq, Repr

/-- `_check_hard_constraints`: every covered period must be free for the
faculty, the room and the student group, and outside the faculty's
unavailable slots (checked only when the faculty has a constraint record). -/
def checkHardConstraints (cons : List (String × SchedulingConstraint))
    (st : GreedyState) (slot : TimeSlot) (req : ClassRequirement)
    (roomId : String) : Bool :=
  (List.range req.duration).all fun (i : Nat) =>
    let check_slot := TimeSlot.mk slot.day (slot.period + (i : Int))
    !decide ((req.faculty_id, check_slot) ∈ st.facBusy) &&
    !decide ((roomId, check_slot) ∈ st.roomBusy) &&
    !decide ((req.student_group_id, check_slot) ∈ st.groupBusy) &&
    (match alGet? cons req.faculty_id with
     | some c => !decide (check_slot ∈ c.unavailable_slots)
     | none => true)

/-- Count a run of consecutive busy periods walking away from a slot
(`fuel` bounds the walk exactly as the source's
`range(1, max_consecutive_hours)` does, and a free period breaks it). -/
def busyRun (busy : Int → Bool) : Nat → Int → Int → Nat
  | 0, _, _ => 0
  | fuel + 1, start, step =>
    if busy (start + step) then 1 + busyRun busy fuel (start + step) step
    else 0

/-- `_calculate_consecutive_penalty`. -/
def calculateConsecutivePenalty (st : GreedyState) (slot : TimeSlot)
    (faculty_id : String) (constraint : SchedulingConstraint) : Int :=
  let fuel := (constraint.max_consecutive_hours - 1).toNat
  let busy : Int → Bool := fun p => decide ((faculty_id, TimeSlot.mk slot.day p) ∈ st.facBusy)
  let consecutive : Int :=
    1 + busyRun busy fuel slot.period (-1) + busyRun busy fuel slot.period 1
  if consecutive > constraint.max_consecutive_hours then
    (consecutive - constraint.max_consecutive_hours) * 20
  else 0

/-- `_calculate_gap_penalty`. -/
def calculateGapPenalty (st : GreedyState) (slot : TimeSlot)
    (faculty_id : String) (constraint : SchedulingConstraint) : Int :=
  if constraint.min_gap_between_classes = 0 then 0
  else
    let today := st.facBusy.filter fun p => p.1 = faculty_id ∧ p.2.day = slot.day
    match today.map (fun p => (p.2.period - slot.period).natAbs) with
    | [] => 0
    | d :: ds =>
      let min_distance : Nat := ds.foldl min d
      if (min_distance : Int) < constraint.min_gap_between_classes then 15 else 0

/-- `_get_room_for_slot`: the source's room-tracking stub, which always
returns `None`. -/
def getRoomForSlot (_faculty_id : String) (_slot : TimeSlot) : Option String :=
  none

/-- `_calculate_movement_penalty`: charges 25 per adjacent same-faculty
class in a different room; with the `None`-returning room stub the charge
never fires, exactly as in the source. -/
def calculateMovementPenalty (st : GreedyState) (slot : TimeSlot)
    (faculty_id : String) (roomId : String) : Int :=
  let prev_slot := TimeSlot.mk slot.day (slot.period - 1)
  let next_slot := TimeSlot.mk slot.day (slot.period + 1)
  (st.facBusy.filter fun p => p.1 = faculty_id).foldl
    (fun penalty p =>
      if p.2 = prev_slot ∨ p.2 = next_slot then
        match getRoomForSlot faculty_id p.2 with
        | some existing_room => if existing_room ≠ roomId then penalty + 25 else penalty
        | none => penalty
      else penalty)
    0

/-- `_evaluate_slot`: 0 when a hard constraint is violated, otherwise the
base score 100 with the source's additive soft adjustments, clamped at 0.
All adjustments are integral, so the float arithmetic is exact. -/
def evaluateSlot (cons : List (String × SchedulingConstraint)) (st : GreedyState)
    (slot : TimeSlot) (req : ClassRequirement) (room : RoomRec) : Int :=
  if !checkHardConstraints cons st slot req room.room_id then 0
  else
    let score : Int := 100
    let score := if req.preferred_slots ≠ [] ∧ slot ∈ req.preferred_slots then score + 50 else score
    let score :=
      match alGet? cons req.faculty_id with
      | some constraint =>
        let score :=
          if constraint.preferred_days ≠ [] ∧ slot.day ∈ constraint.preferred_days then
            score + 20
          else score
        let score := score - calculateConsecutivePenalty st slot req.faculty_id constraint
        score - calculateGapPenalty st slot req.faculty_id constraint
      | none => score
    let score := score - calculateMovementPenalty st slot req.faculty_id room.room_id
    let score :=
      if pyLower req.subject_name ∈ ["mathematics", "physics", "chemistry"] ∧ slot.period ≥ 5 then
        score - 30
      else score
    let day_load := (st.groupBusy.filter fun p =>
      p.1 = req.student_group_id ∧ p.2.day = slot.day).length
    let score := if day_load > 4 then score - (day_load : Int) * 10 else score
    let score := if room.capacity.getD 100 < 30 then score - 10 else score
    max 0 score

/-- First candidate attaining the maximal score.  The source pushes
`(-score, slot, room)` tuples onto a heap and pops once; `TimeSlot` defines
no ordering, so the heap's tie order between equal scores is not defined by
the source; the model resolves ties to the first candidate in enumeration
order.  No claim below depends on the tie order. -/
def pickBest {α : Type} : List (Int × α) → Option (Int × α)
  | [] => none
  | c :: t =>
    match pickBest t with
    | none => some c
    | some m => if m.1 > c.1 then some m else some c

/-- The candidate pool `_find_best_slot` builds: every (day, period, room)
cell whose duration fits the day and whose score is above 0, in enumeration
order, with its score. -/
def candidatesFor (cons : List (String × SchedulingConstraint)) (st : GreedyState)
    (req : ClassRequirement) (rooms_of_type : List RoomRec) :
    List (Int × TimeSlot × RoomRec) :=
  (List.range 5).flatMap fun day =>
    (List.range 8).flatMap fun period =>
      if period + req.duration > 8 then []
      else
        rooms_of_type.filterMap fun room =>
          let slot := TimeSlot.mk day (period : Int)
          let score := evaluateSlot cons st slot req room
          if score > 0 then some (score, slot, room) else none

/-- `_find_best_slot`: enumerate all (day, period, room) candidates whose
duration fits the day, score each, keep those scoring above 0, return the
best (or `none`, in particular when no room of the required type exists). -/
def findBestSlot (cons : List (String × SchedulingConstraint)) (st : GreedyState)
    (req : ClassRequirement) (rbt : RoomsByType) : Option (TimeSlot × RoomRec) :=
  if roomsOfType rbt req.room_type = [] then none
  else
    (pickBest (candidatesFor cons st req (roomsOfType rbt req.room_type))).map (·.2)

/-- One period of `_allocate_slot`: mark period `slot.period + i` busy for
the faculty, the room and the group. -/
def allocStep (slot : TimeSlot) (req : ClassRequirement) (roomId : String)
    (st : GreedyState) (i : Nat) : GreedyState :=
  let occupied := TimeSlot.mk slot.day (slot.period + (i : Int))
  { facBusy := setAdd (req.faculty_id, occupied) st.facBusy
    roomBusy := setAdd (roomId, occupied) st.roomBusy
    groupBusy := setAdd (req.student_group_id, occupied) st.groupBusy }

/-- `_allocate_slot`: mark every covered period busy for the faculty, the
room and the group. -/
def allocateSlot (st : GreedyState) (slot : TimeSlot) (req : ClassRequirement)
    (roomId : String) : GreedyState :=
  (List.range req.duration).foldl (allocStep slot req roomId) st

/-- One committed placement: the requirement, the chosen start slot and the
chosen room (the source immediately flattens this into the `class_info`
dict; the commit form also carries the room record so that room-type
properties are statable). -/
structure Commit where
  req : ClassRequirement
  slot : TimeSlot
  room : RoomRec
deriving DecidableEq, Repr

/-- The `weekly_frequency` inner loop of `_schedule_classes_greedily`:
each occurrence either commits the best slot and updates the busy sets, or
(warning printed) is dropped and the loop continues. -/
def scheduleOccurrences (cons : List (String × SchedulingConstraint))
    (rbt : RoomsByType) (req : ClassRequirement) :
    Nat → GreedyState → List Commit × GreedyState
  | 0, st => ([], st)
  | n + 1, st =>
    match findBestSlot cons st req rbt with
    | some (slot, room) =>
      let st2 := allocateSlot st slot req room.room_id
      let (cs, st3) := scheduleOccurrences cons rbt req n st2
      (Commit.mk req slot room :: cs, st3)
    | none => scheduleOccurrences cons rbt req n st

/-- The requirement loop of `_schedule_classes_greedily`. -/
def scheduleCore (cons : List (String × SchedulingConstraint)) (rbt : RoomsByType) :
    List ClassRequirement → GreedyState → List Commit × GreedyState
  | [], st => ([], st)
  | req :: rest, st =>
    let (cs, st2) := scheduleOccurrences cons rbt req req.weekly_frequency st
    let (cs2, st3) := scheduleCore cons rbt rest st2
    (cs ++ cs2, st3)

/-! ## The schedule document shared by the phases

Every phase passes around a loosely-typed dict.  `PyClass` models a class
entry (any producer's key set is a subset of these fields), `PySchedule`
models the schedule document itself. -/

/-- A class entry dict.  The greedy scheduler fills the first eleven keys;
the genetic phenotype emitter fills only `subject_id`, `faculty_id`,
`room_id` and `group_id`. -/
structure PyClass where
  subject_id : Option String := none
  subject_name : Option String := none
  faculty_id : Option String := none
  student_group_id : Option String := none
  group_id : Option String := none
  room_id : Option String := none
  room_name : Option String := none
  day : Option Nat := none
  period : Option Int := none
  time_slot : Option String := none
  duration : Option Nat := none
  room_type : Option String := none
deriving DecidableEq, Repr

/-- `Conflict` (conflict_resolver.py). -/
structure Conflict where
  conflict_id : String
  conflict_type : String
  severity : String
  description : String
  affected_classes : List PyClass
  resolution_suggestions : List String
  time_slot : String
  day : String
deriving DecidableEq, Repr

/-- The `statistics` sub-dict of the greedy output. -/
structure Stats where
  total_classes_scheduled : Nat
  total_available_slots : Nat
  utilization_rate : ℚ
deriving DecidableEq, Repr

/-- The `optimization_metrics` sub-dict of the genetic output. -/
structure OptMetrics where
  fitness_score : ℚ
  conflict_count : ℚ
  utilization_rate : ℚ
  movement_reduction : ℚ
  fatigue_prevention : ℚ
deriving DecidableEq, Repr

/-- The `ai_metadata` sub-dict of the genetic output. -/
structure AIMeta where
  algorithm : String
  generations_used : Nat
  population_size : Nat
  final_conflicts : ℚ
deriving DecidableEq, Repr

/-- The schedule document: `weekly_schedule` maps a day name to a map from
period label to a class list (both dicts in insertion order); the remaining
keys are optional because each phase fills a different subset. -/
structure PySchedule where
  weekly_schedule : List (String × List (String × List PyClass)) := []
  statistics : Option Stats := none
  conflicts : Option (List Conflict) := none
  utilization_rate : Option ℚ := none
  algorithm : Option String := none
  subjects : Option (List String) := none
  faculty : Option (List String) := none
  rooms : Option (List String) := none
  student_groups : Option (List String) := none
  optimization_metrics : Option OptMetrics := none
  ai_metadata : Option AIMeta := none
  program_type : Option String := none
deriving DecidableEq, Repr

/-- The `class_info` dict committed by `_schedule_classes_greedily`.
`self.time_slots[slot.period]` is indexed with a period the enumeration
produced in `[0, 8)` (proved below); out-of-range indexing, on which the
source would raise, is totalised to `""`. -/
def commitToClassInfo (c : Commit) : PyClass :=
  { subject_id := some c.req.subject_id
    subject_name := some c.req.subject_name
    faculty_id := some c.req.faculty_id
    student_group_id := some c.req.student_group_id
    room_id := some c.room.room_id
    room_name := some (c.room.name.getD c.room.room_id)
    day := some c.slot.day
    period := some c.slot.period
    time_slot := some ((timeSlotLabels.getD c.slot.period.toNat ""))
    duration := some c.req.duration }

/-- Append a class to the weekly-schedule cell `(day_name, time_slot)`,
creating the (empty-list) cell first when absent, exactly as the population
loop of `_generate_schedule_output` does. -/
def weeklyAppend (weekly : List (String × List (String × List PyClass)))
    (day_name time_slot : String) (c : PyClass) :
    List (String × List (String × List PyClass)) :=
  let day_sched := alGetD weekly day_name []
  let cell := alGetD day_sched time_slot []
  alSet day_name (alSet time_slot (cell ++ [c]) day_sched) weekly

/-- `_generate_schedule_output`: initialise the five day dicts, bucket the
scheduled classes into cells, then attach statistics and the
`list(set(...))` metadata lists. -/
def generateScheduleOutput (scheduled_classes : List PyClass) : PySchedule :=
  let weekly0 := dayNames.map fun d => (d, ([] : List (String × List PyClass)))
  let weekly :=
    scheduled_classes.foldl
      (fun w c => weeklyAppend w (dayNames.getD (c.day.getD 0) "") (c.time_slot.getD "") c)
      weekly0
  let total_slots : Nat := 5 * 8
  let occupied_slots : Nat := scheduled_classes.length
  let utilization : ℚ :=
    if total_slots > 0 then ((occupied_slots : ℚ) / (total_slots : ℚ)) * 100 else 0
  { weekly_schedule := weekly
    statistics := some
      { total_classes_scheduled := scheduled_classes.length
        total_available_slots := total_slots
        utilization_rate := utilization }
    conflicts := some []
    utilization_rate := some utilization
    algorithm := some "Greedy"
    subjects := some (pySetList (scheduled_classes.map fun c => c.subject_id.getD ""))
    faculty := some (pySetList (scheduled_classes.map fun c => c.faculty_id.getD ""))
    rooms := some (pySetList (scheduled_classes.map fun c => c.room_id.getD ""))
    student_groups := some (pySetList (scheduled_classes.map fun c => c.student_group_id.getD "")) }

/-- The commits of a full greedy run (requirements parsed and sorted, rooms
bucketed, constraints parsed; empty busy sets). -/
def greedyCommits (cons : List (String × SchedulingConstraint)) (rd : RequestData) :
    List Commit :=
  (scheduleCore cons (parseRoomData rd) (parseClassRequirements rd) {}).1

/-- `generate_initial_schedule`: the only exception source is faculty
constraint parsing; the schedule itself is then computed and formatted. -/
def generateInitialSchedule (rd : RequestData) : Except PyError PySchedule := do
  let cons ← parseFacultyConstraints rd
  pure (generateScheduleOutput ((greedyCommits cons rd).map commitToClassInfo))

/-! ## Feasibility invariants I1 - I6 of the greedy scheduler -/

/-- The (day, period) cells a committed assignment covers. -/
def covers (c : Commit) : List TimeSlot :=
  (List.range c.req.duration).map fun (i : Nat) =>
    TimeSlot.mk c.slot.day (c.slot.period + (i : Int))

/-- Exclusion between two commits sharing an entity (faculty, room or
cohort): their covered cells are disjoint. -/
def exclusionRel (key : Commit → String) (a b : Commit) : Prop :=
  key a = key b → ∀ s ∈ covers a, s ∉ covers b

/-- The parsed unavailable slots of a faculty (empty when the faculty has
no constraint record, as in the source's `in self.constraints` guard). -/
def unavailOf (cons : List (String × SchedulingConstraint)) (f : String) : List TimeSlot :=
  match alGet? cons f with
  | some c => c.unavailable_slots
  | none => []

/-- Invariants I1-I6 over a commit list: I1/I2/I3 pairwise
faculty/room/cohort exclusion, I4 faculty availability, I5 duration fit
(with the day and period in range), I6 room-type match. -/
def GreedyInvariants (cons : List (String × SchedulingConstraint))
    (l : List Commit) : Prop :=
  List.Pairwise (exclusionRel fun c => c.req.faculty_id) l ∧
  List.Pairwise (exclusionRel fun c => c.room.room_id) l ∧
  List.Pairwise (exclusionRel fun c => c.req.student_group_id) l ∧
  (∀ c ∈ l, ∀ s ∈ covers c, s ∉ unavailOf cons c.req.faculty_id) ∧
  (∀ c ∈ l, c.slot.day < 5 ∧ 0 ≤ c.slot.period ∧
    c.slot.period + (c.req.duration : Int) ≤ 8) ∧
  (∀ c ∈ l, c.room.roomtype.getD "lecture" = c.req.room_type)

/-- A busy set is exactly the union of covered cells of the commits made so
far, per entity. -/
def BusyInv (key : Commit → String) (l : List Commit)
    (busy : List (String × TimeSlot)) : Prop :=
  ∀ f s, (f, s) ∈ busy ↔ ∃ c ∈ l, key c = f ∧ s ∈ covers c

/-- All three busy sets track the commits made so far. -/
def StateInv (l : List Commit) (st : GreedyState) : Prop :=
  BusyInv (fun c => c.req.faculty_id) l st.facBusy ∧
  BusyInv (fun c => c.room.room_id) l st.roomBusy ∧
  BusyInv (fun c => c.req.student_group_id) l st.groupBusy

lemma setAdd_mem {α : Type} [DecidableEq α] {a x : α} {l : List α} :
    x ∈ setAdd a l ↔ x = a ∨ x ∈ l := by
  unfold setAdd
  split
  · next h => exact ⟨Or.inr, fun hx => hx.elim (fun e => e ▸ h) id⟩
  · exact List.mem_cons

lemma covers_mem {c : Commit} {s : TimeSlot} :
    s ∈ covers c ↔
      ∃ i : Nat, i < c.req.duration ∧ s = TimeSlot.mk c.slot.day (c.slot.period + (i : Int)) := by
  unfold covers
  rw [List.mem_map]
  constructor
  · rintro ⟨i, hi, rfl⟩
    exact ⟨i, List.mem_range.mp hi, rfl⟩
  · rintro ⟨i, hi, rfl⟩
    exact ⟨i, List.mem_range.mpr hi, rfl⟩

lemma pickBest_mem {α : Type} {l : List (Int × α)} {c : Int × α}
    (h : pickBest l = some c) : c ∈ l := by
  induction l with
  | nil => simp [pickBest] at h
  | cons a t ih =>
    rcases hm : pickBest t with _ | m
    · have hd : pickBest (a :: t) = some a := by unfold pickBest; rw [hm]
      rw [hd] at h
      injection h with h2
      exact h2 ▸ List.mem_cons_self a t
    · have hd : pickBest (a :: t) = if m.1 > a.1 then some m else some a := by
        unfold pickBest; rw [hm]
      rw [hd] at h
      split at h
      · injection h with h2
        exact List.mem_cons_of_mem _ (ih (h2 ▸ hm))
      · injection h with h2
        exact h2 ▸ List.mem_cons_self a t

lemma checkHard_spec {cons : List (String × SchedulingConstraint)}
    {st : GreedyState} {slot : TimeSlot} {req : ClassRequirement} {roomId : String}
    (h : checkHardConstraints cons st slot req roomId = true) :
    ∀ i : Nat, i < req.duration →
      (req.faculty_id, TimeSlot.mk slot.day (slot.period + (i : Int))) ∉ st.facBusy ∧
      (roomId, TimeSlot.mk slot.day (slot.period + (i : Int))) ∉ st.roomBusy ∧
      (req.student_group_id, TimeSlot.mk slot.day (slot.period + (i : Int))) ∉ st.groupBusy ∧
      TimeSlot.mk slot.day (slot.period + (i : Int)) ∉ unavailOf cons req.faculty_id := by
  intro i hi
  unfold checkHardConstraints at h
  rw [List.all_eq_true] at h
  have hx := h i (List.mem_range.mpr hi)
  simp only [Bool.and_eq_true, Bool.not_eq_true', decide_eq_false_iff_not] at hx
  refine ⟨hx.1.1.1, hx.1.1.2, hx.1.2, ?_⟩
  have h4 := hx.2
  unfold unavailOf
  rcases hc : alGet? cons req.faculty_id with _ | k
  · exact List.not_mem_nil _
  · rw [hc] at h4
    simpa [Bool.not_eq_true', decide_eq_false_iff_not] using h4

lemma evaluateSlot_pos_checkHard {cons : List (String × SchedulingConstraint)}
    {st : GreedyState} {slot : TimeSlot} {req : ClassRequirement} {room : RoomRec}
    (h : 0 < evaluateSlot cons st slot req room) :
    checkHardConstraints cons st slot req room.room_id = true := by
  by_contra hc
  rw [Bool.not_eq_true] at hc
  unfold evaluateSlot at h
  rw [hc] at h
  simp at h

lemma candidatesFor_sound {cons : List (String × SchedulingConstraint)}
    {st : GreedyState} {req : ClassRequirement} {rooms : List RoomRec}
    {score : Int} {slot : TimeSlot} {room : RoomRec}
    (h : (score, slot, room) ∈ candidatesFor cons st req rooms) :
    0 < evaluateSlot cons st slot req room ∧
    room ∈ rooms ∧
    slot.day < 5 ∧ 0 ≤ slot.period ∧ slot.period + (req.duration : Int) ≤ 8 := by
  unfold candidatesFor at h
  simp only [List.mem_flatMap] at h
  obtain ⟨day, hday, period, hperiod, hin⟩ := h
  rw [List.mem_range] at hday hperiod
  split at hin
  · simp at hin
  · next hfit =>
    rw [List.mem_filterMap] at hin
    obtain ⟨r, hr, heq⟩ := hin
    split at heq
    · next hpos =>
      injection heq with h1
      have h2 : slot = TimeSlot.mk day (period : Int) ∧ room = r := by
        have ha := congrArg (fun p => p.2.1) h1
        have hb := congrArg (fun p => p.2.2) h1
        exact ⟨ha.symm, hb.symm⟩
      obtain ⟨hslot, hroom⟩ := h2
      subst hslot hroom
      have hfit2 : period + req.duration ≤ 8 := Nat.le_of_not_lt hfit
      refine ⟨hpos, hr, hday, Int.natCast_nonneg period, ?_⟩
      show (period : Int) + (req.duration : Int) ≤ 8
      exact_mod_cast hfit2
    · simp at heq

lemma findBestSlot_sound {cons : List (String × SchedulingConstraint)}
    {st : GreedyState} {req : ClassRequirement} {rbt : RoomsByType}
    {slot : TimeSlot} {room : RoomRec}
    (h : findBestSlot cons st req rbt = some (slot, room)) :
    checkHardConstraints cons st slot req room.room_id = true ∧
    room ∈ roomsOfType rbt req.room_type ∧
    slot.day < 5 ∧ 0 ≤ slot.period ∧ slot.period + (req.duration : Int) ≤ 8 := by
  unfold findBestSlot at h
  split at h
  · exact absurd h (by simp)
  · rcases hp : pickBest (candidatesFor cons st req (roomsOfType rbt req.room_type))
      with _ | c
    · rw [hp] at h; simp at h
    · rw [hp] at h
      have h2 : c.2 = (slot, room) := by simpa using h
      have hmem := pickBest_mem hp
      have hc : c = (c.1, slot, room) := by rw [← h2]
      rw [hc] at hmem
      obtain ⟨hpos, hr, hrange⟩ := candidatesFor_sound hmem
      exact ⟨evaluateSlot_pos_checkHard hpos, hr, hrange⟩

lemma roomStep_lecture_mem {acc : RoomsByType} {r x : RoomRec}
    (h : x ∈ (roomStep acc r).lecture) :
    x ∈ acc.lecture ∨ (x = r ∧ r.roomtype.getD "lecture" = "lecture") := by
  by_cases e1 : r.roomtype.getD "lecture" = "lecture"
  · simp only [roomStep, e1, if_pos rfl] at h
    rcases List.mem_append.mp h with hm | hm
    · exact Or.inl hm
    · exact Or.inr ⟨List.mem_singleton.mp hm, e1⟩
  · left
    by_cases e2 : r.roomtype.getD "lecture" = "lab" <;>
      by_cases e3 : r.roomtype.getD "lecture" = "seminar" <;>
      simpa [roomStep, e1, e2, e3] using h

lemma roomStep_lab_mem {acc : RoomsByType} {r x : RoomRec}
    (h : x ∈ (roomStep acc r).lab) :
    x ∈ acc.lab ∨ (x = r ∧ r.roomtype.getD "lecture" = "lab") := by
  by_cases e1 : r.roomtype.getD "lecture" = "lecture"
  · left; simpa [roomStep, e1] using h
  · by_cases e2 : r.roomtype.getD "lecture" = "lab"
    · simp only [roomStep, e1, e2, if_neg, if_pos rfl] at h
      rcases List.mem_append.mp h with hm | hm
      · exact Or.inl hm
      · exact Or.inr ⟨List.mem_singleton.mp hm, e2⟩
    · left
      by_cases e3 : r.roomtype.getD "lecture" = "seminar" <;>
        simpa [roomStep, e1, e2, e3] using h

lemma roomStep_seminar_mem {acc : RoomsByType} {r x : RoomRec}
    (h : x ∈ (roomStep acc r).seminar) :
    x ∈ acc.seminar ∨ (x = r ∧ r.roomtype.getD "lecture" = "seminar") := by
  by_cases e1 : r.roomtype.getD "lecture" = "lecture"
  · left; simpa [roomStep, e1] using h
  · by_cases e2 : r.roomtype.getD "lecture" = "lab"
    · left; simpa [roomStep, e1, e2] using h
    · by_cases e3 : r.roomtype.getD "lecture" = "seminar"
      · simp only [roomStep, e1, e2, e3, if_neg, if_pos rfl] at h
        rcases List.mem_append.mp h with hm | hm
        · exact Or.inl hm
        · exact Or.inr ⟨List.mem_singleton.mp hm, e3⟩
      · left; simpa [roomStep, e1, e2, e3] using h

lemma roomsFold_types :
    ∀ (rooms : List RoomRec) (acc : RoomsByType),
      (∀ r ∈ acc.lecture, r.roomtype.getD "lecture" = "lecture") →
      (∀ r ∈ acc.lab, r.roomtype.getD "lecture" = "lab") →
      (∀ r ∈ acc.seminar, r.roomtype.getD "lecture" = "seminar") →
      (∀ r ∈ (rooms.foldl roomStep acc).lecture, r.roomtype.getD "lecture" = "lecture") ∧
      (∀ r ∈ (rooms.foldl roomStep acc).lab, r.roomtype.getD "lecture" = "lab") ∧
      (∀ r ∈ (rooms.foldl roomStep acc).seminar, r.roomtype.getD "lecture" = "seminar") := by
  intro rooms
  induction rooms with
  | nil => exact fun acc h1 h2 h3 => ⟨h1, h2, h3⟩
  | cons r rs ih =>
    intro acc h1 h2 h3
    rw [List.foldl_cons]
    refine ih (roomStep acc r) ?_ ?_ ?_
    · intro x hx
      rcases roomStep_lecture_mem hx with hm | ⟨rfl, ht⟩
      · exact h1 x hm
      · exact ht
    · intro x hx
      rcases roomStep_lab_mem hx with hm | ⟨rfl, ht⟩
      · exact h2 x hm
      · exact ht
    · intro x hx
      rcases roomStep_seminar_mem hx with hm | ⟨rfl, ht⟩
      · exact h3 x hm
      · exact ht

lemma allocFold_mem_fac (slot : TimeSlot) (req : ClassRequirement) (roomId : String) :
    ∀ (l : List Nat) (st : GreedyState) (x : String × TimeSlot),
      x ∈ (l.foldl (allocStep slot req roomId) st).facBusy ↔
        x ∈ st.facBusy ∨
          ∃ i ∈ l, x = (req.faculty_id, TimeSlot.mk slot.day (slot.period + (i : Int))) := by
  intro l
  induction l with
  | nil => intro st x; simp
  | cons a t ih =>
    intro st x
    rw [List.foldl_cons, ih]
    constructor
    · rintro (hm | ⟨i, hi, rfl⟩)
      · rcases setAdd_mem.mp hm with rfl | hm2
        · exact Or.inr ⟨a, List.mem_cons_self a t, rfl⟩
        · exact Or.inl hm2
      · exact Or.inr ⟨i, List.mem_cons_of_mem a hi, rfl⟩
    · rintro (hm | ⟨i, hi, rfl⟩)
      · exact Or.inl (setAdd_mem.mpr (Or.inr hm))
      · rcases List.mem_cons.mp hi with rfl | hi2
        · exact Or.inl (setAdd_mem.mpr (Or.inl rfl))
        · exact Or.inr ⟨i, hi2, rfl⟩

lemma allocFold_mem_room (slot : TimeSlot) (req : ClassRequirement) (roomId : String) :
    ∀ (l : List Nat) (st : GreedyState) (x : String × TimeSlot),
      x ∈ (l.foldl (allocStep slot req roomId) st).roomBusy ↔
        x ∈ st.roomBusy ∨
          ∃ i ∈ l, x = (roomId, TimeSlot.mk slot.day (slot.period + (i : Int))) := by
  intro l
  induction l with
  | nil => intro st x; simp
  | cons a t ih =>
    intro st x
    rw [List.foldl_cons, ih]
    constructor
    · rintro (hm | ⟨i, hi, rfl⟩)
      · rcases setAdd_mem.mp hm with rfl | hm2
        · exact Or.inr ⟨a, List.mem_cons_self a t, rfl⟩
        · exact Or.inl hm2
      · exact Or.inr ⟨i, List.mem_cons_of_mem a hi, rfl⟩
    · rintro (hm | ⟨i, hi, rfl⟩)
      · exact Or.inl (setAdd_mem.mpr (Or.inr hm))
      · rcases List.mem_cons.mp hi with rfl | hi2
        · exact Or.inl (setAdd_mem.mpr (Or.inl rfl))
        · exact Or.inr ⟨i, hi2, rfl⟩

lemma allocFold_mem_group (slot : TimeSlot) (req : ClassRequirement) (roomId : String) :
    ∀ (l : List Nat) (st : GreedyState) (x : String × TimeSlot),
      x ∈ (l.foldl (allocStep slot req roomId) st).groupBusy ↔
        x ∈ st.groupBusy ∨
          ∃ i ∈ l, x = (req.student_group_id, TimeSlot.mk slot.day (slot.period + (i : Int))) := by
  intro l
  induction l with
  | nil => intro st x; simp
  | cons a t ih =>
    intro st x
    rw [List.foldl_cons, ih]
    constructor
    · rintro (hm | ⟨i, hi, rfl⟩)
      · rcases setAdd_mem.mp hm with rfl | hm2
        · exact Or.inr ⟨a, List.mem_cons_self a t, rfl⟩
        · exact Or.inl hm2
      · exact Or.inr ⟨i, List.mem_cons_of_mem a hi, rfl⟩
    · rintro (hm | ⟨i, hi, rfl⟩)
      · exact Or.inl (setAdd_mem.mpr (Or.inr hm))
      · rcases List.mem_cons.mp hi with rfl | hi2
        · exact Or.inl (setAdd_mem.mpr (Or.inl rfl))
        · exact Or.inr ⟨i, hi2, rfl⟩

/-- Rooms bucketed by `_parse_room_data` carry the bucket's type
(`room.get('type', 'lecture')`). -/
lemma parseRoomData_types {rd : RequestData} {room : RoomRec} {t : String}
    (h : room ∈ roomsOfType (parseRoomData rd) t) :
    room.roomtype.getD "lecture" = t := by
  have base := roomsFold_types rd.rooms {} (by simp) (by simp) (by simp)
  unfold roomsOfType at h
  unfold parseRoomData at h
  split at h
  · next ht => exact ht ▸ base.1 room h
  · split at h
    · next ht => exact ht ▸ base.2.1 room h
    · split at h
      · next ht => exact ht ▸ base.2.2 room h
      · exact absurd h (List.not_mem_nil room)

lemma stateInv_step {l : List Commit} {st : GreedyState} {req : ClassRequirement}
    {slot : TimeSlot} {room : RoomRec} (hst : StateInv l st) :
    StateInv (l ++ [Commit.mk req slot room]) (allocateSlot st slot req room.room_id) := by
  obtain ⟨hf, hr, hg⟩ := hst
  refine ⟨?_, ?_, ?_⟩
  · intro f s
    rw [allocateSlot, allocFold_mem_fac, hf f s]
    constructor
    · rintro (⟨c, hc, hkey, hcov⟩ | ⟨i, hi, he⟩)
      · exact ⟨c, List.mem_append_left _ hc, hkey, hcov⟩
      · refine ⟨Commit.mk req slot room, List.mem_append_right _ (List.mem_singleton.mpr rfl), ?_, ?_⟩
        · exact (congrArg Prod.fst he).symm
        · rw [covers_mem]
          exact ⟨i, List.mem_range.mp hi, congrArg Prod.snd he⟩
    · rintro ⟨c, hc, hkey, hcov⟩
      rcases List.mem_append.mp hc with hcl | hcr
      · exact Or.inl ⟨c, hcl, hkey, hcov⟩
      · right
        have hceq : c = Commit.mk req slot room := List.mem_singleton.mp hcr
        subst hceq
        obtain ⟨i, hi, hs⟩ := covers_mem.mp hcov
        exact ⟨i, List.mem_range.mpr hi, by rw [← hkey, hs]⟩
  · intro f s
    rw [allocateSlot, allocFold_mem_room, hr f s]
    constructor
    · rintro (⟨c, hc, hkey, hcov⟩ | ⟨i, hi, he⟩)
      · exact ⟨c, List.mem_append_left _ hc, hkey, hcov⟩
      · refine ⟨Commit.mk req slot room, List.mem_append_right _ (List.mem_singleton.mpr rfl), ?_, ?_⟩
        · exact (congrArg Prod.fst he).symm
        · rw [covers_mem]
          exact ⟨i, List.mem_range.mp hi, congrArg Prod.snd he⟩
    · rintro ⟨c, hc, hkey, hcov⟩
      rcases List.mem_append.mp hc with hcl | hcr
      · exact Or.inl ⟨c, hcl, hkey, hcov⟩
      · right
        have hceq : c = Commit.mk req slot room := List.mem_singleton.mp hcr
        subst hceq
        obtain ⟨i, hi, hs⟩ := covers_mem.mp hcov
        exact ⟨i, List.mem_range.mpr hi, by rw [← hkey, hs]⟩
  · intro f s
    rw [allocateSlot, allocFold_mem_group, hg f s]
    constructor
    · rintro (⟨c, hc, hkey, hcov⟩ | ⟨i, hi, he⟩)
      · exact ⟨c, List.mem_append_left _ hc, hkey, hcov⟩
      · refine ⟨Commit.mk req slot room, List.mem_append_right _ (List.mem_singleton.mpr rfl), ?_, ?_⟩
        · exact (congrArg Prod.fst he).symm
        · rw [covers_mem]
          exact ⟨i, List.mem_range.mp hi, congrArg Prod.snd he⟩
    · rintro ⟨c, hc, hkey, hcov⟩
      rcases List.mem_append.mp hc with hcl | hcr
      · exact Or.inl ⟨c, hcl, hkey, hcov⟩
      · right
        have hceq : c = Commit.mk req slot room := List.mem_singleton.mp hcr
        subst hceq
        obtain ⟨i, hi, hs⟩ := covers_mem.mp hcov
        exact ⟨i, List.mem_range.mpr hi, by rw [← hkey, hs]⟩

lemma invariants_step {cons : List (String × SchedulingConstraint)}
    {l : List Commit} {st : GreedyState} {req : ClassRequirement}
    {slot : TimeSlot} {room : RoomRec}
    (hst : StateInv l st) (hinv : GreedyInvariants cons l)
    (hchk : checkHardConstraints cons st slot req room.room_id = true)
    (hday : slot.day < 5) (hp0 : 0 ≤ slot.period)
    (hfit : slot.period + (req.duration : Int) ≤ 8)
    (htype : room.roomtype.getD "lecture" = req.room_type) :
    GreedyInvariants cons (l ++ [Commit.mk req slot room]) := by
  obtain ⟨hPf, hPr, hPg, hUn, hRg, hTy⟩ := hinv
  obtain ⟨hBf, hBr, hBg⟩ := hst
  have covNew : ∀ s ∈ covers (Commit.mk req slot room),
      (req.faculty_id, s) ∉ st.facBusy ∧ (room.room_id, s) ∉ st.roomBusy ∧
      (req.student_group_id, s) ∉ st.groupBusy ∧ s ∉ unavailOf cons req.faculty_id := by
    intro s hs
    obtain ⟨i, hi, rfl⟩ := covers_mem.mp hs
    exact checkHard_spec hchk i hi
  refine ⟨?_, ?_, ?_, ?_, ?_, ?_⟩
  · rw [List.pairwise_append]
    refine ⟨hPf, List.pairwise_singleton _ _, ?_⟩
    intro a ha b hb
    have hbeq : b = Commit.mk req slot room := List.mem_singleton.mp hb
    subst hbeq
    intro hkey s hsa hsb
    have hbusy : (req.faculty_id, s) ∈ st.facBusy :=
      (hBf req.faculty_id s).mpr ⟨a, ha, hkey, hsa⟩
    exact (covNew s hsb).1 hbusy
  · rw [List.pairwise_append]
    refine ⟨hPr, List.pairwise_singleton _ _, ?_⟩
    intro a ha b hb
    have hbeq : b = Commit.mk req slot room := List.mem_singleton.mp hb
    subst hbeq
    intro hkey s hsa hsb
    have hbusy : (room.room_id, s) ∈ st.roomBusy :=
      (hBr room.room_id s).mpr ⟨a, ha, hkey, hsa⟩
    exact (covNew s hsb).2.1 hbusy
  · rw [List.pairwise_append]
    refine ⟨hPg, List.pairwise_singleton _ _, ?_⟩
    intro a ha b hb
    have hbeq : b = Commit.mk req slot room := List.mem_singleton.mp hb
    subst hbeq
    intro hkey s hsa hsb
    have hbusy : (req.student_group_id, s) ∈ st.groupBusy :=
      (hBg req.student_group_id s).mpr ⟨a, ha, hkey, hsa⟩
    exact (covNew s hsb).2.2.1 hbusy
  · intro c hc
    rcases List.mem_append.mp hc with hcl | hcr
    · exact hUn c hcl
    · have hceq : c = Commit.mk req slot room := List.mem_singleton.mp hcr
      subst hceq
      exact fun s hs => (covNew s hs).2.2.2
  · intro c hc
    rcases List.mem_append.mp hc with hcl | hcr
    · exact hRg c hcl
    · have hceq : c = Commit.mk req slot room := List.mem_singleton.mp hcr
      subst hceq
      exact ⟨hday, hp0, hfit⟩
  · intro c hc
    rcases List.mem_append.mp hc with hcl | hcr
    · exact hTy c hcl
    · have hceq : c = Commit.mk req slot room := List.mem_singleton.mp hcr
      subst hceq
      exact htype

lemma scheduleOcc_inv {cons : List (String × SchedulingConstraint)} {rbt : RoomsByType}
    (hrbt : ∀ room t, room ∈ roomsOfType rbt t → room.roomtype.getD "lecture" = t)
    (req : ClassRequirement) :
    ∀ (n : Nat) (st : GreedyState) (l : List Commit),
      StateInv l st → GreedyInvariants cons l →
      StateInv (l ++ (scheduleOccurrences cons rbt req n st).1)
        (scheduleOccurrences cons rbt req n st).2 ∧
      GreedyInvariants cons (l ++ (scheduleOccurrences cons rbt req n st).1) := by
  intro n
  induction n with
  | zero =>
    intro st l hst hinv
    simpa [scheduleOccurrences] using ⟨hst, hinv⟩
  | succ n ih =>
    intro st l hst hinv
    rcases hfind : findBestSlot cons st req rbt with _ | ⟨slot, room⟩
    · have hred : scheduleOccurrences cons rbt req (n + 1) st =
          scheduleOccurrences cons rbt req n st := by
        simp only [scheduleOccurrences]
        rw [hfind]
      rw [hred]
      exact ih st l hst hinv
    · obtain ⟨hchk, hroom, hday, hp0, hfit⟩ := findBestSlot_sound hfind
      have htype := hrbt room req.room_type hroom
      have hred : scheduleOccurrences cons rbt req (n + 1) st =
          (Commit.mk req slot room ::
            (scheduleOccurrences cons rbt req n (allocateSlot st slot req room.room_id)).1,
           (scheduleOccurrences cons rbt req n (allocateSlot st slot req room.room_id)).2) := by
        simp only [scheduleOccurrences]
        rw [hfind]
      rw [hred]
      have hmain := ih (allocateSlot st slot req room.room_id)
        (l ++ [Commit.mk req slot room])
        (stateInv_step hst)
        (invariants_step hst hinv hchk hday hp0 hfit htype)
      rw [List.append_assoc, List.singleton_append] at hmain
      exact hmain

lemma scheduleCore_inv {cons : List (String × SchedulingConstraint)} {rbt : RoomsByType}
    (hrbt : ∀ room t, room ∈ roomsOfType rbt t → room.roomtype.getD "lecture" = t) :
    ∀ (reqs : List ClassRequirement) (st : GreedyState) (l : List Commit),
      StateInv l st → GreedyInvariants cons l →
      StateInv (l ++ (scheduleCore cons rbt reqs st).1) (scheduleCore cons rbt reqs st).2 ∧
      GreedyInvariants cons (l ++ (scheduleCore cons rbt reqs st).1) := by
  intro reqs
  induction reqs with
  | nil =>
    intro st l hst hinv
    simpa [scheduleCore] using ⟨hst, hinv⟩
  | cons req rest ih =>
    intro st l hst hinv
    have hred : scheduleCore cons rbt (req :: rest) st =
        ((scheduleOccurrences cons rbt req req.weekly_frequency st).1 ++
          (scheduleCore cons rbt rest
            (scheduleOccurrences cons rbt req req.weekly_frequency st).2).1,
         (scheduleCore cons rbt rest
            (scheduleOccurrences cons rbt req req.weekly_frequency st).2).2) := rfl
    rw [hred]
    obtain ⟨hst2, hinv2⟩ := scheduleOcc_inv hrbt req req.weekly_frequency st l hst hinv
    have hmain := ih (scheduleOccurrences cons rbt req req.weekly_frequency st).2
      (l ++ (scheduleOccurrences cons rbt req req.weekly_frequency st).1) hst2 hinv2
    rw [List.append_assoc] at hmain
    exact hmain

/-- The commit list of a greedy run satisfies I1-I6 (helper shared by the
claim theorems). -/
lemma greedyCommits_inv (cons : List (String × SchedulingConstraint))
    (rd : RequestData) :
    GreedyInvariants cons (greedyCommits cons rd) := by
  have hbase : StateInv [] ({} : GreedyState) := by
    refine ⟨?_, ?_, ?_⟩ <;> intro f s <;> simp [BusyInv]
  have hinv0 : GreedyInvariants cons [] := by
    refine ⟨List.Pairwise.nil, List.Pairwise.nil, List.Pairwise.nil, ?_, ?_, ?_⟩ <;> simp
  have h := @scheduleCore_inv cons (parseRoomData rd)
    (fun room t ht => parseRoomData_types ht)
    (parseClassRequirements rd) {} [] hbase hinv0
  simpa [greedyCommits] using h.2

/-- Claim C1 - the greedy scheduler only emits feasible schedules.  For
every catalog and every constraint dictionary (in a run, the parsed faculty
constraints), the commit list of `_schedule_classes_greedily` satisfies
I1-I6: no faculty, room or cohort double-booking on any covered (day,
period) cell, no assignment covering a faculty-unavailable slot, every
assignment fitting inside the 8-period day (period + duration at most 8),
and every assignment's room of exactly the requirement's required type. -/
theorem greedy_satisfies_invariants (cons : List (String × SchedulingConstraint))
    (rd : RequestData) :
    GreedyInvariants cons (greedyCommits cons rd) :=
  greedyCommits_inv cons rd

/-! ## Data model and fitness of `genetic_algorithm.py` -/

/-- `Gene`: one time-slot assignment. -/
structure Gene where
  subject_id : String
  faculty_id : String
  room_id : String
  student_group_id : String
  day : Nat
  time_slot : Nat
deriving DecidableEq, Repr

/-- `Chromosome`: a complete candidate timetable with its score fields. -/
structure Chromosome where
  genes : List Gene
  fitness_score : ℚ := 0
  conflict_count : ℚ := 0
  utilization_score : ℚ := 0
  green_score : ℚ := 0
  fatigue_score : ℚ := 0
deriving DecidableEq, Repr

/-- The `f"{day}_{time_slot}"` key of `_evaluate_conflicts`. -/
def timeKey (g : Gene) : String := toString g.day ++ "_" ++ toString g.time_slot

/-- One dimension of the `_evaluate_conflicts` loop body: if the entity
already has this time key, count one conflict (and leave the set alone,
as the source does); otherwise record the key. -/
def dupStep (m : List (String × List String)) (k tk : String) :
    Nat × List (String × List String) :=
  match alGet? m k with
  | some s => if tk ∈ s then (1, m) else (0, alSet k (setAdd tk s) m)
  | none => (0, alSet k [tk] m)

/-- The conflict-counting loop of `_evaluate_conflicts`: one pass over the
genes, threading the faculty, room and student-group key-set dictionaries. -/
def conflictsGo : List Gene → List (String × List String) →
    List (String × List String) → List (String × List String) → Nat
  | [], _, _, _ => 0
  | g :: t, fm, rm, sm =>
    let tk := timeKey g
    let f2 := dupStep fm g.faculty_id tk
    let r2 := dupStep rm g.room_id tk
    let s2 := dupStep sm g.student_group_id tk
    f2.1 + r2.1 + s2.1 + conflictsGo t f2.2 r2.2 s2.2

/-- `_evaluate_conflicts`: duplicate count scaled to a 0-100 score with a
double penalty; an empty chromosome scores 100. -/
def evaluateConflicts (ch : Chromosome) : ℚ :=
  let conflicts := conflictsGo ch.genes [] [] []
  let max_possible_conflicts := ch.genes.length
  if max_possible_conflicts = 0 then 100
  else
    let conflict_percentage : ℚ :=
      ((conflicts : ℚ) / (max_possible_conflicts : ℚ)) * 100
    max 0 (100 - conflict_percentage * 2)

/-- Per-faculty utilization of `_evaluate_utilization` (ideal 6 hours; the
over-utilization branch overwrites the capped value). -/
def facultyUtil (hours : Nat) : ℚ :=
  if hours = 0 then 0
  else if hours > 6 then max 0 (100 - ((hours : ℚ) - 6) * 10)
  else min 100 ((hours : ℚ) / 6 * 100)

/-- Per-room utilization of `_evaluate_utilization` (ideal 7 hours, no
over-utilization penalty). -/
def roomUtil (hours : Nat) : ℚ :=
  if hours = 0 then 0 else min 100 ((hours : ℚ) / 7 * 100)

/-- `np.mean` over a nonempty rational list. -/
def qMean (l : List ℚ) : ℚ := (l.foldl (· + ·) 0) / (l.length : ℚ)

/-- Hour-count dictionary: `hours[k] = hours.get(k, 0) + 1` per gene. -/
def hoursCount (keys : List String) : List (String × Nat) :=
  keys.foldl (fun m k => alSet k (alGetD m k 0 + 1) m) []

/-- `_evaluate_utilization`. -/
def evaluateUtilization (ch : Chromosome) : ℚ :=
  if ch.genes = [] then 0
  else
    let faculty_hours := hoursCount (ch.genes.map fun g => g.faculty_id)
    let room_hours := hoursCount (ch.genes.map fun g => g.room_id)
    let faculty_utilization := faculty_hours.map fun p => facultyUtil p.2
    let room_utilization := room_hours.map fun p => roomUtil p.2
    let avg_faculty_util := if faculty_utilization ≠ [] then qMean faculty_utilization else 0
    let avg_room_util := if room_utilization ≠ [] then qMean room_utilization else 0
    (avg_faculty_util + avg_room_util) / 2

/-- Adjacent room changes in a (sorted) same-day gene list. -/
def countAdjMoves : List Gene → Nat
  | a :: b :: t => (if a.room_id ≠ b.room_id then 1 else 0) + countAdjMoves (b :: t)
  | _ => 0

/-- `_evaluate_green_optimization`: per (faculty, day) group with at least
two genes, count room changes between period-sorted neighbours.  The source
accumulates over a nested insertion-ordered dict of dicts; the embedding
accumulates over first-occurrence (faculty, day) keys - the sums are
identical because addition is commutative. -/
def evaluateGreenOptimization (ch : Chromosome) : ℚ :=
  if ch.genes = [] then 100
  else
    let keys := pySetList (ch.genes.map fun g => (g.faculty_id, g.day))
    let totals :=
      keys.foldl
        (fun acc k =>
          let day_genes := ch.genes.filter fun g => g.faculty_id = k.1 ∧ g.day = k.2
          if day_genes.length ≤ 1 then acc
          else
            let sorted := pySort (fun a b => a.time_slot < b.time_slot) day_genes
            (acc.1 + countAdjMoves sorted, acc.2 + (day_genes.length - 1)))
        ((0, 0) : Nat × Nat)
    if totals.2 = 0 then 100
    else max 0 (100 - ((totals.1 : ℚ) / (totals.2 : ℚ)) * 100)

/-- The heavy-subject set of `_evaluate_fatigue_prevention`. -/
def heavySubjects : List String :=
  ["mathematics", "physics", "chemistry", "advanced_math"]

/-- Violations and checks over a period-sorted same-day gene list: each
consecutive-period neighbour pair is a check, and a violation when both
subjects are heavy. -/
def fatigueCounts : List Gene → Nat × Nat
  | a :: b :: t =>
    let rest := fatigueCounts (b :: t)
    if b.time_slot = a.time_slot + 1 then
      ((if pyLower a.subject_id ∈ heavySubjects ∧ pyLower b.subject_id ∈ heavySubjects
        then 1 else 0) + rest.1,
       1 + rest.2)
    else rest
  | _ => (0, 0)

/-- `_evaluate_fatigue_prevention` (accumulated over first-occurrence
(cohort, day) keys, as for the green score). -/
def evaluateFatiguePrevention (ch : Chromosome) : ℚ :=
  if ch.genes = [] then 100
  else
    let keys := pySetList (ch.genes.map fun g => (g.student_group_id, g.day))
    let totals :=
      keys.foldl
        (fun acc k =>
          let day_genes := ch.genes.filter fun g => g.student_group_id = k.1 ∧ g.day = k.2
          if day_genes.length ≤ 1 then acc
          else
            let sorted := pySort (fun a b => a.time_slot < b.time_slot) day_genes
            (acc.1 + (fatigueCounts sorted).1, acc.2 + (fatigueCounts sorted).2))
        ((0, 0) : Nat × Nat)
    if totals.2 = 0 then 100
    else max 0 (100 - ((totals.1 : ℚ) / (totals.2 : ℚ)) * 100)

/-- The dict `_calculate_fitness` returns. -/
structure FitnessResult where
  total_score : ℚ
  conflicts : ℚ
  utilization : ℚ
  green_score : ℚ
  fatigue_score : ℚ
deriving DecidableEq, Repr

/-- `_calculate_fitness`: the 0.40 / 0.25 / 0.20 / 0.15 weighted blend. -/
def calculateFitness (ch : Chromosome) : FitnessResult :=
  let conflict_score := evaluateConflicts ch
  let utilization_score := evaluateUtilization ch
  let green_score := evaluateGreenOptimization ch
  let fatigue_score := evaluateFatiguePrevention ch
  { total_score :=
      conflict_score * (0.40 : ℚ) + utilization_score * (0.25 : ℚ) +
      green_score * (0.20 : ℚ) + fatigue_score * (0.15 : ℚ)
    conflicts := 100 - conflict_score
    utilization := utilization_score
    green_score := green_score
    fatigue_score := fatigue_score }

/-- One chromosome's share of `_evaluate_population_fitness`: write the
fitness result into the score fields. -/
def evalChromosome (ch : Chromosome) : Chromosome :=
  let r := calculateFitness ch
  { ch with
    fitness_score := r.total_score
    conflict_count := r.conflicts
    utilization_score := r.utilization
    green_score := r.green_score
    fatigue_score := r.fatigue_score }

/-- Python `max(population, key=lambda x: x.fitness_score)`: the first
maximum. -/
def maxByFitness : List Chromosome → Option Chromosome
  | [] => none
  | c :: t =>
    match maxByFitness t with
    | none => some c
    | some m => if m.fitness_score > c.fitness_score then some m else some c

/-- `_slot_index_to_time`. -/
def slotIndexToTime (index : Nat) : String :=
  timeSlotLabels.getD (min index (timeSlotLabels.length - 1)) ""

/-- `_time_to_slot_index` (`ValueError` is caught and mapped to 0). -/
def timeToSlotIndex (time_str : String) : Nat :=
  (idxOf timeSlotLabels time_str).getD 0

/-- `_chromosome_to_schedule`: phenotype emission.  `days[gene.day]` is
totalised with `""` for out-of-range days (on which the source would
raise). -/
def chromosomeToSchedule (ch : Chromosome) (generations population_size : Nat) :
    PySchedule :=
  let weekly0 := dayNames.map fun d => (d, ([] : List (String × List PyClass)))
  let weekly :=
    ch.genes.foldl
      (fun w g =>
        let class_info : PyClass :=
          { subject_id := some g.subject_id
            faculty_id := some g.faculty_id
            room_id := some g.room_id
            group_id := some g.student_group_id }
        weeklyAppend w (dayNames.getD g.day "") (slotIndexToTime g.time_slot) class_info)
      weekly0
  { weekly_schedule := weekly
    optimization_metrics := some
      { fitness_score := ch.fitness_score
        conflict_count := ch.conflict_count
        utilization_rate := ch.utilization_score
        movement_reduction := ch.green_score
        fatigue_prevention := ch.fatigue_score }
    ai_metadata := some
      { algorithm := "Genetic Algorithm"
        generations_used := generations
        population_size := population_size
        final_conflicts := ch.conflict_count } }

/-- The genes one weekly-schedule cell contributes in
`_schedule_to_chromosome`; the cohort is read from the key `'group_id'`
(the greedy scheduler stores it under `'student_group_id'`). -/
def cellGenes (day_idx : Nat) (time_slot : String) (classes : List PyClass) :
    List Gene :=
  classes.map fun class_info =>
    { subject_id := class_info.subject_id.getD ""
      faculty_id := class_info.faculty_id.getD ""
      room_id := class_info.room_id.getD ""
      student_group_id := class_info.group_id.getD ""
      day := day_idx
      time_slot := timeToSlotIndex time_slot }

/-- `_schedule_to_chromosome`: walk the weekly schedule, raising the
`ValueError` of `list.index` on a day name outside the five-day table. -/
def scheduleToChromosome (schedule : PySchedule) : Except PyError Chromosome := do
  let genes ← schedule.weekly_schedule.foldlM
    (fun genes dayEntry =>
      match idxOf dayNames (pyLower dayEntry.1) with
      | none => .error (.valueError ("'" ++ pyLower dayEntry.1 ++ "' is not in list"))
      | some day_idx =>
        pure (dayEntry.2.foldl
          (fun gs cell => gs ++ cellGenes day_idx cell.1 cell.2)
          genes))
    []
  pure { genes := genes }

/-! ## The generation loop of `optimize_schedule` (claim C5)

`_create_next_generation` draws from the global random generator; the
claims quantify over every behaviour of that step, so the loop below takes
the next-generation map as a parameter `next`.  Everything else follows
`optimize_schedule` line by line: evaluate the population, update the
best-seen chromosome on strictly greater fitness (the initial best is
`None` at fitness `-inf`), build the next generation, and stop early once
the best fitness reaches 99. -/

/-- Result of the generation loop: the best chromosome ever seen and the
final population. -/
structure GaLoopResult where
  best : Option Chromosome
  finalPop : List Chromosome
deriving DecidableEq, Repr

/-- The best-seen update: strictly greater fitness replaces; `none` plays
`-inf`. -/
def bestUpdate (current_best best : Option Chromosome) : Option Chromosome :=
  match current_best, best with
  | none, b => b
  | some cb, none => some cb
  | some cb, some b => if cb.fitness_score > b.fitness_score then some cb else some b

/-- The early-stopping test `best_fitness >= 99.0`. -/
def stopCheck : Option Chromosome → Bool
  | some b => decide (b.fitness_score ≥ 99)
  | none => false

/-- The generation loop. -/
def gaLoop (next : List Chromosome → List Chromosome) :
    Nat → List Chromosome → Option Chromosome → GaLoopResult
  | 0, pop, best => ⟨best, pop⟩
  | g + 1, pop, best =>
    let evaluated := pop.map evalChromosome
    let best2 := bestUpdate (maxByFitness evaluated) best
    let pop2 := next evaluated
    if stopCheck best2 then ⟨best2, pop2⟩ else gaLoop next g pop2 best2

/-- The best-seen fitness value after each executed generation (the trace
of `best_fitness`). -/
def gaTrace (next : List Chromosome → List Chromosome) :
    Nat → List Chromosome → Option Chromosome → List ℚ
  | 0, _, _ => []
  | g + 1, pop, best =>
    let evaluated := pop.map evalChromosome
    let best2 := bestUpdate (maxByFitness evaluated) best
    let pop2 := next evaluated
    (match best2 with | some b => b.fitness_score | none => 0) ::
      (if stopCheck best2 then [] else gaTrace next g pop2 best2)

/-- Every chromosome evaluated in any executed generation, in order. -/
def gaEvaluated (next : List Chromosome → List Chromosome) :
    Nat → List Chromosome → Option Chromosome → List Chromosome
  | 0, _, _ => []
  | g + 1, pop, best =>
    let evaluated := pop.map evalChromosome
    let best2 := bestUpdate (maxByFitness evaluated) best
    let pop2 := next evaluated
    evaluated ++ (if stopCheck best2 then [] else gaEvaluated next g pop2 best2)

/-- `optimize_schedule`, from the loop on: the returned document is the
phenotype of the best chromosome ever seen (`chromosome_to_schedule` on
`None` - zero generations or an empty population - would raise). -/
def optimizeScheduleLoop (next : List Chromosome → List Chromosome)
    (gens popsize : Nat) (pop : List Chromosome) : Except PyError PySchedule :=
  match (gaLoop next gens pop none).best with
  | some b => .ok (chromosomeToSchedule b gens popsize)
  | none => .error (.valueError "NoneType has no genes")

lemma maxByFitness_isSome {l : List Chromosome} (h : l ≠ []) :
    ∃ m, maxByFitness l = some m := by
  cases l with
  | nil => exact absurd rfl h
  | cons a t =>
    rcases hm : maxByFitness t with _ | m2
    · exact ⟨a, by unfold maxByFitness; rw [hm]⟩
    · refine ⟨if m2.fitness_score > a.fitness_score then m2 else a, ?_⟩
      have hd : maxByFitness (a :: t) =
          if m2.fitness_score > a.fitness_score then some m2 else some a := by
        unfold maxByFitness; rw [hm]
      rw [hd]
      split <;> rfl

lemma maxByFitness_spec (l : List Chromosome) :
    ∀ m, maxByFitness l = some m →
      m ∈ l ∧ ∀ c ∈ l, c.fitness_score ≤ m.fitness_score := by
  induction l with
  | nil => intro m h; simp [maxByFitness] at h
  | cons a t ih =>
    intro m h
    rcases hm : maxByFitness t with _ | m2
    · have ht : t = [] := by
        by_contra hne
        obtain ⟨m2, hm2⟩ := maxByFitness_isSome hne
        rw [hm2] at hm
        cases hm
      subst ht
      have hd : maxByFitness [a] = some a := by unfold maxByFitness; rfl
      rw [hd] at h
      injection h with h2
      subst h2
      exact ⟨List.mem_cons_self a [], by intro c hc; simp at hc; subst hc; exact le_refl _⟩
    · have hd : maxByFitness (a :: t) =
          if m2.fitness_score > a.fitness_score then some m2 else some a := by
        unfold maxByFitness; rw [hm]
      rw [hd] at h
      obtain ⟨hmem2, hle2⟩ := ih m2 hm
      split at h
      · next hgt =>
        injection h with h2
        subst h2
        refine ⟨List.mem_cons_of_mem a hmem2, ?_⟩
        intro c hc
        rcases List.mem_cons.mp hc with rfl | hct
        · exact le_of_lt hgt
        · exact hle2 c hct
      · next hngt =>
        injection h with h2
        subst h2
        refine ⟨List.mem_cons_self _ _, ?_⟩
        intro c hc
        rcases List.mem_cons.mp hc with rfl | hct
        · exact le_refl _
        · have hle3 : m2.fitness_score ≤ a.fitness_score :=
            le_of_not_lt (by simpa [gt_iff_lt] using hngt)
          exact le_trans (hle2 c hct) hle3

lemma bestUpdate_spec {evaluated : List Chromosome} {cb : Chromosome}
    (best : Option Chromosome) (hcb : maxByFitness evaluated = some cb) :
    ∃ b2, bestUpdate (maxByFitness evaluated) best = some b2 ∧
      (b2 = cb ∨ best = some b2) ∧
      cb.fitness_score ≤ b2.fitness_score ∧
      (∀ b0, best = some b0 → b0.fitness_score ≤ b2.fitness_score) := by
  rw [hcb]
  rcases best with _ | b0
  · exact ⟨cb, rfl, Or.inl rfl, le_refl _, by intro b0 h; cases h⟩
  · by_cases hgt : cb.fitness_score > b0.fitness_score
    · refine ⟨cb, ?_, Or.inl rfl, le_refl _, ?_⟩
      · simp [bestUpdate, hgt]
      · intro b1 h1
        injection h1 with h2
        subst h2
        exact le_of_lt hgt
    · refine ⟨b0, ?_, Or.inr rfl, le_of_not_lt (by simpa [gt_iff_lt] using hgt), ?_⟩
      · simp [bestUpdate, hgt]
      · intro b1 h1
        injection h1 with h2
        subst h2
        exact le_refl _

lemma gaLoop_spec (next : List Chromosome → List Chromosome)
    (hnext : ∀ p, p ≠ [] → next p ≠ []) :
    ∀ (gens : Nat) (pop : List Chromosome) (best : Option Chromosome),
      pop ≠ [] → (0 < gens ∨ best ≠ none) →
      ∃ b, (gaLoop next gens pop best).best = some b ∧
        (b ∈ gaEvaluated next gens pop best ∨ best = some b) ∧
        (∀ c ∈ gaEvaluated next gens pop best, c.fitness_score ≤ b.fitness_score) ∧
        (∀ b0, best = some b0 → b0.fitness_score ≤ b.fitness_score) := by
  intro gens
  induction gens with
  | zero =>
    intro pop best hpop hor
    rcases hor with h0 | hbn
    · exact absurd h0 (by simp)
    · rcases best with _ | b0
      · exact absurd rfl hbn
      · refine ⟨b0, rfl, Or.inr rfl, ?_, ?_⟩
        · intro c hc
          simp [gaEvaluated] at hc
        · intro b1 h1
          injection h1 with h2
          rw [h2]
  | succ g ih =>
    intro pop best hpop hor
    have hev : pop.map evalChromosome ≠ [] := by
      intro hcon
      exact hpop (List.map_eq_nil_iff.mp hcon)
    obtain ⟨cb, hcb⟩ := maxByFitness_isSome hev
    obtain ⟨hcbmem, hcbmax⟩ := maxByFitness_spec (pop.map evalChromosome) cb hcb
    obtain ⟨b2, hb2, hb2src, hcble, hb0le⟩ := bestUpdate_spec best hcb
    have hloopred : gaLoop next (g + 1) pop best =
        if stopCheck (bestUpdate (maxByFitness (pop.map evalChromosome)) best) then
          ⟨bestUpdate (maxByFitness (pop.map evalChromosome)) best,
           next (pop.map evalChromosome)⟩
        else
          gaLoop next g (next (pop.map evalChromosome))
            (bestUpdate (maxByFitness (pop.map evalChromosome)) best) := by
      simp only [gaLoop]
    have hevred : gaEvaluated next (g + 1) pop best =
        pop.map evalChromosome ++
          (if stopCheck (bestUpdate (maxByFitness (pop.map evalChromosome)) best) then []
           else gaEvaluated next g (next (pop.map evalChromosome))
             (bestUpdate (maxByFitness (pop.map evalChromosome)) best)) := by
      simp only [gaEvaluated]
    rcases hstop : stopCheck (bestUpdate (maxByFitness (pop.map evalChromosome)) best) with _ | _
    · -- no early stop: recurse
      have hrec := ih (next (pop.map evalChromosome))
        (bestUpdate (maxByFitness (pop.map evalChromosome)) best)
        (hnext _ hev) (Or.inr (by rw [hb2]; intro hcon; cases hcon))
      obtain ⟨b, hbbest, hbsrc, hbmax, hble⟩ := hrec
      refine ⟨b, ?_, ?_, ?_, ?_⟩
      · rw [hloopred, hstop]
        simpa using hbbest
      · rw [hevred, hstop]
        simp only [if_neg Bool.false_ne_true]
        rcases hbsrc with hin | hsome
        · exact Or.inl (List.mem_append_right _ hin)
        · rw [hb2] at hsome
          injection hsome with h2
          subst h2
          rcases hb2src with rfl | hbest
          · exact Or.inl (List.mem_append_left _ hcbmem)
          · exact Or.inr hbest
      · rw [hevred, hstop]
        simp only [if_neg Bool.false_ne_true]
        intro c hc
        rcases List.mem_append.mp hc with hc1 | hc2
        · exact le_trans (hcbmax c hc1) (le_trans hcble (hble b2 hb2))
        · exact hbmax c hc2
      · intro b0 h0
        exact le_trans (hb0le b0 h0) (hble b2 hb2)
    · -- early stop
      refine ⟨b2, ?_, ?_, ?_, ?_⟩
      · rw [hloopred, hstop]
        simpa using hb2
      · rw [hevred, hstop]
        simp only [if_true, List.append_nil]
        rcases hb2src with rfl | hbest
        · exact Or.inl hcbmem
        · exact Or.inr hbest
      · rw [hevred, hstop]
        simp only [if_true, List.append_nil]
        intro c hc
        exact le_trans (hcbmax c hc) hcble
      · exact hb0le

lemma gaTrace_chain (next : List Chromosome → List Chromosome)
    (hnext : ∀ p, p ≠ [] → next p ≠ []) :
    ∀ (gens : Nat) (pop : List Chromosome) (best : Option Chromosome), pop ≠ [] →
      (∀ b0, best = some b0 →
        List.Chain' (· ≤ ·) (b0.fitness_score :: gaTrace next gens pop best)) ∧
      List.Chain' (· ≤ ·) (gaTrace next gens pop best) := by
  intro gens
  induction gens with
  | zero =>
    intro pop best hpop
    constructor
    · intro b0 h0
      simp [gaTrace]
    · simp [gaTrace]
  | succ g ih =>
    intro pop best hpop
    have hev : pop.map evalChromosome ≠ [] := by
      intro hcon
      exact hpop (List.map_eq_nil_iff.mp hcon)
    obtain ⟨cb, hcb⟩ := maxByFitness_isSome hev
    obtain ⟨b2, hb2, hb2src, hcble, hb0le⟩ := bestUpdate_spec best hcb
    have htred : gaTrace next (g + 1) pop best =
        (match bestUpdate (maxByFitness (pop.map evalChromosome)) best with
         | some b => b.fitness_score
         | none => 0) ::
          (if stopCheck (bestUpdate (maxByFitness (pop.map evalChromosome)) best) then []
           else gaTrace next g (next (pop.map evalChromosome))
             (bestUpdate (maxByFitness (pop.map evalChromosome)) best)) := by
      simp only [gaTrace]
    have hval : (match bestUpdate (maxByFitness (pop.map evalChromosome)) best with
         | some b => b.fitness_score
         | none => 0) = b2.fitness_score := by
      rw [hb2]
    have htail : List.Chain' (· ≤ ·)
        (b2.fitness_score ::
          (if stopCheck (bestUpdate (maxByFitness (pop.map evalChromosome)) best) then []
           else gaTrace next g (next (pop.map evalChromosome))
             (bestUpdate (maxByFitness (pop.map evalChromosome)) best))) := by
      rcases hstop : stopCheck (bestUpdate (maxByFitness (pop.map evalChromosome)) best)
        with _ | _
      · simp only [if_neg Bool.false_ne_true]
        rw [hb2]
        exact (ih (next (pop.map evalChromosome)) (some b2) (hnext _ hev)).1 b2 rfl
      · simp only [if_true]
        exact List.chain'_singleton _
    constructor
    · intro b0 h0
      rw [htred, hval]
      refine List.chain'_cons.mpr ⟨hb0le b0 h0, htail⟩
    · rw [htred, hval]
      exact htail

/-- A one-gene chromosome for the concrete run of claim C5. -/
def geneC5 : Gene :=
  { subject_id := "s1", faculty_id := "f1", room_id := "r1",
    student_group_id := "g1", day := 0, time_slot := 0 }

/-- Initial population member of the concrete C5 run. -/
def chromC5a : Chromosome := { genes := [geneC5] }

/-- The (strictly less fit) chromosome every later generation consists of
in the concrete C5 run. -/
def chromC5b : Chromosome := { genes := [] }

/-- `chromC5a` after fitness evaluation. -/
def chromC5aEval : Chromosome :=
  { genes := [geneC5], fitness_score := 6625 / 84, conflict_count := 0,
    utilization_score := 325 / 21, green_score := 100, fatigue_score := 100 }

/-- `chromC5b` after fitness evaluation. -/
def chromC5bEval : Chromosome :=
  { genes := [], fitness_score := 75, conflict_count := 0,
    utilization_score := 0, green_score := 100, fatigue_score := 100 }

/-- A next-generation map that always replaces the population by the less
fit empty chromosome. -/
def nextC5 : List Chromosome → List Chromosome := fun _ => [chromC5b]

/-- Claim C5 - across the generation loop the tracked best fitness is
monotone non-decreasing, and `optimize_schedule` returns the phenotype of
the best chromosome ever evaluated in any generation; that chromosome need
not belong to the final population (second conjunct: a concrete run whose
returned best is absent from the final population). -/
theorem ga_best_ever_monotone :
    (∀ (next : List Chromosome → List Chromosome) (gens popsize : Nat)
        (pop : List Chromosome),
        pop ≠ [] → (∀ p, p ≠ [] → next p ≠ []) → 0 < gens →
        ∃ b, (gaLoop next gens pop none).best = some b ∧
          optimizeScheduleLoop next gens popsize pop =
            .ok (chromosomeToSchedule b gens popsize) ∧
          b ∈ gaEvaluated next gens pop none ∧
          (∀ c ∈ gaEvaluated next gens pop none, c.fitness_score ≤ b.fitness_score) ∧
          List.Chain' (· ≤ ·) (gaTrace next gens pop none)) ∧
    ((gaLoop nextC5 2 [chromC5a] none).best = some chromC5aEval ∧
      chromC5aEval ∉ (gaLoop nextC5 2 [chromC5a] none).finalPop) := by
  constructor
  · intro next gens popsize pop hpop hnext hg
    obtain ⟨b, hbest, hsrc, hmax, hble⟩ :=
      gaLoop_spec next hnext gens pop none hpop (Or.inl hg)
    refine ⟨b, hbest, ?_, ?_, hmax, (gaTrace_chain next hnext gens pop none hpop).2⟩
    · unfold optimizeScheduleLoop
      rw [hbest]
    · rcases hsrc with h | h
      · exact h
      · cases h
  · have hA : evalChromosome chromC5a = chromC5aEval := by
      norm_num [evalChromosome, calculateFitness, evaluateConflicts, conflictsGo, dupStep,
        alGet?, alSet, setAdd, timeKey, chromC5a, geneC5, evaluateUtilization, hoursCount,
        alGetD, facultyUtil, roomUtil, qMean, evaluateGreenOptimization, pySetList,
        dedupFirstAux, countAdjMoves, pySort, pyInsort, evaluateFatiguePrevention,
        fatigueCounts, max_def, chromC5aEval]
    have hB : evalChromosome chromC5b = chromC5bEval := by
      norm_num [evalChromosome, calculateFitness, evaluateConflicts, conflictsGo, dupStep,
        alGet?, alSet, setAdd, timeKey, chromC5b, evaluateUtilization, hoursCount, alGetD,
        facultyUtil, roomUtil, qMean, evaluateGreenOptimization, pySetList, dedupFirstAux,
        countAdjMoves, pySort, pyInsort, evaluateFatiguePrevention, fatigueCounts, max_def,
        chromC5bEval]
    have hmaxA : maxByFitness [chromC5aEval] = some chromC5aEval := by simp [maxByFitness]
    have hmaxB : maxByFitness [chromC5bEval] = some chromC5bEval := by simp [maxByFitness]
    have hstopA : stopCheck (some chromC5aEval) = false := by
      simp only [stopCheck, chromC5aEval, decide_eq_false_iff_not]
      norm_num
    have hupd1 : bestUpdate (some chromC5aEval) none = some chromC5aEval := by
      simp [bestUpdate]
    have hupd2 : bestUpdate (some chromC5bEval) (some chromC5aEval) = some chromC5aEval := by
      simp only [bestUpdate, chromC5aEval, chromC5bEval]
      norm_num
    have hnext1 : nextC5 [chromC5aEval] = [chromC5b] := rfl
    have hnext2 : nextC5 [chromC5bEval] = [chromC5b] := rfl
    have hloop : gaLoop nextC5 2 [chromC5a] none =
        ⟨some chromC5aEval, [chromC5b]⟩ := by
      simp only [gaLoop, List.map_cons, List.map_nil, hA, hB, hmaxA, hmaxB, hupd1, hupd2,
        hstopA, hnext1, hnext2, if_neg Bool.false_ne_true]
    rw [hloop]
    refine ⟨rfl, ?_⟩
    intro hcon
    have h2 : chromC5aEval = chromC5b := List.mem_singleton.mp hcon
    have h3 := congrArg Chromosome.genes h2
    simp [chromC5aEval, chromC5b, geneC5] at h3

/-- Witness for C5: the universal part applied to the concrete run. -/
theorem ga_best_ever_monotone_witness :
    ∃ b, (gaLoop nextC5 2 [chromC5a] none).best = some b ∧
      optimizeScheduleLoop nextC5 2 50 [chromC5a] =
        .ok (chromosomeToSchedule b 2 50) ∧
      b ∈ gaEvaluated nextC5 2 [chromC5a] none ∧
      (∀ c ∈ gaEvaluated nextC5 2 [chromC5a] none, c.fitness_score ≤ b.fitness_score) ∧
      List.Chain' (· ≤ ·) (gaTrace nextC5 2 [chromC5a] none) :=
  ga_best_ever_monotone.1 nextC5 2 50 [chromC5a]
    (by intro h; cases h)
    (fun p hp => by intro h; cases h)
    (by norm_num)

/-! ## The Conflict sub-score formula (claim C4) -/

/-- `g` duplicates an earlier gene's triple in dimension `dim`: some
previous gene has the same entity and the same `f"{day}_{time_slot}"`
key (the key determines the (day, period) cell uniquely, both renderings
being underscore-free digit strings). -/
def dupHit (dim : Gene → String) (prev : List Gene) (g : Gene) : Bool :=
  prev.any fun p => dim p == dim g && timeKey p == timeKey g

/-- Per-gene, per-dimension duplicate events against the prefix of earlier
genes: each of the three dimensions contributes one when its triple
repeats an earlier gene's, so a single gene can contribute up to 3. -/
def dupEventCountAux : List Gene → List Gene → Nat
  | _, [] => 0
  | prev, g :: t =>
    ((if dupHit (fun x => x.faculty_id) prev g then 1 else 0) +
     (if dupHit (fun x => x.room_id) prev g then 1 else 0) +
     (if dupHit (fun x => x.student_group_id) prev g then 1 else 0)) +
    dupEventCountAux (prev ++ [g]) t

/-- The per-dimension duplicate-event count of a gene list. -/
def dupEventCount (genes : List Gene) : Nat := dupEventCountAux [] genes

/-- The claim's count `c`, following its words: the number of GENES whose
faculty, room, or cohort triple duplicates an earlier gene's triple (each
gene counted at most once). -/
def dupGeneCountAux : List Gene → List Gene → Nat
  | _, [] => 0
  | prev, g :: t =>
    (if dupHit (fun x => x.faculty_id) prev g ||
        dupHit (fun x => x.room_id) prev g ||
        dupHit (fun x => x.student_group_id) prev g then 1 else 0) +
    dupGeneCountAux (prev ++ [g]) t

/-- The number of genes (counted once each) duplicating an earlier gene. -/
def dupGeneCount (genes : List Gene) : Nat := dupGeneCountAux [] genes

/-- The Conflict sub-score as claim C4 states it, with `c` the number of
duplicating genes. -/
def specConflictScore (ch : Chromosome) : ℚ :=
  if ch.genes.length = 0 then 100
  else max 0 (100 - ((dupGeneCount ch.genes : ℚ) / (ch.genes.length : ℚ)) * 200)

lemma alGet?_alSet_self {κ β : Type} [DecidableEq κ] (k : κ) (v : β) :
    ∀ m : List (κ × β), alGet? (alSet k v m) k = some v := by
  intro m
  induction m with
  | nil => simp [alSet, alGet?]
  | cons kv t ih =>
    by_cases h : kv.1 = k
    · simp [alSet, alGet?, h]
    · obtain ⟨k2, v2⟩ := kv
      simp only at h
      simp [alSet, alGet?, h, ih]

lemma alGet?_alSet_ne {κ β : Type} [DecidableEq κ] {k k2 : κ} (h : k2 ≠ k) (v : β) :
    ∀ m : List (κ × β), alGet? (alSet k v m) k2 = alGet? m k2 := by
  intro m
  have hne : ¬k = k2 := fun he => h he.symm
  induction m with
  | nil => simp [alSet, alGet?, hne]
  | cons kv t ih =>
    obtain ⟨k3, v3⟩ := kv
    by_cases h3 : k3 = k
    · subst h3
      simp [alSet, alGet?, hne]
    · simp [alSet, alGet?, h3, ih]

/-- A per-dimension key-set dictionary of `_evaluate_conflicts` agrees with
a gene prefix when it holds exactly the time keys of the prefix's genes,
per entity. -/
def MapAgrees (dim : Gene → String) (prev : List Gene)
    (m : List (String × List String)) : Prop :=
  ∀ k tk, (∃ s, alGet? m k = some s ∧ tk ∈ s) ↔
    ∃ p ∈ prev, dim p = k ∧ timeKey p = tk

lemma dupHit_iff {dim : Gene → String} {prev : List Gene} {g : Gene} :
    dupHit dim prev g = true ↔
      ∃ p ∈ prev, dim p = dim g ∧ timeKey p = timeKey g := by
  unfold dupHit
  rw [List.any_eq_true]
  constructor
  · rintro ⟨p, hp, hb⟩
    rw [Bool.and_eq_true, beq_iff_eq, beq_iff_eq] at hb
    exact ⟨p, hp, hb.1, hb.2⟩
  · rintro ⟨p, hp, h1, h2⟩
    exact ⟨p, hp, by rw [Bool.and_eq_true, beq_iff_eq, beq_iff_eq]; exact ⟨h1, h2⟩⟩

lemma dupStep_correct {dim : Gene → String} {prev : List Gene} {g : Gene}
    {m : List (String × List String)} (hag : MapAgrees dim prev m) :
    (dupStep m (dim g) (timeKey g)).1 = (if dupHit dim prev g then 1 else 0) ∧
    MapAgrees dim (prev ++ [g]) (dupStep m (dim g) (timeKey g)).2 := by
  rcases hm : alGet? m (dim g) with _ | s
  · have hhit : dupHit dim prev g = false := by
      rw [Bool.eq_false_iff]
      intro hcon
      obtain ⟨p, hp, h1, h2⟩ := dupHit_iff.mp hcon
      obtain ⟨s, hs, _⟩ := (hag (dim g) (timeKey g)).mpr ⟨p, hp, h1, h2⟩
      rw [hm] at hs
      cases hs
    have hred : dupStep m (dim g) (timeKey g) = (0, alSet (dim g) [timeKey g] m) := by
      unfold dupStep
      rw [hm]
    rw [hred, hhit]
    refine ⟨rfl, ?_⟩
    intro k tk
    by_cases hk : k = dim g
    · subst hk
      rw [show alGet? (alSet (dim g) [timeKey g] m) (dim g) = some [timeKey g] from
        alGet?_alSet_self (dim g) [timeKey g] m]
      constructor
      · rintro ⟨s2, hs2, htk⟩
        injection hs2 with hs3
        subst hs3
        rw [List.mem_singleton] at htk
        exact ⟨g, List.mem_append_right _ (List.mem_singleton.mpr rfl), rfl, htk.symm⟩
      · rintro ⟨p, hp, h1, h2⟩
        rcases List.mem_append.mp hp with hp2 | hp2
        · exfalso
          obtain ⟨s2, hs2, _⟩ := (hag (dim g) tk).mpr ⟨p, hp2, h1, h2⟩
          rw [hm] at hs2
          cases hs2
        · have hpg : p = g := List.mem_singleton.mp hp2
          exact ⟨[timeKey g], rfl, by rw [← h2, hpg]; exact List.mem_singleton.mpr rfl⟩
    · rw [alGet?_alSet_ne hk]
      rw [hag k tk]
      constructor
      · rintro ⟨p, hp, h1, h2⟩
        exact ⟨p, List.mem_append_left _ hp, h1, h2⟩
      · rintro ⟨p, hp, h1, h2⟩
        rcases List.mem_append.mp hp with hp2 | hp2
        · exact ⟨p, hp2, h1, h2⟩
        · exfalso
          have := List.mem_singleton.mp hp2
          subst this
          exact hk h1.symm
  · by_cases htk : timeKey g ∈ s
    · have hhit : dupHit dim prev g = true :=
        dupHit_iff.mpr
          (by
            obtain ⟨p, hp, h1, h2⟩ := (hag (dim g) (timeKey g)).mp ⟨s, hm, htk⟩
            exact ⟨p, hp, h1, h2⟩)
      have hred : dupStep m (dim g) (timeKey g) = (1, m) := by
        unfold dupStep
        rw [hm]
        simp [htk]
      rw [hred, hhit]
      refine ⟨rfl, ?_⟩
      intro k tk
      rw [show (((1 : Nat), m)).2 = m from rfl]
      constructor
      · rintro ⟨s2, hs2, htk2⟩
        obtain ⟨p, hp, h1, h2⟩ := (hag k tk).mp ⟨s2, hs2, htk2⟩
        exact ⟨p, List.mem_append_left _ hp, h1, h2⟩
      · rintro ⟨p, hp, h1, h2⟩
        rcases List.mem_append.mp hp with hp2 | hp2
        · exact (hag k tk).mpr ⟨p, hp2, h1, h2⟩
        · have := List.mem_singleton.mp hp2
          subst this
          subst h1 h2
          exact ⟨s, hm, htk⟩
    · have hhit : dupHit dim prev g = false := by
        rw [Bool.eq_false_iff]
        intro hcon
        obtain ⟨p, hp, h1, h2⟩ := dupHit_iff.mp hcon
        obtain ⟨s2, hs2, htk2⟩ := (hag (dim g) (timeKey g)).mpr ⟨p, hp, h1, h2⟩
        rw [hm] at hs2
        injection hs2 with hs3
        subst hs3
        exact htk htk2
      have hred : dupStep m (dim g) (timeKey g) =
          (0, alSet (dim g) (setAdd (timeKey g) s) m) := by
        unfold dupStep
        rw [hm]
        simp [htk]
      rw [hred, hhit]
      refine ⟨rfl, ?_⟩
      intro k tk
      by_cases hk : k = dim g
      · subst hk
        rw [show alGet? (alSet (dim g) (setAdd (timeKey g) s) m) (dim g) =
            some (setAdd (timeKey g) s) from alGet?_alSet_self (dim g) _ m]
        constructor
        · rintro ⟨s2, hs2, htk2⟩
          injection hs2 with hs3
          subst hs3
          rcases setAdd_mem.mp htk2 with rfl | htk3
          · exact ⟨g, List.mem_append_right _ (List.mem_singleton.mpr rfl), rfl, rfl⟩
          · obtain ⟨p, hp, h1, h2⟩ := (hag (dim g) tk).mp ⟨s, hm, htk3⟩
            exact ⟨p, List.mem_append_left _ hp, h1, h2⟩
        · rintro ⟨p, hp, h1, h2⟩
          rcases List.mem_append.mp hp with hp2 | hp2
          · obtain ⟨s2, hs2, htk2⟩ := (hag (dim g) tk).mpr ⟨p, hp2, h1, h2⟩
            rw [hm] at hs2
            injection hs2 with hs3
            subst hs3
            exact ⟨setAdd (timeKey g) s, rfl, setAdd_mem.mpr (Or.inr htk2)⟩
          · have hpg : p = g := List.mem_singleton.mp hp2
            exact ⟨setAdd (timeKey g) s, rfl,
              by rw [← h2, hpg]; exact setAdd_mem.mpr (Or.inl rfl)⟩
      · rw [alGet?_alSet_ne hk]
        rw [hag k tk]
        constructor
        · rintro ⟨p, hp, h1, h2⟩
          exact ⟨p, List.mem_append_left _ hp, h1, h2⟩
        · rintro ⟨p, hp, h1, h2⟩
          rcases List.mem_append.mp hp with hp2 | hp2
          · exact ⟨p, hp2, h1, h2⟩
          · exfalso
            have := List.mem_singleton.mp hp2
            subst this
            exact hk h1.symm

lemma conflictsGo_eq_dupEvents :
    ∀ (rest prev : List Gene) (fm rm sm : List (String × List String)),
      MapAgrees (fun x => x.faculty_id) prev fm →
      MapAgrees (fun x => x.room_id) prev rm →
      MapAgrees (fun x => x.student_group_id) prev sm →
      conflictsGo rest fm rm sm = dupEventCountAux prev rest := by
  intro rest
  induction rest with
  | nil => intro prev fm rm sm _ _ _; rfl
  | cons g t ih =>
    intro prev fm rm sm hf hr hs
    obtain ⟨hf1, hf2⟩ := dupStep_correct (g := g) hf
    obtain ⟨hr1, hr2⟩ := dupStep_correct (g := g) hr
    obtain ⟨hs1, hs2⟩ := dupStep_correct (g := g) hs
    have hred : conflictsGo (g :: t) fm rm sm =
        (dupStep fm g.faculty_id (timeKey g)).1 +
        (dupStep rm g.room_id (timeKey g)).1 +
        (dupStep sm g.student_group_id (timeKey g)).1 +
        conflictsGo t (dupStep fm g.faculty_id (timeKey g)).2
          (dupStep rm g.room_id (timeKey g)).2
          (dupStep sm g.student_group_id (timeKey g)).2 := by
      simp only [conflictsGo]
    rw [hred, hf1, hr1, hs1,
      ih (prev ++ [g]) _ _ _ hf2 hr2 hs2]
    rfl

/-- The amended claim C4: the Conflict sub-score equals
`max(0, 100 − (c/|genes|)·200)` where `c` counts one per gene AND per
dimension (faculty, room, cohort) whose triple repeats an earlier gene's -
so a single gene can contribute up to 3 - and a zero-gene chromosome
scores 100. -/
theorem evaluateConflicts_eq_eventCount (ch : Chromosome) :
    evaluateConflicts ch =
      if ch.genes.length = 0 then 100
      else max 0 (100 - ((dupEventCount ch.genes : ℚ) / (ch.genes.length : ℚ)) * 200) := by
  have hcnt : conflictsGo ch.genes [] [] [] = dupEventCount ch.genes := by
    apply conflictsGo_eq_dupEvents ch.genes [] [] [] []
    all_goals
      intro k tk
      simp [alGet?]
  unfold evaluateConflicts
  rw [hcnt]
  by_cases h0 : ch.genes.length = 0
  · simp [h0]
  · simp only [h0, if_neg, if_false]
    congr 1
    ring

/-- Four genes; the second repeats the first's faculty triple AND room
triple (distinct cohorts), the last two are conflict-free. -/
def chromC4 : Chromosome :=
  { genes :=
      [{ subject_id := "sa", faculty_id := "f1", room_id := "r1",
         student_group_id := "ga", day := 0, time_slot := 0 },
       { subject_id := "sb", faculty_id := "f1", room_id := "r1",
         student_group_id := "gb", day := 0, time_slot := 0 },
       { subject_id := "sc", faculty_id := "f3", room_id := "r3",
         student_group_id := "gc", day := 1, time_slot := 1 },
       { subject_id := "sd", faculty_id := "f4", room_id := "r4",
         student_group_id := "gd", day := 2, time_slot := 2 }] }

/-- Counterexample to claim C4 as stated: on `chromC4` the source counts
the duplicating gene once per dimension (2 conflicts, score 0), while the
claim's `c` counts duplicating genes once each (c = 1, score 50). -/
theorem conflict_score_counterexample :
    evaluateConflicts chromC4 = 0 ∧ specConflictScore chromC4 = 50 ∧
    evaluateConflicts chromC4 ≠ specConflictScore chromC4 := by
  have h1 : conflictsGo chromC4.genes [] [] [] = 2 := by decide
  have h2 : dupGeneCount chromC4.genes = 1 := by decide
  have h3 : chromC4.genes.length = 4 := by decide
  have e1 : evaluateConflicts chromC4 = 0 := by
    unfold evaluateConflicts
    rw [h1, h3]
    norm_num
  have e2 : specConflictScore chromC4 = 50 := by
    unfold specConflictScore
    rw [h2, h3]
    norm_num [max_def]
  refine ⟨e1, e2, ?_⟩
  rw [e1, e2]
  norm_num

/-! ## Provenance of the seed chromosome (claim C10) -/

lemma alSet_mem {κ β : Type} [DecidableEq κ] {k : κ} {v : β} {y : κ × β} :
    ∀ {m : List (κ × β)}, y ∈ alSet k v m → y = (k, v) ∨ y ∈ m := by
  intro m
  induction m with
  | nil => intro h; simpa [alSet] using h
  | cons kv t ih =>
    intro h
    obtain ⟨k2, v2⟩ := kv
    by_cases hk : k2 = k
    · simp only [alSet, if_pos hk] at h
      rcases List.mem_cons.mp h with rfl | h2
      · exact Or.inl (by rw [hk])
      · exact Or.inr (List.mem_cons_of_mem _ h2)
    · simp only [alSet, if_neg hk] at h
      rcases List.mem_cons.mp h with rfl | h2
      · exact Or.inr (List.mem_cons_self _ _)
      · rcases ih h2 with h3 | h3
        · exact Or.inl h3
        · exact Or.inr (List.mem_cons_of_mem _ h3)

lemma alGet?_mem {κ β : Type} [DecidableEq κ] {k : κ} {v : β} :
    ∀ {m : List (κ × β)}, alGet? m k = some v → (k, v) ∈ m := by
  intro m
  induction m with
  | nil => intro h; cases h
  | cons kv t ih =>
    intro h
    obtain ⟨k2, v2⟩ := kv
    by_cases hk : k2 = k
    · subst hk
      simp only [alGet?, if_pos rfl] at h
      injection h with h2
      subst h2
      exact List.mem_cons_self _ _
    · simp only [alGet?, if_neg hk] at h
      exact List.mem_cons_of_mem _ (ih h)

/-- A class appears somewhere in a weekly schedule. -/
def weeklyHas (w : List (String × List (String × List PyClass))) (x : PyClass) : Prop :=
  ∃ d ∈ w, ∃ cell ∈ d.2, x ∈ cell.2

lemma alGetD_sub {k : String} {w : List (String × List (String × List PyClass))}
    {cell : String × List PyClass} (hc : cell ∈ alGetD w k []) {x : PyClass}
    (hx : x ∈ cell.2) : weeklyHas w x := by
  unfold alGetD at hc
  rcases hg : alGet? w k with _ | ds
  · rw [hg] at hc
    simp at hc
  · rw [hg] at hc
    exact ⟨(k, ds), alGet?_mem hg, cell, hc, hx⟩

lemma weeklyAppend_has {w : List (String × List (String × List PyClass))}
    {dn ts : String} {c x : PyClass}
    (h : weeklyHas (weeklyAppend w dn ts c) x) : weeklyHas w x ∨ x = c := by
  obtain ⟨d, hd, cell, hcell, hx⟩ := h
  unfold weeklyAppend at hd
  rcases alSet_mem hd with rfl | hdw
  · -- the updated day entry
    rcases alSet_mem hcell with rfl | hcellw
    · -- the updated cell: old contents ++ [c]
      rcases List.mem_append.mp hx with hx2 | hx2
      · left
        rcases hg : alGet? (alGetD w dn []) ts with _ | v
        · exfalso
          have hempty : alGetD (alGetD w dn []) ts [] = [] := by
            unfold alGetD
            unfold alGetD at hg
            rw [hg]
            rfl
          rw [hempty] at hx2
          simp at hx2
        · have hcellmem : (ts, v) ∈ alGetD w dn [] := alGet?_mem hg
          have hv : alGetD (alGetD w dn []) ts [] = v := by
            unfold alGetD
            unfold alGetD at hg
            rw [hg]
            rfl
          rw [hv] at hx2
          exact alGetD_sub hcellmem hx2
      · exact Or.inr (List.mem_singleton.mp hx2)
    · exact Or.inl (alGetD_sub hcellw hx)
  · exact Or.inl ⟨d, hdw, cell, hcell, hx⟩

lemma weekly0_has_false {x : PyClass}
    (h : weeklyHas (dayNames.map fun d => (d, ([] : List (String × List PyClass)))) x) :
    False := by
  obtain ⟨d, hd, cell, hcell, _⟩ := h
  obtain ⟨n, _, rfl⟩ := List.mem_map.mp hd
  simp at hcell

lemma weeklyFold_has {x : PyClass} :
    ∀ (cls : List PyClass) (w0 : List (String × List (String × List PyClass))),
      weeklyHas
        (cls.foldl
          (fun w c => weeklyAppend w (dayNames.getD (c.day.getD 0) "") (c.time_slot.getD "") c)
          w0) x →
      weeklyHas w0 x ∨ x ∈ cls := by
  intro cls
  induction cls with
  | nil => intro w0 h; exact Or.inl h
  | cons c t ih =>
    intro w0 h
    rw [List.foldl_cons] at h
    rcases ih _ h with h2 | h2
    · rcases weeklyAppend_has h2 with h3 | h3
      · exact Or.inl h3
      · exact Or.inr (h3 ▸ List.mem_cons_self _ _)
    · exact Or.inr (List.mem_cons_of_mem _ h2)

/-- Every class appearing in the greedy output's weekly schedule is one of
the scheduled classes. -/
lemma generateScheduleOutput_has {cls : List PyClass} {x : PyClass}
    (h : weeklyHas (generateScheduleOutput cls).weekly_schedule x) : x ∈ cls := by
  unfold generateScheduleOutput at h
  rcases weeklyFold_has cls _ h with h2 | h2
  · exact absurd h2 weekly0_has_false
  · exact h2

lemma weeklyFold_keys :
    ∀ (cls : List PyClass) (w0 : List (String × List (String × List PyClass))),
      (∀ e ∈ w0, e.1 ∈ dayNames) →
      (∀ c ∈ cls, dayNames.getD (c.day.getD 0) "" ∈ dayNames) →
      ∀ e ∈ (cls.foldl
          (fun w c => weeklyAppend w (dayNames.getD (c.day.getD 0) "") (c.time_slot.getD "") c)
          w0), e.1 ∈ dayNames := by
  intro cls
  induction cls with
  | nil => intro w0 h0 _ e he; exact h0 e he
  | cons c t ih =>
    intro w0 h0 hcls e he
    rw [List.foldl_cons] at he
    refine ih _ ?_ (fun c2 hc2 => hcls c2 (List.mem_cons_of_mem _ hc2)) e he
    intro e2 he2
    unfold weeklyAppend at he2
    rcases alSet_mem he2 with rfl | h3
    · exact hcls c (List.mem_cons_self _ _)
    · exact h0 e2 h3

lemma dayName_index_ok {n : String} (hn : n ∈ dayNames) :
    ∃ i, idxOf dayNames (pyLower n) = some i := by
  fin_cases hn
  · exact ⟨0, by decide⟩
  · exact ⟨1, by decide⟩
  · exact ⟨2, by decide⟩
  · exact ⟨3, by decide⟩
  · exact ⟨4, by decide⟩

lemma foldl_append_mem {α β : Type} (f : β → List α) :
    ∀ (l : List β) (gs0 : List α) (g : α),
      g ∈ l.foldl (fun gs b => gs ++ f b) gs0 → g ∈ gs0 ∨ ∃ b ∈ l, g ∈ f b := by
  intro l
  induction l with
  | nil => intro gs0 g h; exact Or.inl h
  | cons b t ih =>
    intro gs0 g h
    rw [List.foldl_cons] at h
    rcases ih _ g h with h2 | ⟨b2, hb2, hg⟩
    · rcases List.mem_append.mp h2 with h3 | h3
      · exact Or.inl h3
      · exact Or.inr ⟨b, List.mem_cons_self _ _, h3⟩
    · exact Or.inr ⟨b2, List.mem_cons_of_mem _ hb2, hg⟩

lemma scheduleToChromosome_fold :
    ∀ (w : List (String × List (String × List PyClass))) (gs0 : List Gene),
      (∀ e ∈ w, e.1 ∈ dayNames) →
      ∃ gs,
        (w.foldlM
          (fun genes dayEntry =>
            match idxOf dayNames (pyLower dayEntry.1) with
            | none =>
              Except.error (PyError.valueError ("'" ++ pyLower dayEntry.1 ++ "' is not in list"))
            | some day_idx =>
              pure (dayEntry.2.foldl
                (fun gs cell => gs ++ cellGenes day_idx cell.1 cell.2)
                genes))
          gs0 = Except.ok gs) ∧
        ∀ g ∈ gs, g ∈ gs0 ∨
          ∃ ci : PyClass, weeklyHas w ci ∧ g.student_group_id = ci.group_id.getD "" := by
  intro w
  induction w with
  | nil =>
    intro gs0 _
    exact ⟨gs0, rfl, fun g hg => Or.inl hg⟩
  | cons e t ih =>
    intro gs0 hvalid
    obtain ⟨i, hi⟩ := dayName_index_ok (hvalid e (List.mem_cons_self _ _))
    obtain ⟨gs, hgs, hprov⟩ :=
      ih (e.2.foldl (fun gs cell => gs ++ cellGenes i cell.1 cell.2) gs0)
        (fun e2 he2 => hvalid e2 (List.mem_cons_of_mem _ he2))
    refine ⟨gs, ?_, ?_⟩
    · rw [List.foldlM_cons, hi]
      simpa using hgs
    · intro g hg
      rcases hprov g hg with h2 | ⟨ci, hci, hgrp⟩
      · rcases foldl_append_mem _ e.2 gs0 g h2 with h3 | ⟨cell, hcell, hgene⟩
        · exact Or.inl h3
        · obtain ⟨ci, hci, rfl⟩ := List.mem_map.mp hgene
          exact Or.inr ⟨ci, ⟨e, List.mem_cons_self _ _, cell, hcell, hci⟩, rfl⟩
      · obtain ⟨d, hd, cell, hcell, hcim⟩ := hci
        exact Or.inr ⟨ci, ⟨d, List.mem_cons_of_mem _ hd, cell, hcell, hcim⟩, hgrp⟩

lemma pySetList_sub {α : Type} [DecidableEq α] {x : α} :
    ∀ {seen l : List α}, x ∈ dedupFirstAux seen l → x ∈ l := by
  intro seen l
  induction l generalizing seen with
  | nil =>
    intro h
    simp only [dedupFirstAux] at h
    exact absurd h (List.not_mem_nil x)
  | cons a t ih =>
    intro h
    unfold dedupFirstAux at h
    split at h
    · exact List.mem_cons_of_mem _ (ih h)
    · rcases List.mem_cons.mp h with rfl | h2
      · exact List.mem_cons_self _ _
      · exact List.mem_cons_of_mem _ (ih h2)

lemma dayNames_getD_mem {i : Nat} (h : i < 5) : dayNames.getD i "" ∈ dayNames := by
  interval_cases i <;> decide

/-- Claim C10 - `_schedule_to_chromosome` reads the cohort from the key
`'group_id'`, but greedy class entries store it under
`'student_group_id'`; hence in the seed chromosome of every (successful)
greedy run every gene's `student_group_id` is the empty string, and the
cohort-keyed groupings of fitness evaluation (`_evaluate_conflicts`'
student dimension, `_evaluate_fatigue_prevention`'s (cohort, day) buckets)
see a single anonymous cohort. -/
theorem seed_chromosome_empty_cohorts (rd : RequestData) (out : PySchedule)
    (hok : generateInitialSchedule rd = .ok out) :
    ∃ ch, scheduleToChromosome out = .ok ch ∧
      (∀ g ∈ ch.genes, g.student_group_id = "") ∧
      (∀ k ∈ pySetList (ch.genes.map fun g => (g.student_group_id, g.day)), k.1 = "") := by
  rcases hcons : parseFacultyConstraints rd with e | cons
  · rw [generateInitialSchedule, hcons] at hok
    cases hok
  · rw [generateInitialSchedule, hcons] at hok
    have hout : out = generateScheduleOutput ((greedyCommits cons rd).map commitToClassInfo) := by
      have : Except.ok (ε := PyError)
          (generateScheduleOutput ((greedyCommits cons rd).map commitToClassInfo)) = .ok out := hok
      injection this with h2
      exact h2.symm
    subst hout
    have hinv := greedyCommits_inv cons rd
    have hday : ∀ c ∈ (greedyCommits cons rd).map commitToClassInfo, (c.day.getD 0) < 5 := by
      intro c hc
      obtain ⟨cm, hcm, rfl⟩ := List.mem_map.mp hc
      have := (hinv.2.2.2.2.1 cm hcm).1
      simpa [commitToClassInfo] using this
    have hkeys : ∀ e ∈ (generateScheduleOutput
        ((greedyCommits cons rd).map commitToClassInfo)).weekly_schedule, e.1 ∈ dayNames := by
      unfold generateScheduleOutput
      refine weeklyFold_keys _ _ ?_ ?_
      · intro e he
        obtain ⟨n, hn, rfl⟩ := List.mem_map.mp he
        exact hn
      · intro c hc
        exact dayNames_getD_mem (hday c hc)
    obtain ⟨gs, hgs, hprov⟩ := scheduleToChromosome_fold
      (generateScheduleOutput ((greedyCommits cons rd).map commitToClassInfo)).weekly_schedule
      [] hkeys
    have hgrp : ∀ g ∈ gs, g.student_group_id = "" := by
      intro g hg
      rcases hprov g hg with h2 | ⟨ci, hci, hgrp2⟩
      · simp at h2
      · have hcls := generateScheduleOutput_has hci
        obtain ⟨cm, _, rfl⟩ := List.mem_map.mp hcls
        rw [hgrp2]
        rfl
    refine ⟨{ genes := gs }, ?_, hgrp, ?_⟩
    · unfold scheduleToChromosome
      rw [hgs]
      rfl
    · intro k hk
      have hk2 := pySetList_sub hk
      obtain ⟨g, hg, rfl⟩ := List.mem_map.mp hk2
      exact hgrp g hg

/-- A one-class catalog for the C10 witness. -/
def rdC10 : RequestData :=
  { subjects := [{ subject_id := some "S1", name := some "Algebra",
                   faculty_id := some "F1", subjtype := some "major",
                   credits := some 2, theory_hours := some 1,
                   practical_hours := some 0, semester := some 1 }]
    student_groups := [{ group_id := some "G1", program := some "FYUP",
                         semester := some 1 }]
    faculty := []
    rooms := [{ room_id := "R1", roomtype := some "lecture", capacity := some 60 }] }

/-- The schedule the greedy run emits on `rdC10`. -/
def outC10 : PySchedule :=
  generateScheduleOutput ((greedyCommits [] rdC10).map commitToClassInfo)

/-- Witness for C10: the concrete one-class run. -/
theorem seed_chromosome_empty_cohorts_witness :
    ∃ ch, scheduleToChromosome outC10 = .ok ch ∧
      (∀ g ∈ ch.genes, g.student_group_id = "") ∧
      (∀ k ∈ pySetList (ch.genes.map fun g => (g.student_group_id, g.day)), k.1 = "") :=
  seed_chromosome_empty_cohorts rdC10 outC10 rfl

/-! ## Conflict detection and repair (`conflict_resolver.py`) -/

/-- The entity key of the faculty detector: `class_info.get('faculty_id')`,
kept only when truthy. -/
def facultyKeyOf (ci : PyClass) : Option String :=
  if pyTruthy ci.faculty_id then ci.faculty_id else none

/-- The entity key of the room detector. -/
def roomKeyOf (ci : PyClass) : Option String :=
  if pyTruthy ci.room_id then ci.room_id else none

/-- The entity key of the student-group detector:
`class_info.get('group_id') or class_info.get('student_group_id')`. -/
def groupKeyOf (ci : PyClass) : Option String :=
  let g := pyOr ci.group_id ci.student_group_id
  if pyTruthy g then g else none

/-- `defaultdict(list)` appending: extend an existing key's list in place,
create new keys at the end (insertion order). -/
def mapAppend {E : Type} (b : List (String × List E)) (k : String) (e : E) :
    List (String × List E) :=
  match alGet? b k with
  | some l => alSet k (l ++ [e]) b
  | none => b ++ [(k, [e])]

/-- A detector entry: the day name, the period label, and the class. -/
abbrev CellEntry : Type := String × String × PyClass

/-- All (day, period label, class) triples of a weekly schedule, in
iteration order. -/
def cellEntries (w : List (String × List (String × List PyClass))) : List CellEntry :=
  w.flatMap fun d => d.2.flatMap fun cell => cell.2.map fun ci => (d.1, cell.1, ci)

/-- The per-entity schedule map each detector builds first
(`faculty_schedule` / `room_schedule` / `group_schedule`). -/
def entityBuckets (keyOf : PyClass → Option String)
    (w : List (String × List (String × List PyClass))) :
    List (String × List CellEntry) :=
  (cellEntries w).foldl
    (fun b e =>
      match keyOf e.2.2 with
      | some k => mapAppend b k e
      | none => b)
    []

/-- The `f"{day}_{time_slot}"` grouping inside one entity's entry list. -/
def timeGroups (entries : List CellEntry) : List (String × List CellEntry) :=
  entries.foldl (fun b e => mapAppend b (e.1 ++ "_" ++ e.2.1) e) []

/-- Python `time_key.split('_', 1)` on a key that contains an underscore
(every grouping key does, being built with one; totalised to `(s, "")`
otherwise, where the source would raise unpacking). -/
def splitFirstAux : List Char → Option (List Char × List Char)
  | [] => none
  | c :: t =>
    if c = '_' then some ([], t)
    else (splitFirstAux t).map fun p => (c :: p.1, p.2)

/-- Split a grouping key at its first underscore. -/
def splitFirstUnderscore (s : String) : String × String :=
  match splitFirstAux s.data with
  | some (a, b) => (⟨a⟩, ⟨b⟩)
  | none => (s, "")

/-- Build one `Conflict` record of a detector. -/
def mkConflict (idPrefix ctype : String) (descFor : String → Nat → String)
    (suggestions : List String) (entity : String) (time_key : String)
    (classes : List CellEntry) (n : Nat) : Conflict :=
  let dt := splitFirstUnderscore time_key
  { conflict_id := idPrefix ++ "_conflict_" ++ toString n
    conflict_type := ctype
    severity := "critical"
    description := descFor entity classes.length
    affected_classes := classes.map fun e => e.2.2
    resolution_suggestions := suggestions
    time_slot := dt.2
    day := dt.1 }

/-- One detector pass: bucket by entity, group by time key, emit one
critical conflict per group of size above one, threading the instance
counter. -/
def detectGeneric (keyOf : PyClass → Option String) (idPrefix ctype : String)
    (descFor : String → Nat → String) (suggestions : List String)
    (s : PySchedule) (n0 : Nat) : List Conflict × Nat :=
  (entityBuckets keyOf s.weekly_schedule).foldl
    (fun acc bkt =>
      (timeGroups bkt.2).foldl
        (fun acc2 tg =>
          if tg.2.length > 1 then
            (acc2.1 ++ [mkConflict idPrefix ctype descFor suggestions bkt.1 tg.1 tg.2 acc2.2],
             acc2.2 + 1)
          else acc2)
        acc)
    ([], n0)

/-- `_detect_faculty_conflicts`. -/
def detectFacultyConflicts (s : PySchedule) (n0 : Nat) : List Conflict × Nat :=
  detectGeneric facultyKeyOf "faculty" "faculty_overlap"
    (fun fid n => "Faculty " ++ fid ++ " has " ++ toString n ++ " classes at the same time")
    ["Reschedule one class to a different time slot",
     "Assign alternative faculty member",
     "Split class into multiple sections"]
    s n0

/-- `_detect_room_conflicts`. -/
def detectRoomConflicts (s : PySchedule) (n0 : Nat) : List Conflict × Nat :=
  detectGeneric roomKeyOf "room" "room_booking"
    (fun rid n => "Room " ++ rid ++ " booked for " ++ toString n ++ " classes simultaneously")
    ["Move one class to available room",
     "Reschedule to different time slot",
     "Use online/hybrid mode for one class"]
    s n0

/-- `_detect_student_group_conflicts`. -/
def detectStudentConflicts (s : PySchedule) (n0 : Nat) : List Conflict × Nat :=
  detectGeneric groupKeyOf "student" "student_clash"
    (fun gid n => "Student group " ++ gid ++ " has " ++ toString n ++ " classes at same time")
    ["Reschedule one class to different slot",
     "Create additional section for elective",
     "Move to asynchronous/online mode"]
    s n0

/-- `_detect_all_conflicts`: the four passes in gather order (the capacity
detector returns no conflicts), threading the instance counter. -/
def detectAllConflicts (s : PySchedule) (n0 : Nat) : List Conflict × Nat :=
  let f := detectFacultyConflicts s n0
  let r := detectRoomConflicts s f.2
  let g := detectStudentConflicts s r.2
  (f.1 ++ r.1 ++ g.1, g.2)

/-- `_is_slot_available`: no class of the cell shares the faculty id, and
none shares the resolved group id under either key (Python `==` on the
possibly missing values). -/
def isSlotAvailable (s : PySchedule) (day time_slot : String)
    (faculty_id group_id : Option String) : Bool :=
  let slot_classes := alGetD (alGetD s.weekly_schedule day []) time_slot []
  slot_classes.all fun ci =>
    !(ci.faculty_id == faculty_id) &&
    !(ci.group_id == group_id || ci.student_group_id == group_id)

/-- `_find_available_slot`: first (day, period label) cell, in the fixed
Mon-Fri x period order, available for the class's faculty and group. -/
def findAvailableSlot (s : PySchedule) (class_info : PyClass) :
    Option (String × String) :=
  let faculty_id := class_info.faculty_id
  let group_id := pyOr class_info.group_id class_info.student_group_id
  dayNames.findSome? fun day =>
    timeSlotLabels.findSome? fun ts =>
      if isSlotAvailable s day ts faculty_id group_id then some (day, ts) else none

/-- `_remove_class_from_schedule`: filter the cell's list by dict
inequality (`KeyError` when the day is absent, as in the source's indexed
assignment). -/
def removeClassFromSchedule (s : PySchedule) (day time_slot : String)
    (class_info : PyClass) : Except PyError PySchedule :=
  match alGet? s.weekly_schedule day with
  | none => .error (.keyError day)
  | some ds =>
    let slot_classes := alGetD ds time_slot []
    let updated := slot_classes.filter fun c => c ≠ class_info
    .ok { s with weekly_schedule := alSet day (alSet time_slot updated ds) s.weekly_schedule }

/-- `_add_class_to_schedule`: create the day and the cell when absent, then
append. -/
def addClassToSchedule (s : PySchedule) (day time_slot : String)
    (class_info : PyClass) : PySchedule :=
  { s with weekly_schedule := weeklyAppend s.weekly_schedule day time_slot class_info }

/-- `_resolve_faculty_conflict` (also delegated to by
`_resolve_student_conflict`): move the last-listed affected class to the
first slot free for its faculty and group; keep the schedule unchanged
when no slot is found. -/
def resolveFacultyConflict (s : PySchedule) (conflict : Conflict) :
    Except PyError PySchedule :=
  if conflict.affected_classes.length < 2 then .ok s
  else
    match conflict.affected_classes.getLast? with
    | none => .ok s
    | some class_to_move =>
      match findAvailableSlot s class_to_move with
      | none => .ok s
      | some nd => do
        let s2 ← removeClassFromSchedule s conflict.day conflict.time_slot class_to_move
        .ok (addClassToSchedule s2 nd.1 nd.2 class_to_move)

/-- `_find_available_room`: the effective (re-defined) implementation, with
its hard-coded six-room list; returns the first listed room not occupied at
the cell. -/
def findAvailableRoom (s : PySchedule) (day time_slot : String)
    (_room_type : String) : Option String :=
  let available_rooms := ["R101", "R102", "R103", "L201", "L202", "L203"]
  let slot_classes := alGetD (alGetD s.weekly_schedule day []) time_slot []
  let occupied_rooms := slot_classes.filterMap fun c =>
    if pyTruthy c.room_id then c.room_id else none
  available_rooms.find? fun room => !(occupied_rooms.contains room)

/-- Apply a class rewrite everywhere in the schedule (the value-level
rendering of Python's in-place mutation of the aliased class dict). -/
def mapClasses (f : PyClass → PyClass) (s : PySchedule) : PySchedule :=
  { s with weekly_schedule :=
      s.weekly_schedule.map fun d => (d.1, d.2.map fun cell => (cell.1, cell.2.map f)) }

/-- `_resolve_room_conflict`: reassign the last-listed affected class to
the first free room of the hard-coded list (mutating its `room_id` and
`room_name`); keep the schedule unchanged when none is free. -/
def resolveRoomConflict (s : PySchedule) (conflict : Conflict) : PySchedule :=
  if conflict.affected_classes.length < 2 then s
  else
    match conflict.affected_classes.getLast? with
    | none => s
    | some class_to_reassign =>
      match findAvailableRoom s conflict.day conflict.time_slot
          (class_to_reassign.room_type.getD "lecture") with
      | none => s
      | some alt =>
        mapClasses
          (fun c =>
            if c = class_to_reassign then
              { c with room_id := some alt, room_name := some ("Room " ++ alt) }
            else c)
          s

/-- `_auto_resolve_conflicts`: dispatch each critical conflict, in
detection order, to its resolver. -/
def autoResolveConflicts (s : PySchedule) (conflicts : List Conflict) :
    Except PyError PySchedule :=
  (conflicts.filter fun c => c.severity = "critical").foldlM
    (fun s c =>
      if c.conflict_type = "faculty_overlap" then resolveFacultyConflict s c
      else if c.conflict_type = "room_booking" then .ok (resolveRoomConflict s c)
      else if c.conflict_type = "student_clash" then resolveFacultyConflict s c
      else .ok s)
    s

/-- `resolve_conflicts`: detect, auto-repair when anything was found,
re-detect, attach the residual list. -/
def resolveConflicts (s : PySchedule) (n0 : Nat) :
    Except PyError (PySchedule × Nat) :=
  let d1 := detectAllConflicts s n0
  if d1.1 ≠ [] then do
    let s2 ← autoResolveConflicts s d1.1
    let d2 := detectAllConflicts s2 d1.2
    .ok ({ s2 with conflicts := some d2.1 }, d2.2)
  else
    .ok ({ s with conflicts := some [] }, d1.2)

/-! ### A repair run that increases the total conflict count

Three classes of one faculty share `monday 09:00-10:00` (one faculty
conflict, no room or cohort conflict).  The repair moves the last one to
`monday 10:00-11:00`, whose availability check looks only at faculty and
cohort — not at rooms — and the move lands on a cell whose existing class
uses the same room. -/

def clsA : PyClass :=
  { faculty_id := some "F1", room_id := some "R1", group_id := some "G1" }

def clsB : PyClass :=
  { faculty_id := some "F1", room_id := some "R2", group_id := some "G2" }

def clsC : PyClass :=
  { faculty_id := some "F1", room_id := some "R3", group_id := some "G3" }

def clsD : PyClass :=
  { faculty_id := some "F2", room_id := some "R3", group_id := some "G4" }

def schedC2 : PySchedule :=
  { weekly_schedule :=
      [("monday", [("09:00-10:00", [clsA, clsB, clsC]), ("10:00-11:00", [clsD])])] }

/-- The repaired schedule of the run on `schedC2` (the run succeeds; the
fallback branch is never taken). -/
def outC2 : PySchedule × Nat :=
  match resolveConflicts schedC2 0 with
  | .ok p => p
  | .error _ => (schedC2, 0)

/-! ### The room search ignores the catalog (`_find_available_room`)

The spec-side room search, for comparison with the effective
implementation.  Modelled from the spec: look for any room present in the
catalog that is not occupied at (day, period); the code instead consults a
hard-coded six-room list. -/

def findAvailableRoomSpec (catalog_rooms : List String) (s : PySchedule)
    (day time_slot : String) : Option String :=
  let slot_classes := alGetD (alGetD s.weekly_schedule day []) time_slot []
  let occupied_rooms := slot_classes.filterMap fun c =>
    if pyTruthy c.room_id then c.room_id else none
  catalog_rooms.find? fun room => !(occupied_rooms.contains room)

/-- The catalog of the C3 scenario: a single room `X1`. -/
def roomsC3 : List String := ["X1"]

/-- An empty cell: every room is free. -/
def schedC3 : PySchedule := { weekly_schedule := [("monday", [("09:00-10:00", [])])] }

/-- A cell occupying all six hard-coded rooms, while the catalog's room
`X1` stays free. -/
def schedC3b : PySchedule :=
  { weekly_schedule :=
      [("monday",
        [("09:00-10:00",
          [{ room_id := some "R101" }, { room_id := some "R102" },
           { room_id := some "R103" }, { room_id := some "L201" },
           { room_id := some "L202" }, { room_id := some "L203" }])])] }

/-! ### Counting machinery for the repair pass

`detectGeneric`'s conflict count is characterised as the number of
distinct (entity, time-key) pairs occurring at least twice among the
schedule's class entries; the repair step lemmas are then stated over that
pair multiset. -/

/-- Both grouping passes of a detector are folds of `mapAppend` over a
keyed entry list. -/
def bucketsOf {E : Type} (l : List (String × E)) : List (String × List E) :=
  l.foldl (fun b ke => mapAppend b ke.1 ke.2) []

/-- The time key a detector groups an entry under. -/
def tkeyOf (e : CellEntry) : String := e.1 ++ "_" ++ e.2.1

/-- The (entity key, time key) pairs of a schedule under one projection. -/
def pairsOf (keyOf : PyClass → Option String)
    (w : List (String × List (String × List PyClass))) : List (String × String) :=
  (cellEntries w).filterMap fun e => (keyOf e.2.2).map fun k => (k, tkeyOf e)

/-- The number of distinct values occurring at least twice in a list. -/
def dupCount {α : Type} [BEq α] [DecidableEq α] (ks : List α) : Nat :=
  (ks.toFinset.filter fun k => 2 ≤ ks.count k).card

/-- The number of faculty-overlap and student-clash conflicts in a list. -/
def fsCount (conflicts : List Conflict) : Nat :=
  (conflicts.filter fun c =>
    c.conflict_type == "faculty_overlap" || c.conflict_type == "student_clash").length

/-- Well-formedness a Python dict-of-dicts document always has: day keys
are distinct and each day's period keys are distinct. -/
def WeeklyWF (w : List (String × List (String × List PyClass))) : Prop :=
  (w.map Prod.fst).Nodup ∧ ∀ d ∈ w, (d.2.map Prod.fst).Nodup

instance (w : List (String × List (String × List PyClass))) :
    Decidable (WeeklyWF w) := by
  unfold WeeklyWF
  infer_instance

lemma alGet?_eq_none {κ β : Type} [DecidableEq κ] {k : κ} :
    ∀ {m : List (κ × β)}, alGet? m k = none ↔ k ∉ m.map Prod.fst := by
  intro m
  induction m with
  | nil => simp [alGet?]
  | cons kv t ih =>
    obtain ⟨k2, v2⟩ := kv
    by_cases h : k2 = k
    · subst h
      simp [alGet?]
    · simp [alGet?, h, ih, Ne.symm h]

lemma alGet?_append {κ β : Type} [DecidableEq κ] (k : κ) :
    ∀ (a b : List (κ × β)),
      alGet? (a ++ b) k = ((alGet? a k).rec (alGet? b k) fun v => some v : Option β) := by
  intro a b
  induction a with
  | nil => simp [alGet?]
  | cons kv t ih =>
    obtain ⟨k2, v2⟩ := kv
    by_cases h : k2 = k
    · simp [alGet?, h]
    · simpa [alGet?, h] using ih

lemma alSet_keys_present {κ β : Type} [DecidableEq κ] {k : κ} (v : β) :
    ∀ {m : List (κ × β)}, k ∈ m.map Prod.fst →
      (alSet k v m).map Prod.fst = m.map Prod.fst := by
  intro m
  induction m with
  | nil => intro h; cases h
  | cons kv t ih =>
    intro h
    obtain ⟨k2, v2⟩ := kv
    by_cases hk : k2 = k
    · simp [alSet, hk]
    · have h2 : k ∈ t.map Prod.fst := by
        rcases List.mem_cons.mp h with h3 | h3
        · exact absurd h3.symm hk
        · exact h3
      simp [alSet, hk, ih h2]

lemma mapAppend_get_self {E : Type} (b : List (String × List E)) (k : String) (e : E) :
    alGet? (mapAppend b k e) k = some (alGetD b k [] ++ [e]) := by
  unfold mapAppend alGetD
  rcases h : alGet? b k with _ | l
  · rw [alGet?_append]
    rw [h]
    simp [alGet?]
  · simpa using alGet?_alSet_self k (l ++ [e]) b

lemma mapAppend_get_ne {E : Type} {b : List (String × List E)} {k k2 : String}
    (h : k2 ≠ k) (e : E) : alGet? (mapAppend b k e) k2 = alGet? b k2 := by
  unfold mapAppend
  rcases hg : alGet? b k with _ | l
  · rw [alGet?_append]
    have hne : ¬k = k2 := fun he => h he.symm
    have h1 : alGet? [(k, [e])] k2 = none := by simp [alGet?, hne]
    rw [h1]
    rcases alGet? b k2 with _ | v <;> rfl
  · exact alGet?_alSet_ne h (l ++ [e]) b

lemma mapAppend_keys_nodup {E : Type} {b : List (String × List E)}
    (h : (b.map Prod.fst).Nodup) (k : String) (e : E) :
    ((mapAppend b k e).map Prod.fst).Nodup := by
  unfold mapAppend
  rcases hg : alGet? b k with _ | l
  · have hk : k ∉ b.map Prod.fst := alGet?_eq_none.mp hg
    rw [List.map_append]
    refine List.Nodup.append h (List.nodup_singleton _) ?_
    intro x hx hx2
    rw [List.map_singleton, List.mem_singleton] at hx2
    subst hx2
    exact hk hx
  · have hk : k ∈ b.map Prod.fst :=
      List.mem_map.mpr ⟨(k, l), alGet?_mem hg, rfl⟩
    rw [alSet_keys_present _ hk]
    exact h

lemma alGet?_of_mem_nodup {κ β : Type} [DecidableEq κ] {k : κ} {v : β} :
    ∀ {m : List (κ × β)}, (m.map Prod.fst).Nodup → (k, v) ∈ m →
      alGet? m k = some v := by
  intro m
  induction m with
  | nil => intro _ h; cases h
  | cons kv t ih =>
    intro hnd h
    obtain ⟨k2, v2⟩ := kv
    rw [List.map_cons, List.nodup_cons] at hnd
    rcases List.mem_cons.mp h with h2 | h2
    · simp only [Prod.mk.injEq] at h2
      obtain ⟨ha, hb⟩ := h2
      subst ha
      subst hb
      simp [alGet?]
    · have hk2 : k2 ≠ k := by
        rintro rfl
        exact hnd.1 (List.mem_map.mpr ⟨(k2, v), h2, rfl⟩)
      simp only [alGet?, if_neg hk2]
      exact ih hnd.2 h2

lemma bucketsOf_go {E : Type} (l : List (String × E)) :
    ∀ (B : List (String × List E)) (c : String → List E),
      (B.map Prod.fst).Nodup →
      (∀ k, alGet? B k = if (c k).isEmpty then none else some (c k)) →
      ((l.foldl (fun b ke => mapAppend b ke.1 ke.2) B).map Prod.fst).Nodup ∧
      ∀ k, alGet? (l.foldl (fun b ke => mapAppend b ke.1 ke.2) B) k =
        (fun g : List E => if g.isEmpty then none else some g)
          (c k ++ (l.filter fun ke => ke.1 == k).map Prod.snd) := by
  induction l with
  | nil =>
    intro B c h1 h2
    refine ⟨h1, fun k => ?_⟩
    have he : c k ++ ((([] : List (String × E)).filter fun ke => ke.1 == k).map Prod.snd) = c k := by
      simp
    show alGet? B k =
      if (c k ++ ((([] : List (String × E)).filter fun ke => ke.1 == k).map Prod.snd)).isEmpty = true
        then none
        else some (c k ++ ((([] : List (String × E)).filter fun ke => ke.1 == k).map Prod.snd))
    rw [he]
    exact h2 k
  | cons ke t ih =>
    intro B c h1 h2
    obtain ⟨k0, e0⟩ := ke
    have hd : alGetD B k0 [] = c k0 := by
      unfold alGetD
      rw [h2 k0]
      rcases hc : (c k0).isEmpty with _ | _
      · simp [hc]
      · simp [List.isEmpty_iff.mp hc]
    have h1' : ((mapAppend B k0 e0).map Prod.fst).Nodup := mapAppend_keys_nodup h1 k0 e0
    have h2' : ∀ k, alGet? (mapAppend B k0 e0) k =
        if ((fun k => if k = k0 then c k ++ [e0] else c k) k).isEmpty then none
        else some ((fun k => if k = k0 then c k ++ [e0] else c k) k) := by
      intro k
      by_cases hk : k = k0
      · subst hk
        rw [mapAppend_get_self, hd]
        simp
      · rw [mapAppend_get_ne hk e0]
        simp only [if_neg hk]
        exact h2 k
    obtain ⟨g1, g2⟩ := ih (mapAppend B k0 e0) _ h1' h2'
    refine ⟨by simpa using g1, fun k => ?_⟩
    have hthis := g2 k
    simp only [List.foldl_cons]
    rw [hthis]
    show (if ((if k = k0 then c k ++ [e0] else c k) ++
            (t.filter fun ke => ke.1 == k).map Prod.snd).isEmpty = true
          then (none : Option (List E))
          else some ((if k = k0 then c k ++ [e0] else c k) ++
            (t.filter fun ke => ke.1 == k).map Prod.snd)) =
        if (c k ++ ((((k0, e0) :: t).filter fun ke => ke.1 == k)).map Prod.snd).isEmpty = true
          then none
          else some (c k ++ (((k0, e0) :: t).filter fun ke => ke.1 == k).map Prod.snd)
    by_cases hk : k = k0
    · subst hk
      have hfil : (((k, e0) :: t).filter fun ke => ke.1 == k) =
          (k, e0) :: t.filter fun ke => ke.1 == k := by
        simp [List.filter_cons]
      rw [hfil, if_pos rfl]
      simp [List.append_assoc]
    · have hne : (k0 == k) = false := beq_eq_false_iff_ne.mpr fun h2 => hk h2.symm
      have hfil : (((k0, e0) :: t).filter fun ke => ke.1 == k) =
          t.filter fun ke => ke.1 == k := by
        simp [List.filter_cons, hne]
      rw [hfil, if_neg hk]

lemma bucketsOf_nodup {E : Type} (l : List (String × E)) :
    ((bucketsOf l).map Prod.fst).Nodup :=
  (bucketsOf_go l [] (fun _ => []) (by simp) (by intro k; simp [alGet?])).1

lemma bucketsOf_get {E : Type} (l : List (String × E)) (k : String) :
    alGet? (bucketsOf l) k =
      (fun g : List E => if g.isEmpty then none else some g)
        ((l.filter fun ke => ke.1 == k).map Prod.snd) := by
  have := (bucketsOf_go l [] (fun _ => []) (by simp) (by intro k2; simp [alGet?])).2 k
  simpa [bucketsOf] using this

lemma bucketsOf_mem {E : Type} {l : List (String × E)} {k : String} {es : List E}
    (h : (k, es) ∈ bucketsOf l) :
    es = (l.filter fun ke => ke.1 == k).map Prod.snd := by
  have hg : alGet? (bucketsOf l) k = some es :=
    alGet?_of_mem_nodup (bucketsOf_nodup l) h
  have hg3 : (if ((l.filter fun ke => ke.1 == k).map Prod.snd).isEmpty
        then (none : Option (List E))
        else some ((l.filter fun ke => ke.1 == k).map Prod.snd)) = some es := by
    rw [bucketsOf_get] at hg
    exact hg
  by_cases he : ((l.filter fun ke => ke.1 == k).map Prod.snd).isEmpty
  · rw [if_pos he] at hg3
    cases hg3
  · rw [if_neg he] at hg3
    exact (Option.some_inj.mp hg3).symm

lemma bucketsOf_keys {E : Type} {l : List (String × E)} {k : String} :
    k ∈ (bucketsOf l).map Prod.fst ↔ k ∈ l.map Prod.fst := by
  constructor
  · intro h
    by_contra hk
    have hfil : l.filter (fun ke => ke.1 == k) = [] := by
      rw [List.filter_eq_nil_iff]
      intro ke hke hbe
      exact hk (List.mem_map.mpr ⟨ke, hke, by simpa using hbe⟩)
    have hg3 : alGet? (bucketsOf l) k =
        if ((l.filter fun ke => ke.1 == k).map Prod.snd).isEmpty then none
        else some ((l.filter fun ke => ke.1 == k).map Prod.snd) := bucketsOf_get l k
    rw [hfil] at hg3
    simp only [List.map_nil, List.isEmpty_nil, if_true] at hg3
    exact alGet?_eq_none.mp hg3 h
  · intro h
    obtain ⟨ke, hke, hfst⟩ := List.mem_map.mp h
    have hmem : ke ∈ l.filter fun ke2 => ke2.1 == k :=
      List.mem_filter.mpr ⟨hke, by simpa using hfst⟩
    have hne : ((l.filter fun ke2 => ke2.1 == k).map Prod.snd) ≠ [] := by
      intro hnil
      rw [List.map_eq_nil_iff] at hnil
      rw [hnil] at hmem
      cases hmem
    have hg3 : alGet? (bucketsOf l) k =
        if ((l.filter fun ke2 => ke2.1 == k).map Prod.snd).isEmpty then none
        else some ((l.filter fun ke2 => ke2.1 == k).map Prod.snd) := bucketsOf_get l k
    rw [if_neg (by rw [List.isEmpty_iff]; exact hne)] at hg3
    exact List.mem_map.mpr ⟨(k, _), alGet?_mem hg3, rfl⟩

lemma foldMatch_eq (keyOf : PyClass → Option String) :
    ∀ (l : List CellEntry) (b : List (String × List CellEntry)),
      l.foldl
        (fun b e =>
          match keyOf e.2.2 with
          | some k => mapAppend b k e
          | none => b)
        b =
      ((l.filterMap fun e => (keyOf e.2.2).map fun k => (k, e)).foldl
        (fun b ke => mapAppend b ke.1 ke.2) b) := by
  intro l
  induction l with
  | nil => intro b; rfl
  | cons e t ih =>
    intro b
    simp only [List.foldl_cons, List.filterMap_cons]
    rcases hk : keyOf e.2.2 with _ | k
    · exact ih b
    · exact ih (mapAppend b k e)

lemma entityBuckets_eq (keyOf : PyClass → Option String)
    (w : List (String × List (String × List PyClass))) :
    entityBuckets keyOf w =
      bucketsOf ((cellEntries w).filterMap fun e => (keyOf e.2.2).map fun k => (k, e)) := by
  unfold entityBuckets bucketsOf
  exact foldMatch_eq keyOf (cellEntries w) []

lemma timeGroups_eq (es : List CellEntry) :
    timeGroups es = bucketsOf (es.map fun e => (tkeyOf e, e)) := by
  unfold timeGroups bucketsOf tkeyOf
  rw [List.foldl_map]

lemma detect_inner_len (idPrefix ctype : String) (descFor : String → Nat → String)
    (sugg : List String) (entity : String) :
    ∀ (tgs : List (String × List CellEntry)) (acc : List Conflict × Nat),
      ((tgs.foldl
        (fun acc2 tg =>
          if tg.2.length > 1 then
            (acc2.1 ++ [mkConflict idPrefix ctype descFor sugg entity tg.1 tg.2 acc2.2],
             acc2.2 + 1)
          else acc2)
        acc).1).length =
        acc.1.length + tgs.countP fun tg => decide (tg.2.length > 1) := by
  intro tgs
  induction tgs with
  | nil => intro acc; simp
  | cons tg t ih =>
    intro acc
    by_cases h : tg.2.length > 1
    · simp only [List.foldl_cons, if_pos h]
      rw [ih]
      simp [List.countP_cons, h]
      omega
    · simp only [List.foldl_cons, if_neg h]
      rw [ih]
      simp [List.countP_cons, h]

lemma detect_inner_mem (idPrefix ctype : String) (descFor : String → Nat → String)
    (sugg : List String) (entity : String) :
    ∀ (tgs : List (String × List CellEntry)) (acc : List Conflict × Nat)
      (c : Conflict),
      c ∈ ((tgs.foldl
        (fun acc2 tg =>
          if tg.2.length > 1 then
            (acc2.1 ++ [mkConflict idPrefix ctype descFor sugg entity tg.1 tg.2 acc2.2],
             acc2.2 + 1)
          else acc2)
        acc).1) →
      c ∈ acc.1 ∨ (c.conflict_type = ctype ∧ c.severity = "critical") := by
  intro tgs
  induction tgs with
  | nil => intro acc c h; exact Or.inl h
  | cons tg t ih =>
    intro acc c h
    by_cases hc : tg.2.length > 1
    · simp only [List.foldl_cons, if_pos hc] at h
      rcases ih _ c h with h2 | h2
      · rcases List.mem_append.mp h2 with h3 | h3
        · exact Or.inl h3
        · rw [List.mem_singleton] at h3
          subst h3
          exact Or.inr ⟨rfl, rfl⟩
      · exact Or.inr h2
    · simp only [List.foldl_cons, if_neg hc] at h
      exact ih _ c h

lemma detectGeneric_length (keyOf : PyClass → Option String) (idPrefix ctype : String)
    (descFor : String → Nat → String) (sugg : List String) (s : PySchedule) (n0 : Nat) :
    (detectGeneric keyOf idPrefix ctype descFor sugg s n0).1.length =
      ((entityBuckets keyOf s.weekly_schedule).map fun bkt =>
        (timeGroups bkt.2).countP fun tg => decide (tg.2.length > 1)).sum := by
  unfold detectGeneric
  suffices h : ∀ (bkts : List (String × List CellEntry)) (acc : List Conflict × Nat),
      ((bkts.foldl
        (fun acc bkt =>
          (timeGroups bkt.2).foldl
            (fun acc2 tg =>
              if tg.2.length > 1 then
                (acc2.1 ++ [mkConflict idPrefix ctype descFor sugg bkt.1 tg.1 tg.2 acc2.2],
                 acc2.2 + 1)
              else acc2)
            acc)
        acc).1).length =
      acc.1.length + (bkts.map fun bkt =>
        (timeGroups bkt.2).countP fun tg => decide (tg.2.length > 1)).sum by
    rw [h (entityBuckets keyOf s.weekly_schedule) ([], n0)]
    simp
  intro bkts
  induction bkts with
  | nil => intro acc; simp
  | cons bkt bt ih =>
    intro acc
    simp only [List.foldl_cons]
    rw [ih, detect_inner_len]
    simp [Nat.add_assoc]

lemma detectGeneric_mem (keyOf : PyClass → Option String) (idPrefix ctype : String)
    (descFor : String → Nat → String) (sugg : List String) (s : PySchedule) (n0 : Nat)
    (c : Conflict) (h : c ∈ (detectGeneric keyOf idPrefix ctype descFor sugg s n0).1) :
    c.conflict_type = ctype ∧ c.severity = "critical" := by
  unfold detectGeneric at h
  suffices hs : ∀ (bkts : List (String × List CellEntry)) (acc : List Conflict × Nat),
      c ∈ ((bkts.foldl
        (fun acc bkt =>
          (timeGroups bkt.2).foldl
            (fun acc2 tg =>
              if tg.2.length > 1 then
                (acc2.1 ++ [mkConflict idPrefix ctype descFor sugg bkt.1 tg.1 tg.2 acc2.2],
                 acc2.2 + 1)
              else acc2)
            acc)
        acc).1) →
      c ∈ acc.1 ∨ (c.conflict_type = ctype ∧ c.severity = "critical") by
    rcases hs (entityBuckets keyOf s.weekly_schedule) ([], n0) h with h2 | h2
    · cases h2
    · exact h2
  intro bkts
  induction bkts with
  | nil => intro acc h2; exact Or.inl h2
  | cons bkt bt ih =>
    intro acc h2
    simp only [List.foldl_cons] at h2
    rcases ih _ h2 with h3 | h3
    · exact detect_inner_mem idPrefix ctype descFor sugg bkt.1 _ _ c h3
    · exact Or.inr h3

lemma filter_length_keys {E : Type} {P : String × List E → Bool} {Q : String → Bool} :
    ∀ {B : List (String × List E)}, (∀ bkt ∈ B, P bkt = Q bkt.1) →
      (B.filter P).length = ((B.map Prod.fst).filter Q).length := by
  intro B
  induction B with
  | nil => intro _; rfl
  | cons bkt t ih =>
    intro h
    have hb := h bkt (List.mem_cons_self _ _)
    have ht : ∀ b2 ∈ t, P b2 = Q b2.1 := fun b2 hb2 => h b2 (List.mem_cons_of_mem _ hb2)
    simp only [List.filter_cons, List.map_cons, hb]
    rcases Q bkt.1 with _ | _
    · exact ih ht
    · simp [ih ht]

lemma filter_fst_length {E : Type} (k : String) :
    ∀ (l : List (String × E)),
      (l.filter fun ke => ke.1 == k).length = (l.map Prod.fst).count k := by
  intro l
  induction l with
  | nil => rfl
  | cons ke t ih =>
    obtain ⟨k1, e1⟩ := ke
    simp only [List.filter_cons, List.map_cons, List.count_cons]
    by_cases h : k1 = k
    · subst h
      simp [ih]
    · have hb : (k1 == k) = false := beq_eq_false_iff_ne.mpr h
      have hb2 : ¬k = k1 := fun h2 => h h2.symm
      simp [hb, hb2, ih, beq_iff_eq]

lemma timeGroups_countP (es : List CellEntry) :
    ((timeGroups es).countP fun tg => decide (tg.2.length > 1)) =
      dupCount (es.map tkeyOf) := by
  rw [timeGroups_eq, List.countP_eq_length_filter]
  have hfst : (es.map fun e => (tkeyOf e, e)).map Prod.fst = es.map tkeyOf := by
    simp
  have hcong : ∀ bkt ∈ bucketsOf (es.map fun e => (tkeyOf e, e)),
      (decide (bkt.2.length > 1)) = decide (2 ≤ (es.map tkeyOf).count bkt.1) := by
    intro bkt hb
    have h2 := bucketsOf_mem (l := es.map fun e => (tkeyOf e, e)) (by
      show (bkt.1, bkt.2) ∈ _
      exact hb)
    have hlen : bkt.2.length = (es.map tkeyOf).count bkt.1 := by
      rw [h2, List.length_map, filter_fst_length, hfst]
    rw [hlen]
    exact decide_eq_decide.mpr (by omega)
  rw [filter_length_keys (Q := fun k => decide (2 ≤ (es.map tkeyOf).count k)) hcong]
  have hnd : ((bucketsOf (es.map fun e => (tkeyOf e, e))).map Prod.fst).Nodup :=
    bucketsOf_nodup _
  rw [← List.toFinset_card_of_nodup (hnd.filter _), List.toFinset_filter]
  have hkeyset : ((bucketsOf (es.map fun e => (tkeyOf e, e))).map Prod.fst).toFinset =
      (es.map tkeyOf).toFinset := by
    ext k
    simp only [List.mem_toFinset]
    rw [bucketsOf_keys, hfst]
  rw [hkeyset]
  unfold dupCount
  congr 1
  apply Finset.filter_congr
  intro x _
  simp

lemma count_snd_filter (f t : String) :
    ∀ (ps : List (String × String)),
      ((ps.filter fun p => p.1 == f).map Prod.snd).count t = ps.count (f, t) := by
  intro ps
  induction ps with
  | nil => rfl
  | cons p r ih =>
    obtain ⟨a, b⟩ := p
    by_cases ha : a = f
    · subst ha
      simp [List.filter_cons, List.count_cons, beq_iff_eq, Prod.mk.injEq, ih]
    · have hb : (a == f) = false := beq_eq_false_iff_ne.mpr ha
      have hne : ((f, t) == (a, b)) = false := by
        apply beq_eq_false_iff_ne.mpr
        intro h
        exact ha (congrArg Prod.fst h).symm
      simp [List.filter_cons, List.count_cons, hb, hne, ih, ha]

set_option maxHeartbeats 1000000 in
lemma sum_dup_buckets (keyL : List (String × CellEntry)) :
    ((bucketsOf keyL).map fun bkt => dupCount (bkt.2.map tkeyOf)).sum
      = dupCount (keyL.map fun ke => (ke.1, tkeyOf ke.2)) := by
  have hmapc : (bucketsOf keyL).map (fun bkt => dupCount (bkt.2.map tkeyOf))
      = (bucketsOf keyL).map (fun bkt =>
          dupCount (((keyL.filter fun ke => ke.1 == bkt.1).map Prod.snd).map tkeyOf)) :=
    List.map_congr_left fun bkt hb => by
      rw [bucketsOf_mem (show (bkt.1, bkt.2) ∈ _ from hb)]
  rw [hmapc, show (fun bkt : String × List CellEntry =>
      dupCount (((keyL.filter fun ke => ke.1 == bkt.1).map Prod.snd).map tkeyOf))
    = (fun f => dupCount (((keyL.filter fun ke => ke.1 == f).map Prod.snd).map tkeyOf))
      ∘ Prod.fst from rfl, ← List.map_map]
  rw [← List.sum_toFinset _ (bucketsOf_nodup keyL)]
  have hkeyset : ((bucketsOf keyL).map Prod.fst).toFinset = (keyL.map Prod.fst).toFinset := by
    ext k
    simp only [List.mem_toFinset]
    exact bucketsOf_keys
  rw [hkeyset]
  set ps := keyL.map fun ke => (ke.1, tkeyOf ke.2) with hps
  have hfst2 : ps.map Prod.fst = keyL.map Prod.fst := by
    rw [hps, List.map_map]
    rfl
  have hfib : dupCount ps
      = ∑ f in (keyL.map Prod.fst).toFinset,
          ((ps.toFinset.filter fun p => 2 ≤ ps.count p).filter fun p => p.1 = f).card := by
    unfold dupCount
    have hcov : ∀ p ∈ ps.toFinset.filter (fun p => 2 ≤ ps.count p),
        Prod.fst p ∈ (keyL.map Prod.fst).toFinset := by
      intro p hp
      rw [Finset.mem_filter] at hp
      rw [List.mem_toFinset] at hp ⊢
      rw [← hfst2]
      exact List.mem_map.mpr ⟨p, hp.1, rfl⟩
    exact Finset.card_eq_sum_card_fiberwise hcov
  show _ = dupCount ps
  rw [hfib]
  apply Finset.sum_congr rfl
  intro f _
  set tks := ((keyL.filter fun ke => ke.1 == f).map Prod.snd).map tkeyOf with htks0
  have htks : tks = (ps.filter fun p => p.1 == f).map Prod.snd := by
    rw [htks0, hps, List.filter_map, List.map_map, List.map_map]
    rfl
  have hcnt : ∀ x, tks.count x = ps.count (f, x) := by
    intro x
    rw [htks]
    exact count_snd_filter f x ps
  have himg : (ps.toFinset.filter fun p => 2 ≤ ps.count p).filter (fun p => p.1 = f)
      = (tks.toFinset.filter fun x => 2 ≤ tks.count x).image fun x => (f, x) := by
    ext p
    obtain ⟨p1, p2⟩ := p
    simp only [Finset.mem_filter, Finset.mem_image, List.mem_toFinset]
    constructor
    · rintro ⟨⟨_, hc⟩, hf1⟩
      subst hf1
      have hc2 : 2 ≤ tks.count p2 := by
        rw [hcnt p2]
        exact hc
      refine ⟨p2, ⟨?_, hc2⟩, rfl⟩
      have hpos : 0 < tks.count p2 := lt_of_lt_of_le (by norm_num) hc2
      exact List.count_pos_iff.mp hpos
    · rintro ⟨x, ⟨_, hxc⟩, heq⟩
      have h1 : p1 = f := (congrArg Prod.fst heq).symm
      have h2 : p2 = x := (congrArg Prod.snd heq).symm
      subst h1
      subst h2
      have hc : 2 ≤ ps.count (p1, p2) := by
        rw [← hcnt p2]
        exact hxc
      have hpos : 0 < ps.count (p1, p2) := lt_of_lt_of_le (by norm_num) hc
      exact ⟨⟨List.count_pos_iff.mp hpos, hc⟩, rfl⟩
  rw [himg, Finset.card_image_of_injective _ fun a b h => by simpa using congrArg Prod.snd h]
  rfl

lemma pairsOf_eq (keyOf : PyClass → Option String)
    (w : List (String × List (String × List PyClass))) :
    pairsOf keyOf w =
      ((cellEntries w).filterMap fun e => (keyOf e.2.2).map fun k => (k, e)).map
        fun ke => (ke.1, tkeyOf ke.2) := by
  unfold pairsOf
  rw [List.map_filterMap]
  apply congrFun
  apply congrArg
  funext e
  rw [Option.map_map]
  rfl

lemma detectGeneric_count (keyOf : PyClass → Option String) (idPrefix ctype : String)
    (descFor : String → Nat → String) (sugg : List String) (s : PySchedule) (n0 : Nat) :
    (detectGeneric keyOf idPrefix ctype descFor sugg s n0).1.length =
      dupCount (pairsOf keyOf s.weekly_schedule) := by
  rw [detectGeneric_length, entityBuckets_eq]
  rw [List.map_congr_left fun bkt _ => timeGroups_countP bkt.2]
  rw [sum_dup_buckets, pairsOf_eq]

lemma fsCount_detectAll (s : PySchedule) (n0 : Nat) :
    fsCount (detectAllConflicts s n0).1 =
      dupCount (pairsOf facultyKeyOf s.weekly_schedule) +
        dupCount (pairsOf groupKeyOf s.weekly_schedule) := by
  have hfmem : ∀ c ∈ (detectFacultyConflicts s n0).1,
      c.conflict_type = "faculty_overlap" := by
    intro c hc
    unfold detectFacultyConflicts at hc
    exact (detectGeneric_mem _ _ _ _ _ _ _ c hc).1
  have hrmem : ∀ c ∈ (detectRoomConflicts s (detectFacultyConflicts s n0).2).1,
      c.conflict_type = "room_booking" := by
    intro c hc
    unfold detectRoomConflicts at hc
    exact (detectGeneric_mem _ _ _ _ _ _ _ c hc).1
  have hsmem : ∀ c ∈ (detectStudentConflicts s
        (detectRoomConflicts s (detectFacultyConflicts s n0).2).2).1,
      c.conflict_type = "student_clash" := by
    intro c hc
    unfold detectStudentConflicts at hc
    exact (detectGeneric_mem _ _ _ _ _ _ _ c hc).1
  unfold fsCount detectAllConflicts
  simp only [List.filter_append, List.length_append]
  have h1 : ((detectFacultyConflicts s n0).1.filter fun c =>
      c.conflict_type == "faculty_overlap" || c.conflict_type == "student_clash")
      = (detectFacultyConflicts s n0).1 := by
    apply List.filter_eq_self.mpr
    intro c hc
    rw [hfmem c hc]
    rfl
  have h2 : ((detectRoomConflicts s (detectFacultyConflicts s n0).2).1.filter fun c =>
      c.conflict_type == "faculty_overlap" || c.conflict_type == "student_clash")
      = [] := by
    apply List.filter_eq_nil_iff.mpr
    intro c hc
    rw [hrmem c hc]
    decide
  have h3 : ((detectStudentConflicts s
        (detectRoomConflicts s (detectFacultyConflicts s n0).2).2).1.filter fun c =>
      c.conflict_type == "faculty_overlap" || c.conflict_type == "student_clash")
      = (detectStudentConflicts s
        (detectRoomConflicts s (detectFacultyConflicts s n0).2).2).1 := by
    apply List.filter_eq_self.mpr
    intro c hc
    rw [hsmem c hc]
    rfl
  rw [h1, h2, h3]
  have hflen : (detectFacultyConflicts s n0).1.length =
      dupCount (pairsOf facultyKeyOf s.weekly_schedule) := by
    unfold detectFacultyConflicts
    exact detectGeneric_count _ _ _ _ _ _ _
  have hslen : (detectStudentConflicts s
        (detectRoomConflicts s (detectFacultyConflicts s n0).2).2).1.length =
      dupCount (pairsOf groupKeyOf s.weekly_schedule) := by
    unfold detectStudentConflicts
    exact detectGeneric_count _ _ _ _ _ _ _
  rw [hflen, hslen]
  simp

lemma dupCount_perm {α : Type} [BEq α] [DecidableEq α] {ps qs : List α}
    (h : ps.Perm qs) : dupCount ps = dupCount qs := by
  unfold dupCount
  rw [List.toFinset_eq_of_perm _ _ h]
  congr 1
  apply Finset.filter_congr
  intro x _
  have hc : List.count x ps = List.count x qs := by
    unfold List.count
    exact h.countP_eq _
  rw [hc]

lemma dupCount_le_of_sublist {α : Type} [BEq α] [DecidableEq α] {ps qs : List α}
    (h : ps.Sublist qs) : dupCount ps ≤ dupCount qs := by
  unfold dupCount
  apply Finset.card_le_card
  intro x hx
  rw [Finset.mem_filter] at hx ⊢
  exact ⟨List.mem_toFinset.mpr (h.subset (List.mem_toFinset.mp hx.1)),
    le_trans hx.2 (h.count_le x)⟩

lemma dupCount_append_fresh {α : Type} [BEq α] [DecidableEq α] [LawfulBEq α]
    {qs : List α} {p : α} (h : qs.count p = 0) :
    dupCount (qs ++ [p]) = dupCount qs := by
  unfold dupCount
  have hset : (qs ++ [p]).toFinset.filter (fun k => 2 ≤ (qs ++ [p]).count k)
      = qs.toFinset.filter fun k => 2 ≤ qs.count k := by
    ext x
    simp only [Finset.mem_filter, List.mem_toFinset, List.mem_append,
      List.count_append, List.mem_singleton]
    constructor
    · rintro ⟨hmem, hc⟩
      by_cases hx : x = p
      · subst hx
        rw [h] at hc
        simp at hc
      · have hcnt : List.count x [p] = 0 := by
          simp [List.count_singleton, hx]
        rw [hcnt] at hc
        have hpos : 0 < qs.count x := by omega
        exact ⟨List.count_pos_iff.mp hpos, by omega⟩
    · rintro ⟨hmem, hc⟩
      refine ⟨Or.inl hmem, ?_⟩
      omega
  rw [hset]

lemma flatMap_alSet_present {β E : Type} (f : String × β → List E) :
    ∀ (w : List (String × β)) (k : String) (v v2 : β),
      alGet? w k = some v → (f (k, v2)).Sublist (f (k, v)) →
      ((alSet k v2 w).flatMap f).Sublist (w.flatMap f) := by
  intro w
  induction w with
  | nil => intro k v v2 h _; cases h
  | cons kv t ih =>
    intro k v v2 h hsub
    obtain ⟨k1, b1⟩ := kv
    by_cases hk : k1 = k
    · subst hk
      have hb : b1 = v := by simpa [alGet?] using h
      subst hb
      simp only [alSet, if_pos rfl, List.flatMap_cons]
      exact hsub.append (List.Sublist.refl _)
    · have h2 : alGet? t k = some v := by simpa [alGet?, hk] using h
      simp only [alSet, if_neg hk, List.flatMap_cons]
      exact (List.Sublist.refl _).append (ih k v v2 h2 hsub)

lemma flatMap_alSet_perm {β E : Type} (f : String × β → List E) :
    ∀ (w : List (String × β)) (k : String) (v v2 : β) (extra : List E),
      alGet? w k = some v → (f (k, v2)).Perm (f (k, v) ++ extra) →
      ((alSet k v2 w).flatMap f).Perm (w.flatMap f ++ extra) := by
  intro w
  induction w with
  | nil => intro k v v2 extra h _; cases h
  | cons kv t ih =>
    intro k v v2 extra h hperm
    obtain ⟨k1, b1⟩ := kv
    by_cases hk : k1 = k
    · subst hk
      have hb : b1 = v := by simpa [alGet?] using h
      subst hb
      simp only [alSet, if_pos rfl, List.flatMap_cons]
      rw [List.append_assoc]
      refine (hperm.append_right _).trans ?_
      rw [List.append_assoc]
      exact List.Perm.append_left _ List.perm_append_comm
    · have h2 : alGet? t k = some v := by simpa [alGet?, hk] using h
      simp only [alSet, if_neg hk, List.flatMap_cons]
      rw [List.append_assoc]
      exact List.Perm.append_left _ (ih k v v2 extra h2 hperm)

lemma flatMap_alSet_absent {β E : Type} (f : String × β → List E) :
    ∀ (w : List (String × β)) (k : String) (v2 : β),
      alGet? w k = none →
      (alSet k v2 w).flatMap f = w.flatMap f ++ f (k, v2) := by
  intro w
  induction w with
  | nil => intro k v2 _; simp [alSet]
  | cons kv t ih =>
    intro k v2 h
    obtain ⟨k1, b1⟩ := kv
    have hk : ¬k1 = k := by
      intro he
      rw [alGet?, if_pos he] at h
      cases h
    have h2 : alGet? t k = none := by
      rw [alGet?, if_neg hk] at h
      exact h
    simp only [alSet, if_neg hk, List.flatMap_cons, ih k v2 h2, List.append_assoc]

/-- The flattening function of `cellEntries` at one day entry. -/
def dayFlat (d : String × List (String × List PyClass)) : List CellEntry :=
  d.2.flatMap fun cell => cell.2.map fun ci => (d.1, cell.1, ci)

lemma cellEntries_flat (w : List (String × List (String × List PyClass))) :
    cellEntries w = w.flatMap dayFlat := rfl

lemma cellEntries_remove {s : PySchedule} {day ts : String} {ci : PyClass}
    {s2 : PySchedule} (h : removeClassFromSchedule s day ts ci = .ok s2) :
    (cellEntries s2.weekly_schedule).Sublist (cellEntries s.weekly_schedule) ∧
      ∃ ds, alGet? s.weekly_schedule day = some ds ∧
        s2.weekly_schedule =
          alSet day (alSet ts ((alGetD ds ts []).filter fun c => c ≠ ci) ds)
            s.weekly_schedule := by
  unfold removeClassFromSchedule at h
  rcases hg : alGet? s.weekly_schedule day with _ | ds
  · rw [hg] at h
    cases h
  · rw [hg] at h
    injection h with h2
    rw [← h2]
    refine ⟨?_, ds, rfl, rfl⟩
    show (cellEntries (alSet day (alSet ts ((alGetD ds ts []).filter fun c => c ≠ ci) ds)
      s.weekly_schedule)).Sublist (cellEntries s.weekly_schedule)
    rw [cellEntries_flat, cellEntries_flat]
    apply flatMap_alSet_present dayFlat s.weekly_schedule day ds _ hg
    show ((alSet ts ((alGetD ds ts []).filter fun c => c ≠ ci) ds).flatMap
      fun cell => cell.2.map fun ci2 => (day, cell.1, ci2)).Sublist
      (ds.flatMap fun cell => cell.2.map fun ci2 => (day, cell.1, ci2))
    rcases hts : alGet? ds ts with _ | cell
    · have hd : alGetD ds ts [] = [] := by simp [alGetD, hts]
      rw [hd]
      rw [flatMap_alSet_absent _ ds ts _ hts]
      simp
    · have hd : alGetD ds ts [] = cell := by simp [alGetD, hts]
      rw [hd]
      apply flatMap_alSet_present _ ds ts cell _ hts
      exact (List.filter_sublist _).map _

lemma cellEntries_add (w : List (String × List (String × List PyClass)))
    (day ts : String) (ci : PyClass) :
    (cellEntries (weeklyAppend w day ts ci)).Perm
      (cellEntries w ++ [(day, ts, ci)]) := by
  show (cellEntries (alSet day
      (alSet ts ((alGetD (alGetD w day []) ts []) ++ [ci]) (alGetD w day [])) w)).Perm
    (cellEntries w ++ [(day, ts, ci)])
  rcases hg : alGet? w day with _ | ds
  · have hd : alGetD w day [] = [] := by simp [alGetD, hg]
    rw [hd]
    have hone : alSet ts ((alGetD ([] : List (String × List PyClass)) ts []) ++ [ci]) [] =
        [(ts, [ci])] := by
      simp [alSet, alGetD, alGet?]
    rw [hone]
    rw [cellEntries_flat, cellEntries_flat]
    rw [flatMap_alSet_absent dayFlat w day [(ts, [ci])] hg]
    have : dayFlat (day, [(ts, [ci])]) = [(day, ts, ci)] := rfl
    rw [this]
  · have hd : alGetD w day [] = ds := by simp [alGetD, hg]
    rw [hd]
    rw [cellEntries_flat, cellEntries_flat]
    apply flatMap_alSet_perm dayFlat w day ds _ [(day, ts, ci)] hg
    show ((alSet ts ((alGetD ds ts []) ++ [ci]) ds).flatMap
      fun cell => cell.2.map fun ci2 => (day, cell.1, ci2)).Perm
      ((ds.flatMap fun cell => cell.2.map fun ci2 => (day, cell.1, ci2)) ++ [(day, ts, ci)])
    rcases hts : alGet? ds ts with _ | cell
    · have hd2 : alGetD ds ts [] = [] := by simp [alGetD, hts]
      rw [hd2]
      rw [flatMap_alSet_absent _ ds ts _ hts]
      simp
    · have hd2 : alGetD ds ts [] = cell := by simp [alGetD, hts]
      rw [hd2]
      have hin : ((fun cell2 : String × List PyClass =>
          cell2.2.map fun ci2 => (day, cell2.1, ci2)) (ts, cell ++ [ci])).Perm
          (((fun cell2 : String × List PyClass =>
            cell2.2.map fun ci2 => (day, cell2.1, ci2)) (ts, cell)) ++ [(day, ts, ci)]) := by
        simp
      exact flatMap_alSet_perm _ ds ts cell _ [(day, ts, ci)] hts hin

lemma dayFlat_map (f : PyClass → PyClass) (dn : String) :
    ∀ (cells : List (String × List PyClass)),
      dayFlat (dn, cells.map fun cell => (cell.1, cell.2.map f))
        = (dayFlat (dn, cells)).map fun e => (e.1, e.2.1, f e.2.2) := by
  intro cells
  induction cells with
  | nil => rfl
  | cons cell r ih =>
    simp only [dayFlat, List.map_cons, List.flatMap_cons, List.map_append, List.map_map]
    simp only [dayFlat] at ih
    rw [ih]
    congr 1

lemma cellEntries_map (f : PyClass → PyClass) :
    ∀ (w : List (String × List (String × List PyClass))),
      cellEntries (w.map fun d => (d.1, d.2.map fun cell => (cell.1, cell.2.map f)))
        = (cellEntries w).map fun e => (e.1, e.2.1, f e.2.2) := by
  intro w
  induction w with
  | nil => rfl
  | cons d t ih =>
    obtain ⟨dn, cells⟩ := d
    rw [List.map_cons, cellEntries_flat, List.flatMap_cons, ← cellEntries_flat, ih]
    rw [cellEntries_flat (_ :: t), List.flatMap_cons, ← cellEntries_flat, List.map_append]
    congr 1
    exact dayFlat_map f dn cells

lemma alSet_keys_absent {κ β : Type} [DecidableEq κ] {k : κ} (v : β) :
    ∀ {m : List (κ × β)}, alGet? m k = none →
      (alSet k v m).map Prod.fst = m.map Prod.fst ++ [k] := by
  intro m
  induction m with
  | nil => intro _; rfl
  | cons kv t ih =>
    intro h
    obtain ⟨k1, b1⟩ := kv
    have hk : ¬k1 = k := by
      intro he
      rw [alGet?, if_pos he] at h
      cases h
    have h2 : alGet? t k = none := by
      rw [alGet?, if_neg hk] at h
      exact h
    simp [alSet, hk, ih h2]

lemma alSet_keys_nodup {κ β : Type} [DecidableEq κ] {k : κ} {v : β}
    {m : List (κ × β)} (h : (m.map Prod.fst).Nodup) :
    ((alSet k v m).map Prod.fst).Nodup := by
  rcases hg : alGet? m k with _ | x
  · rw [alSet_keys_absent v hg]
    refine List.Nodup.append h (List.nodup_singleton _) ?_
    intro y hy hy2
    rw [List.mem_singleton] at hy2
    subst hy2
    exact alGet?_eq_none.mp hg hy
  · rw [alSet_keys_present v (List.mem_map.mpr ⟨(k, x), alGet?_mem hg, rfl⟩)]
    exact h

lemma WF_remove {s : PySchedule} {day ts : String} {ci : PyClass} {s2 : PySchedule}
    (hWF : WeeklyWF s.weekly_schedule)
    (h : removeClassFromSchedule s day ts ci = .ok s2) :
    WeeklyWF s2.weekly_schedule := by
  obtain ⟨-, ds, hg, heq⟩ := cellEntries_remove h
  rw [heq]
  constructor
  · exact alSet_keys_nodup hWF.1
  · intro d hd
    rcases alSet_mem hd with rfl | hdm
    · apply alSet_keys_nodup
      exact hWF.2 (day, ds) (alGet?_mem hg)
    · exact hWF.2 d hdm

lemma WF_weeklyAppend {w : List (String × List (String × List PyClass))}
    {day ts : String} {ci : PyClass} (hWF : WeeklyWF w) :
    WeeklyWF (weeklyAppend w day ts ci) := by
  show WeeklyWF (alSet day
    (alSet ts ((alGetD (alGetD w day []) ts []) ++ [ci]) (alGetD w day [])) w)
  constructor
  · exact alSet_keys_nodup hWF.1
  · intro d hd
    rcases alSet_mem hd with rfl | hdm
    · apply alSet_keys_nodup
      rcases hg : alGet? w day with _ | ds
      · have hnil : alGetD w day [] = [] := by simp [alGetD, hg]
        rw [hnil]
        exact List.nodup_nil
      · have hds : alGetD w day [] = ds := by simp [alGetD, hg]
        rw [hds]
        exact hWF.2 (day, ds) (alGet?_mem hg)
    · exact hWF.2 d hdm

lemma WF_mapClasses (f : PyClass → PyClass) {s : PySchedule}
    (hWF : WeeklyWF s.weekly_schedule) : WeeklyWF (mapClasses f s).weekly_schedule := by
  constructor
  · have hkeys : ((mapClasses f s).weekly_schedule).map Prod.fst =
        s.weekly_schedule.map Prod.fst := by
      show ((s.weekly_schedule.map fun d =>
        (d.1, d.2.map fun cell => (cell.1, cell.2.map f))).map Prod.fst) = _
      rw [List.map_map]
      rfl
    rw [hkeys]
    exact hWF.1
  · intro d hd
    have hd2 : d ∈ s.weekly_schedule.map fun d2 =>
        (d2.1, d2.2.map fun cell => (cell.1, cell.2.map f)) := hd
    rw [List.mem_map] at hd2
    obtain ⟨d0, hd0, rfl⟩ := hd2
    have hkeys : ((d0.2.map fun cell => (cell.1, cell.2.map f)).map Prod.fst) =
        d0.2.map Prod.fst := by
      rw [List.map_map]
      rfl
    show ((d0.2.map fun cell => (cell.1, cell.2.map f)).map Prod.fst).Nodup
    rw [hkeys]
    exact hWF.2 d0 hd0

lemma split_unique :
    ∀ (a : List Char) (b c d : List Char), '_' ∉ a → '_' ∉ c →
      a ++ '_' :: b = c ++ '_' :: d → a = c ∧ b = d := by
  intro a
  induction a with
  | nil =>
    intro b c d _ hc h
    cases c with
    | nil =>
      rw [List.nil_append, List.nil_append] at h
      injection h with _ h2
      exact ⟨rfl, h2⟩
    | cons c0 ct =>
      rw [List.nil_append, List.cons_append] at h
      injection h with h1 _
      exact absurd (h1 ▸ List.mem_cons_self c0 ct) hc
  | cons a0 at' ih =>
    intro b c d ha hc h
    cases c with
    | nil =>
      rw [List.cons_append, List.nil_append] at h
      injection h with h1 _
      exact absurd (h1 ▸ List.mem_cons_self a0 at') ha
    | cons c0 ct =>
      rw [List.cons_append, List.cons_append] at h
      injection h with h1 h2
      have hrec := ih b ct d (fun hm => ha (List.mem_cons_of_mem _ hm))
        (fun hm => hc (List.mem_cons_of_mem _ hm)) h2
      exact ⟨by rw [h1, hrec.1], hrec.2⟩

lemma underscore_key_eq {d2 t2 day ts : String}
    (hday : '_' ∉ day.data) (hts : '_' ∉ ts.data)
    (h : d2 ++ "_" ++ t2 = day ++ "_" ++ ts) : d2 = day ∧ t2 = ts := by
  have h0 : d2.data ++ '_' :: t2.data = day.data ++ '_' :: ts.data := by
    have h1 := congrArg String.data h
    rw [String.data_append, String.data_append, String.data_append,
      String.data_append] at h1
    simpa [List.append_assoc] using h1
  have hcnt := congrArg (List.count '_') h0
  rw [List.count_append, List.count_append, List.count_cons_self,
    List.count_cons_self] at hcnt
  have hdz : List.count '_' day.data = 0 := List.count_eq_zero.mpr hday
  have htz : List.count '_' ts.data = 0 := List.count_eq_zero.mpr hts
  rw [hdz, htz] at hcnt
  have hd2z : '_' ∉ d2.data := by
    apply List.count_eq_zero.mp
    omega
  obtain ⟨he1, he2⟩ := split_unique d2.data t2.data day.data ts.data hd2z hday h0
  constructor
  · obtain ⟨d2l⟩ := d2
    obtain ⟨dayl⟩ := day
    exact congrArg String.mk he1
  · obtain ⟨t2l⟩ := t2
    obtain ⟨tsl⟩ := ts
    exact congrArg String.mk he2

lemma findSome?_mem {α β : Type} (f : α → Option β) :
    ∀ (l : List α) (b : β), l.findSome? f = some b → ∃ a ∈ l, f a = some b := by
  intro l
  induction l with
  | nil => intro b h; cases h
  | cons a t ih =>
    intro b h
    rw [List.findSome?_cons] at h
    rcases hf : f a with _ | v
    · rw [hf] at h
      obtain ⟨a2, ha2, hfa2⟩ := ih b h
      exact ⟨a2, List.mem_cons_of_mem _ ha2, hfa2⟩
    · rw [hf] at h
      exact ⟨a, List.mem_cons_self _ _, by rw [hf]; exact h⟩

lemma findAvailableSlot_spec {s : PySchedule} {ci : PyClass} {d t : String}
    (h : findAvailableSlot s ci = some (d, t)) :
    d ∈ dayNames ∧ t ∈ timeSlotLabels ∧
      isSlotAvailable s d t ci.faculty_id (pyOr ci.group_id ci.student_group_id) = true := by
  simp only [findAvailableSlot] at h
  obtain ⟨day, hday, h2⟩ := findSome?_mem _ _ _ h
  obtain ⟨ts, hts, h3⟩ := findSome?_mem _ _ _ h2
  by_cases hava : isSlotAvailable s day ts ci.faculty_id
      (pyOr ci.group_id ci.student_group_id) = true
  · rw [if_pos hava] at h3
    injection h3 with h4
    have hd : day = d := congrArg Prod.fst h4
    have ht : ts = t := congrArg Prod.snd h4
    subst hd
    subst ht
    exact ⟨hday, hts, hava⟩
  · rw [if_neg hava] at h3
    cases h3

lemma dayNames_no_underscore : ∀ d ∈ dayNames, '_' ∉ d.data := by decide

lemma timeSlotLabels_no_underscore : ∀ t ∈ timeSlotLabels, '_' ∉ t.data := by decide

lemma facultyKeyOf_eq_some {c : PyClass} {k : String} (h : facultyKeyOf c = some k) :
    c.faculty_id = some k := by
  unfold facultyKeyOf at h
  by_cases ht : pyTruthy c.faculty_id = true
  · rw [if_pos ht] at h
    exact h
  · rw [if_neg ht] at h
    cases h

lemma groupKeyOf_eq_some {c : PyClass} {k : String} (h : groupKeyOf c = some k) :
    pyOr c.group_id c.student_group_id = some k := by
  unfold groupKeyOf at h
  by_cases ht : pyTruthy (pyOr c.group_id c.student_group_id) = true
  · rw [if_pos ht] at h
    exact h
  · rw [if_neg ht] at h
    cases h

lemma isSlotAvailable_fresh_fac {s : PySchedule} {day ts : String} {cm : PyClass}
    {gid : Option String} {k : String}
    (hav : isSlotAvailable s day ts cm.faculty_id gid = true)
    (hk : facultyKeyOf cm = some k) :
    ∀ ci ∈ alGetD (alGetD s.weekly_schedule day []) ts [], facultyKeyOf ci ≠ some k := by
  intro ci hci hkey
  unfold isSlotAvailable at hav
  rw [List.all_eq_true] at hav
  have h2 := hav ci hci
  rw [Bool.and_eq_true, Bool.not_eq_true', Bool.not_eq_true'] at h2
  have hcm : cm.faculty_id = some k := facultyKeyOf_eq_some hk
  have hci2 : ci.faculty_id = some k := facultyKeyOf_eq_some hkey
  have hne := h2.1
  rw [hcm, hci2] at hne
  simp at hne

lemma isSlotAvailable_fresh_group {s : PySchedule} {day ts : String} {cm : PyClass}
    {fid : Option String} {k : String}
    (hav : isSlotAvailable s day ts fid (pyOr cm.group_id cm.student_group_id) = true)
    (hk : groupKeyOf cm = some k) :
    ∀ ci ∈ alGetD (alGetD s.weekly_schedule day []) ts [], groupKeyOf ci ≠ some k := by
  intro ci hci hkey
  unfold isSlotAvailable at hav
  rw [List.all_eq_true] at hav
  have h2 := hav ci hci
  rw [Bool.and_eq_true, Bool.not_eq_true', Bool.not_eq_true'] at h2
  have hor := h2.2
  rw [Bool.or_eq_false_iff] at hor
  have hgid : pyOr cm.group_id cm.student_group_id = some k := groupKeyOf_eq_some hk
  have hci2 : pyOr ci.group_id ci.student_group_id = some k := groupKeyOf_eq_some hkey
  unfold pyOr at hci2
  by_cases ht : pyTruthy ci.group_id = true
  · rw [if_pos ht] at hci2
    have := hor.1
    rw [hci2, hgid] at this
    simp at this
  · rw [if_neg ht] at hci2
    have := hor.2
    rw [hci2, hgid] at this
    simp at this

lemma pairs_count_zero (keyOf : PyClass → Option String) {s : PySchedule}
    {day ts k : String} (hWF : WeeklyWF s.weekly_schedule)
    (hday : '_' ∉ day.data) (hts : '_' ∉ ts.data)
    (hfree : ∀ ci ∈ alGetD (alGetD s.weekly_schedule day []) ts [], keyOf ci ≠ some k) :
    (pairsOf keyOf s.weekly_schedule).count (k, day ++ "_" ++ ts) = 0 := by
  rw [List.count_eq_zero]
  intro hmem
  unfold pairsOf at hmem
  rw [List.mem_filterMap] at hmem
  obtain ⟨e, he, hpe⟩ := hmem
  rcases hke : keyOf e.2.2 with _ | k2
  · rw [hke] at hpe
    cases hpe
  · rw [hke] at hpe
    injection hpe with hpe2
    have hk2 : k2 = k := congrArg Prod.fst hpe2
    have htk : tkeyOf e = day ++ "_" ++ ts := congrArg Prod.snd hpe2
    unfold tkeyOf at htk
    obtain ⟨hde, hte⟩ := underscore_key_eq hday hts htk
    unfold cellEntries at he
    rw [List.mem_flatMap] at he
    obtain ⟨d, hdw, hcl⟩ := he
    rw [List.mem_flatMap] at hcl
    obtain ⟨cell, hcd, hci⟩ := hcl
    rw [List.mem_map] at hci
    obtain ⟨ci, hcic, rfl⟩ := hci
    have hgd : alGet? s.weekly_schedule d.1 = some d.2 :=
      alGet?_of_mem_nodup hWF.1 hdw
    have hgc : alGet? d.2 cell.1 = some cell.2 :=
      alGet?_of_mem_nodup (hWF.2 d hdw) hcd
    have hmem2 : ci ∈ alGetD (alGetD s.weekly_schedule day []) ts [] := by
      have hd1 : alGetD s.weekly_schedule day [] = d.2 := by
        rw [← hde]
        simp [alGetD, hgd]
      have hc1 : alGetD d.2 ts [] = cell.2 := by
        rw [← hte]
        simp [alGetD, hgc]
      rw [hd1, hc1]
      exact hcic
    exact hfree ci hmem2 (by rw [← hk2]; exact hke)

lemma proj_step (keyOf : PyClass → Option String) {s srm : PySchedule} {cm : PyClass}
    {nd nt : String}
    (hsub : (cellEntries srm.weekly_schedule).Sublist (cellEntries s.weekly_schedule))
    (hfresh : ∀ k, keyOf cm = some k →
      (pairsOf keyOf s.weekly_schedule).count (k, nd ++ "_" ++ nt) = 0) :
    dupCount (pairsOf keyOf (weeklyAppend srm.weekly_schedule nd nt cm))
      ≤ dupCount (pairsOf keyOf s.weekly_schedule) := by
  have hperm := cellEntries_add srm.weekly_schedule nd nt cm
  have hpp : (pairsOf keyOf (weeklyAppend srm.weekly_schedule nd nt cm)).Perm
      ((cellEntries srm.weekly_schedule ++ [(nd, nt, cm)]).filterMap
        fun e => (keyOf e.2.2).map fun k => (k, tkeyOf e)) := hperm.filterMap _
  have hfm : ((cellEntries srm.weekly_schedule ++ [(nd, nt, cm)]).filterMap
        fun e => (keyOf e.2.2).map fun k => (k, tkeyOf e))
      = pairsOf keyOf srm.weekly_schedule ++
        (([(nd, nt, cm)] : List CellEntry).filterMap
          fun e => (keyOf e.2.2).map fun k => (k, tkeyOf e)) := by
    rw [List.filterMap_append]
    rfl
  rw [dupCount_perm hpp, hfm]
  have hsubp : (pairsOf keyOf srm.weekly_schedule).Sublist
      (pairsOf keyOf s.weekly_schedule) := hsub.filterMap _
  rcases hk : keyOf cm with _ | k
  · have hnil : (([(nd, nt, cm)] : List CellEntry).filterMap
        fun e => (keyOf e.2.2).map fun k => (k, tkeyOf e)) = [] := by
      simp [List.filterMap, hk]
    rw [hnil, List.append_nil]
    exact dupCount_le_of_sublist hsubp
  · have hone : (([(nd, nt, cm)] : List CellEntry).filterMap
        fun e => (keyOf e.2.2).map fun k2 => (k2, tkeyOf e)) = [(k, nd ++ "_" ++ nt)] := by
      simp [List.filterMap, hk, tkeyOf]
    rw [hone]
    have hcz : (pairsOf keyOf srm.weekly_schedule).count (k, nd ++ "_" ++ nt) = 0 := by
      have hle := hsubp.count_le (k, nd ++ "_" ++ nt)
      have hz := hfresh k hk
      omega
    rw [dupCount_append_fresh hcz]
    exact dupCount_le_of_sublist hsubp

lemma resolveFaculty_step {s : PySchedule} {c : Conflict} {s2 : PySchedule}
    (hWF : WeeklyWF s.weekly_schedule)
    (h : resolveFacultyConflict s c = .ok s2) :
    WeeklyWF s2.weekly_schedule ∧
    dupCount (pairsOf facultyKeyOf s2.weekly_schedule)
      ≤ dupCount (pairsOf facultyKeyOf s.weekly_schedule) ∧
    dupCount (pairsOf groupKeyOf s2.weekly_schedule)
      ≤ dupCount (pairsOf groupKeyOf s.weekly_schedule) := by
  unfold resolveFacultyConflict at h
  split at h
  · injection h with h2
    subst h2
    exact ⟨hWF, le_refl _, le_refl _⟩
  · split at h
    · injection h with h2
      subst h2
      exact ⟨hWF, le_refl _, le_refl _⟩
    · rename_i cm hlast
      split at h
      · injection h with h2
        subst h2
        exact ⟨hWF, le_refl _, le_refl _⟩
      · rename_i nd hfind
        rcases hrem : removeClassFromSchedule s c.day c.time_slot cm with e | srm
        · rw [hrem] at h
          exact Except.noConfusion h
        · rw [hrem] at h
          have h3 : Except.ok (addClassToSchedule srm nd.1 nd.2 cm)
              = (Except.ok s2 : Except PyError PySchedule) := h
          injection h3 with h2
          subst h2
          obtain ⟨hsub, ds, hg, heq⟩ := cellEntries_remove hrem
          have hWFrm : WeeklyWF srm.weekly_schedule := WF_remove hWF hrem
          have hWF2 : WeeklyWF (weeklyAppend srm.weekly_schedule nd.1 nd.2 cm) :=
            WF_weeklyAppend hWFrm
          obtain ⟨hd, ht, hav⟩ := findAvailableSlot_spec
            (show findAvailableSlot s cm = some (nd.1, nd.2) from by rw [hfind])
          have hdu : '_' ∉ nd.1.data := dayNames_no_underscore nd.1 hd
          have htu : '_' ∉ nd.2.data := timeSlotLabels_no_underscore nd.2 ht
          change WeeklyWF (weeklyAppend srm.weekly_schedule nd.1 nd.2 cm) ∧
            dupCount (pairsOf facultyKeyOf (weeklyAppend srm.weekly_schedule nd.1 nd.2 cm))
              ≤ dupCount (pairsOf facultyKeyOf s.weekly_schedule) ∧
            dupCount (pairsOf groupKeyOf (weeklyAppend srm.weekly_schedule nd.1 nd.2 cm))
              ≤ dupCount (pairsOf groupKeyOf s.weekly_schedule)
          refine ⟨hWF2, ?_, ?_⟩
          · apply proj_step facultyKeyOf hsub
            intro k hk
            exact pairs_count_zero facultyKeyOf hWF hdu htu
              (isSlotAvailable_fresh_fac hav hk)
          · apply proj_step groupKeyOf hsub
            intro k hk
            exact pairs_count_zero groupKeyOf hWF hdu htu
              (isSlotAvailable_fresh_group hav hk)

lemma pairsOf_map_keyOf (keyOf : PyClass → Option String) (f : PyClass → PyClass)
    (hpres : ∀ ci, keyOf (f ci) = keyOf ci) (s : PySchedule) :
    pairsOf keyOf (mapClasses f s).weekly_schedule = pairsOf keyOf s.weekly_schedule := by
  unfold pairsOf
  have hce : cellEntries (mapClasses f s).weekly_schedule
      = (cellEntries s.weekly_schedule).map fun e => (e.1, e.2.1, f e.2.2) :=
    cellEntries_map f s.weekly_schedule
  rw [hce, List.filterMap_map]
  apply congrFun
  apply congrArg
  funext e
  show (keyOf (f e.2.2)).map (fun k => (k, tkeyOf (e.1, e.2.1, f e.2.2)))
      = (keyOf e.2.2).map fun k => (k, tkeyOf e)
  rw [hpres]
  rfl

lemma resolveRoom_step {s : PySchedule} (c : Conflict)
    (hWF : WeeklyWF s.weekly_schedule) :
    WeeklyWF (resolveRoomConflict s c).weekly_schedule ∧
    pairsOf facultyKeyOf (resolveRoomConflict s c).weekly_schedule
      = pairsOf facultyKeyOf s.weekly_schedule ∧
    pairsOf groupKeyOf (resolveRoomConflict s c).weekly_schedule
      = pairsOf groupKeyOf s.weekly_schedule := by
  unfold resolveRoomConflict
  split
  · exact ⟨hWF, rfl, rfl⟩
  · split
    · exact ⟨hWF, rfl, rfl⟩
    · rename_i cr hlast
      split
      · exact ⟨hWF, rfl, rfl⟩
      · rename_i alt hroom
        have hpresF : ∀ ci, facultyKeyOf
            ((fun c2 => if c2 = cr then
              { c2 with room_id := some alt, room_name := some ("Room " ++ alt) }
            else c2) ci) = facultyKeyOf ci := by
          intro ci
          by_cases hc : ci = cr
          · simp only [if_pos hc]
            rfl
          · simp only [if_neg hc]
        have hpresG : ∀ ci, groupKeyOf
            ((fun c2 => if c2 = cr then
              { c2 with room_id := some alt, room_name := some ("Room " ++ alt) }
            else c2) ci) = groupKeyOf ci := by
          intro ci
          by_cases hc : ci = cr
          · simp only [if_pos hc]
            rfl
          · simp only [if_neg hc]
        exact ⟨WF_mapClasses _ hWF, pairsOf_map_keyOf _ _ hpresF s,
          pairsOf_map_keyOf _ _ hpresG s⟩

lemma autoResolve_fold :
    ∀ (cs : List Conflict) (s s2 : PySchedule), WeeklyWF s.weekly_schedule →
      cs.foldlM (fun s c =>
        if c.conflict_type = "faculty_overlap" then resolveFacultyConflict s c
        else if c.conflict_type = "room_booking" then .ok (resolveRoomConflict s c)
        else if c.conflict_type = "student_clash" then resolveFacultyConflict s c
        else .ok s) s = .ok s2 →
      WeeklyWF s2.weekly_schedule ∧
      dupCount (pairsOf facultyKeyOf s2.weekly_schedule) +
          dupCount (pairsOf groupKeyOf s2.weekly_schedule)
        ≤ dupCount (pairsOf facultyKeyOf s.weekly_schedule) +
          dupCount (pairsOf groupKeyOf s.weekly_schedule) := by
  intro cs
  induction cs with
  | nil =>
    intro s s2 hWF h
    have h2 : (Except.ok s : Except PyError PySchedule) = .ok s2 := h
    injection h2 with h3
    subst h3
    exact ⟨hWF, le_refl _⟩
  | cons c ct ih =>
    intro s s2 hWF h
    rw [List.foldlM_cons] at h
    rcases hs1 : (if c.conflict_type = "faculty_overlap" then resolveFacultyConflict s c
        else if c.conflict_type = "room_booking" then .ok (resolveRoomConflict s c)
        else if c.conflict_type = "student_clash" then resolveFacultyConflict s c
        else .ok s) with e | s1
    · rw [hs1] at h
      exact Except.noConfusion h
    · rw [hs1] at h
      have h4 : ct.foldlM (fun s c =>
          if c.conflict_type = "faculty_overlap" then resolveFacultyConflict s c
          else if c.conflict_type = "room_booking" then .ok (resolveRoomConflict s c)
          else if c.conflict_type = "student_clash" then resolveFacultyConflict s c
          else .ok s) s1 = .ok s2 := h
      have hstep : WeeklyWF s1.weekly_schedule ∧
          dupCount (pairsOf facultyKeyOf s1.weekly_schedule) +
              dupCount (pairsOf groupKeyOf s1.weekly_schedule)
            ≤ dupCount (pairsOf facultyKeyOf s.weekly_schedule) +
              dupCount (pairsOf groupKeyOf s.weekly_schedule) := by
        by_cases h1 : c.conflict_type = "faculty_overlap"
        · rw [if_pos h1] at hs1
          obtain ⟨hw, hf, hg⟩ := resolveFaculty_step hWF hs1
          exact ⟨hw, Nat.add_le_add hf hg⟩
        · rw [if_neg h1] at hs1
          by_cases h2 : c.conflict_type = "room_booking"
          · rw [if_pos h2] at hs1
            injection hs1 with h3
            obtain ⟨hw, hf, hg⟩ := resolveRoom_step c hWF
            subst h3
            refine ⟨hw, ?_⟩
            rw [hf, hg]
          · rw [if_neg h2] at hs1
            by_cases h3 : c.conflict_type = "student_clash"
            · rw [if_pos h3] at hs1
              obtain ⟨hw, hf, hg⟩ := resolveFaculty_step hWF hs1
              exact ⟨hw, Nat.add_le_add hf hg⟩
            · rw [if_neg h3] at hs1
              injection hs1 with h4
              subst h4
              exact ⟨hWF, le_refl _⟩
      obtain ⟨hres1, hres2⟩ := ih s1 s2 hstep.1 h4
      exact ⟨hres1, le_trans hres2 hstep.2⟩

lemma autoResolve_spec {s s2 : PySchedule} {conflicts : List Conflict}
    (hWF : WeeklyWF s.weekly_schedule)
    (h : autoResolveConflicts s conflicts = .ok s2) :
    WeeklyWF s2.weekly_schedule ∧
    dupCount (pairsOf facultyKeyOf s2.weekly_schedule) +
        dupCount (pairsOf groupKeyOf s2.weekly_schedule)
      ≤ dupCount (pairsOf facultyKeyOf s.weekly_schedule) +
        dupCount (pairsOf groupKeyOf s.weekly_schedule) :=
  autoResolve_fold _ s s2 hWF h

/-- C2 (amended): for every well-formed input schedule, the auto-repair
pass never increases the number of faculty-overlap plus student-clash
conflicts: re-detection after repair finds at most as many of those as
detection found before.  (The TOTAL count can grow — see the
counterexample — because a faculty/student move checks only faculty and
cohort availability at the target cell, not room occupancy.) -/
theorem resolver_repair_fs_nonincreasing (s : PySchedule) (n0 : Nat)
    (out : PySchedule × Nat) (hWF : WeeklyWF s.weekly_schedule)
    (h : resolveConflicts s n0 = .ok out) :
    fsCount (out.1.conflicts.getD []) ≤ fsCount (detectAllConflicts s n0).1 := by
  simp only [resolveConflicts] at h
  split at h
  · rcases hres : autoResolveConflicts s (detectAllConflicts s n0).1 with e | s2
    · rw [hres] at h
      exact Except.noConfusion h
    · rw [hres] at h
      have h3 : Except.ok ({ s2 with conflicts := some (detectAllConflicts s2 (detectAllConflicts s n0).2).1 }, (detectAllConflicts s2 (detectAllConflicts s n0).2).2)
          = (Except.ok out : Except PyError (PySchedule × Nat)) := h
      injection h3 with h2
      rw [← h2]
      show fsCount (detectAllConflicts s2 (detectAllConflicts s n0).2).1 ≤ _
      rw [fsCount_detectAll, fsCount_detectAll]
      exact (autoResolve_spec hWF hres).2
  · injection h with h2
    rw [← h2]
    exact Nat.zero_le _

/-- Witness: the C2 amended theorem applied to the concrete schedule
`schedC2`, discharging well-formedness and the successful run. -/
theorem resolver_repair_fs_nonincreasing_witness :
    WeeklyWF schedC2.weekly_schedule ∧
      fsCount (outC2.1.conflicts.getD []) ≤ fsCount (detectAllConflicts schedC2 0).1 :=
  ⟨by decide, resolver_repair_fs_nonincreasing schedC2 0 outC2 (by decide) rfl⟩

/-- C3: the room-conflict repair does not search the catalog's room set.
On an empty cell it reassigns to `R101`, a room absent from the catalog
`[X1]` (the spec-side search returns `X1`); and when the six hard-coded
rooms are taken it finds nothing although the catalog room `X1` is free.
This refutes the claimed behaviour and confirms the spec's §9 note that
`_find_available_room`'s hard-coded list is a bug. -/
theorem find_available_room_ignores_catalog :
    (findAvailableRoom schedC3 "monday" "09:00-10:00" "lecture" = some "R101" ∧
     "R101" ∉ roomsC3 ∧
     findAvailableRoomSpec roomsC3 schedC3 "monday" "09:00-10:00" = some "X1") ∧
    (findAvailableRoom schedC3b "monday" "09:00-10:00" "lecture" = none ∧
     findAvailableRoomSpec roomsC3 schedC3b "monday" "09:00-10:00" = some "X1") := by
  refine ⟨⟨by decide, by decide, by decide⟩, by decide, by decide⟩

/-- C2 counterexample: on `schedC2` detection finds one conflict, and
re-detection after the auto-repair pass finds two — the repair checked
faculty and cohort availability at the target cell but not room occupancy,
creating a fresh room conflict. -/
theorem resolver_repair_increases_conflicts :
    (detectAllConflicts schedC2 0).1.length = 1 ∧
    ((resolveConflicts schedC2 0).toOption.map fun p =>
      (p.1.conflicts.getD []).length) = some 2 := by
  constructor
  · decide
  · decide

/-! ## C7: what error a bad unavailable-slot day name raises -/

/-- A catalog whose one faculty lists the unavailable slot `Saturn_2`:
`saturn` is not a working-day name. -/
def rdC7 : RequestData :=
  { faculty := [{ faculty_id := some "F1", unavailable_slots := ["Saturn_2"] }] }

lemma foldlM_error {α β : Type} (f : β → α → Except PyError β)
    (hf : ∀ b a e, f b a = .error e → ∃ m, e = PyError.valueError m) :
    ∀ (l : List α) (b : β) (e : PyError),
      l.foldlM f b = .error e → ∃ m, e = PyError.valueError m := by
  intro l
  induction l with
  | nil =>
    intro b e h
    have h2 : (Except.ok b : Except PyError β) = .error e := h
    exact Except.noConfusion h2
  | cons a t ih =>
    intro b e h
    rw [List.foldlM_cons] at h
    rcases hf1 : f b a with e1 | b1
    · rw [hf1] at h
      have h2 : (Except.error e1 : Except PyError β) = .error e := h
      injection h2 with h3
      subst h3
      exact hf b a e1 hf1
    · rw [hf1] at h
      exact ih b1 e h

lemma pyInt_error {s : String} {e : PyError} (h : pyInt s = .error e) :
    ∃ m, e = PyError.valueError m := by
  simp only [pyInt] at h
  split at h
  · split at h
    · exact Except.noConfusion h
    · injection h with h2
      exact ⟨_, h2.symm⟩
  · split at h
    · exact Except.noConfusion h
    · injection h with h2
      exact ⟨_, h2.symm⟩
  · split at h
    · exact Except.noConfusion h
    · injection h with h2
      exact ⟨_, h2.symm⟩

lemma parseUnavailable_error {slots : List String} {e : PyError}
    (h : parseUnavailable slots = .error e) : ∃ m, e = PyError.valueError m := by
  unfold parseUnavailable at h
  refine foldlM_error _ ?_ slots [] e h
  intro b a e2 h2
  split at h2
  · split at h2
    · rename_i day_name period heq
      split at h2
      · rcases hp : pyInt period with e3 | p
        · rw [hp] at h2
          have h3 : (Except.error e3 : Except PyError (List TimeSlot)) = .error e2 := h2
          injection h3 with h4
          subst h4
          exact pyInt_error hp
        · rw [hp] at h2
          have h3 : (Except.ok (setAdd _ b) : Except PyError (List TimeSlot)) = .error e2 := h2
          exact Except.noConfusion h3
      · injection h2 with h3
        exact ⟨_, h3.symm⟩
    · injection h2 with h3
      exact ⟨_, h3.symm⟩
  · have h3 : (Except.ok b : Except PyError (List TimeSlot)) = .error e2 := h2
    exact Except.noConfusion h3

lemma parsePreferredDays_error {days : List String} {e : PyError}
    (h : parsePreferredDays days = .error e) : ∃ m, e = PyError.valueError m := by
  unfold parsePreferredDays at h
  refine foldlM_error _ ?_ days [] e h
  intro b a e2 h2
  split at h2
  · have h3 : (Except.ok (b ++ [_]) : Except PyError (List Nat)) = .error e2 := h2
    exact Except.noConfusion h3
  · injection h2 with h3
    exact ⟨_, h3.symm⟩

lemma parseFacultyConstraints_error {rd : RequestData} {e : PyError}
    (h : parseFacultyConstraints rd = .error e) : ∃ m, e = PyError.valueError m := by
  unfold parseFacultyConstraints at h
  refine foldlM_error _ ?_ rd.faculty [] e h
  intro b f e2 h2
  rcases hu : parseUnavailable f.unavailable_slots with e1 | un
  · rw [hu] at h2
    have h3 : (Except.error e1 : Except PyError (List (String × SchedulingConstraint)))
        = .error e2 := h2
    injection h3 with h4
    subst h4
    exact parseUnavailable_error hu
  · rw [hu] at h2
    rcases hp : parsePreferredDays f.preferred_days with e3 | pr
    · rw [hp] at h2
      have h3 : (Except.error e3 : Except PyError (List (String × SchedulingConstraint)))
          = .error e2 := h2
      injection h3 with h4
      subst h4
      exact parsePreferredDays_error hp
    · rw [hp] at h2
      have h3 : (Except.ok (alSet (f.faculty_id.getD "")
          { faculty_id := f.faculty_id.getD ""
            unavailable_slots := un
            max_consecutive_hours := f.max_consecutive_hours.getD 3
            preferred_days := pr
            min_gap_between_classes := f.min_gap.getD 0 } b) :
          Except PyError (List (String × SchedulingConstraint))) = .error e2 := h2
      exact Except.noConfusion h3

/-- C7 (amended): an unknown day name in an unavailable-slot string does
abort the run (it is not silently skipped), but every failure of faculty
constraint parsing — and hence of schedule generation — is the raw,
unclassified `ValueError` Python's `list.index`, unpacking or `int()`
raises; no `CATALOG_INVALID` classification exists in the code. -/
theorem faculty_constraints_error_classification :
    (∀ (rd : RequestData) (e : PyError), parseFacultyConstraints rd = .error e →
      ∃ m, e = PyError.valueError m) ∧
    (∀ (rd : RequestData) (e : PyError), generateInitialSchedule rd = .error e →
      ∃ m, e = PyError.valueError m) := by
  constructor
  · intro rd e h
    exact parseFacultyConstraints_error h
  · intro rd e h
    unfold generateInitialSchedule at h
    rcases hp : parseFacultyConstraints rd with e1 | cons
    · rw [hp] at h
      have h3 : (Except.error e1 : Except PyError PySchedule) = .error e := h
      injection h3 with h4
      subst h4
      exact parseFacultyConstraints_error hp
    · rw [hp] at h
      have h3 : (Except.ok (generateScheduleOutput
          ((greedyCommits cons rd).map commitToClassInfo)) :
          Except PyError PySchedule) = .error e := h
      exact Except.noConfusion h3

/-- C7 counterexample: on the concrete catalog `rdC7` (unavailable slot
`Saturn_2`), the run fails with the raw `ValueError` message of
`list.index`, and in particular not with any `CATALOG_INVALID` error. -/
theorem catalog_invalid_counterexample :
    parseFacultyConstraints rdC7 = .error (.valueError "'saturn' is not in list") ∧
    (∀ m, parseFacultyConstraints rdC7 ≠ .error (.catalogInvalid m)) ∧
    generateInitialSchedule rdC7 = .error (.valueError "'saturn' is not in list") := by
  refine ⟨rfl, ?_, rfl⟩
  intro m h
  rw [show parseFacultyConstraints rdC7
    = .error (.valueError "'saturn' is not in list") from rfl] at h
  injection h with h2
  exact PyError.noConfusion h2

/-! ## C8: what happens to an occurrence no cell can host -/

/-- A catalog with one needed subject but no rooms: every candidate pool is
empty, so the requirement's occurrences are infeasible. -/
def subjC8 : SubjectRec :=
  { subject_id := some "S1"
    name := some "Algebra"
    faculty_id := some "F1"
    subjtype := some "theory"
    credits := some 4
    theory_hours := some 3
    programs := ["fyup"]
    semester := some 1 }

def grpC8 : GroupRec :=
  { group_id := some "G1"
    program := some "fyup"
    semester := some 1
    strength := some 30 }

def rdC8a : RequestData :=
  { subjects := [subjC8]
    student_groups := [grpC8]
    faculty := []
    rooms := [] }

/-- A concrete requirement used to instantiate the drop lemma. -/
def reqC8w : ClassRequirement :=
  { subject_id := "S1"
    subject_name := "Algebra"
    faculty_id := "F1"
    student_group_id := "G1"
    room_type := "lecture"
    duration := 1
    weekly_frequency := 2
    priority := .high
    preferred_slots := [] }

lemma schedOcc_none (cons : List (String × SchedulingConstraint)) (rbt : RoomsByType)
    (req : ClassRequirement) :
    ∀ (n : Nat) (st : GreedyState), findBestSlot cons st req rbt = none →
      scheduleOccurrences cons rbt req n st = ([], st) := by
  intro n
  induction n with
  | zero => intro st _; rfl
  | succ n ih =>
    intro st h
    show (match findBestSlot cons st req rbt with
      | some (slot, room) =>
        let st2 := allocateSlot st slot req room.room_id
        let p := scheduleOccurrences cons rbt req n st2
        (Commit.mk req slot room :: p.1, p.2)
      | none => scheduleOccurrences cons rbt req n st) = ([], st)
    rw [h]
    exact ih st h

/-- C8 (amended): when no (day, period, room) cell scores above 0 for a
requirement at the current state, every occurrence of that requirement is
silently dropped — the busy state is unchanged and scheduling continues
with the remaining requirements exactly as if the requirement were absent;
nothing is recorded about it (the source only prints a warning, and no
`unplaced` key exists in the output). -/
theorem infeasible_requirement_dropped (cons : List (String × SchedulingConstraint))
    (rbt : RoomsByType) (req : ClassRequirement) (rest : List ClassRequirement)
    (st : GreedyState) (h : findBestSlot cons st req rbt = none) :
    scheduleCore cons rbt (req :: rest) st = scheduleCore cons rbt rest st ∧
    scheduleOccurrences cons rbt req req.weekly_frequency st = ([], st) := by
  have hocc := schedOcc_none cons rbt req req.weekly_frequency st h
  refine ⟨?_, hocc⟩
  show (let p := scheduleOccurrences cons rbt req req.weekly_frequency st
        let p2 := scheduleCore cons rbt rest p.2
        (p.1 ++ p2.1, p2.2)) = scheduleCore cons rbt rest st
  rw [hocc]
  simp

/-- Witness: the C8 amended theorem at a concrete infeasible requirement
(no rooms in the catalog). -/
theorem infeasible_requirement_dropped_witness :
    findBestSlot [] {} reqC8w (parseRoomData {}) = none ∧
    (scheduleCore [] (parseRoomData {}) [reqC8w] {} =
        scheduleCore [] (parseRoomData {}) [] {} ∧
      scheduleOccurrences [] (parseRoomData {}) reqC8w reqC8w.weekly_frequency {} =
        ([], {})) :=
  ⟨by decide, infeasible_requirement_dropped [] (parseRoomData {}) reqC8w [] {} (by decide)⟩

/-- C8 counterexample: the catalog `rdC8a` produces a nonempty requirement
list none of whose occurrences can be placed, yet its output schedule is
identical to the output for the empty catalog — in particular no
`unplaced` entry (and no record of any kind) distinguishes them, refuting
the claimed `unplaced` bookkeeping. -/
theorem unplaced_counterexample :
    parseClassRequirements rdC8a ≠ [] ∧
    greedyCommits [] rdC8a = [] ∧
    generateInitialSchedule rdC8a = generateInitialSchedule {} := by
  refine ⟨by decide, by decide, rfl⟩

/-! ## NEP 2020 compliance (`nep_compliance.py`)

Python floats are exact rationals here (all plumbed values are integers or
exact ratios); `:.1f` / `round(x, 2)` are rendered by round-half-to-even
on the rational. -/

/-- `NEPRequirement`. -/
structure NEPRequirement where
  category : String
  min_percentage : ℚ
  max_percentage : ℚ
  min_credits : Int
  description : String
deriving DecidableEq, Repr

/-- A subject dict as `check_compliance` reads it. -/
structure NepSubject where
  subjtype : Option String := none
  credits : Option Int := none
  department : Option String := none
  theory_hours : Option Int := none
  practical_hours : Option Int := none
  hours : Option Int := none
deriving DecidableEq, Repr

/-- The schedule fields the compliance checker reads. -/
structure NepInput where
  subjects : List NepSubject := []
  program_type : Option String := none
deriving DecidableEq, Repr

/-- One `category_compliance` entry (the FYUP and teacher-education loops
fill different key subsets). -/
structure CatCompliance where
  compliant : Bool
  current_percentage : ℚ
  required_range : Option String := none
  current_credits : Option Int := none
  minimum_credits : Option Int := none
  description : Option String := none
  minimum_percentage : Option ℚ := none
deriving DecidableEq, Repr

/-- The `theory-practical balance` sub-dict. -/
structure TPBalance where
  theory_percentage : ℚ
  practical_percentage : ℚ
  internship_percentage : ℚ
  theory_hours : Option Int := none
  practical_hours : Option Int := none
  internship_hours : Option Int := none
  total_hours : Option Int := none
deriving DecidableEq, Repr

/-- The compliance report dict. -/
structure ComplianceReport where
  overall_compliant : Bool := true
  compliance_score : ℚ := 0
  category_compliance : List (String × CatCompliance) := []
  violations : List String := []
  recommendations : List String := []
  credit_distribution : Option TPBalance := none
  multidisciplinary_score : ℚ := 0
deriving DecidableEq, Repr

/-- The five FYUP requirements, in the dict's insertion order. -/
def nepRequirements : List (String × NEPRequirement) :=
  [("major", ⟨"major", 40, 50, 64, "Major discipline courses"⟩),
   ("minor", ⟨"minor", 20, 30, 32, "Minor discipline courses"⟩),
   ("skill", ⟨"skill", 10, 20, 16, "Skill-based courses"⟩),
   ("ability_enhancement",
     ⟨"ability_enhancement", 8, 15, 12, "Ability Enhancement Courses"⟩),
   ("value_added", ⟨"value_added", 5, 15, 8, "Value-Added Courses"⟩)]

/-- `str.title()`: capitalise the first letter of every alphabetic run. -/
def pyTitleAux : Bool → List Char → List Char
  | _, [] => []
  | prevAlpha, c :: t =>
    if c.isAlpha then
      (if prevAlpha then c.toLower else c.toUpper) :: pyTitleAux true t
    else c :: pyTitleAux false t

/-- Python `s.title()`. -/
def pyTitle (s : String) : String := ⟨pyTitleAux false s.data⟩

/-- Round half to even to an integer. -/
def roundHalfEven (q : ℚ) : Int :=
  let f := ⌊q⌋
  let r := q - (f : ℚ)
  if r < 1/2 then f
  else if r > 1/2 then f + 1
  else if f % 2 = 0 then f else f + 1

/-- Python `f"{x:.1f}"` on the exact rational. -/
def fmt1 (q : ℚ) : String :=
  let n := roundHalfEven (q * 10)
  let sign := if n < 0 then "-" else ""
  let m := n.natAbs
  sign ++ toString (m / 10) ++ "." ++ toString (m % 10)

/-- Python `round(x, 2)` on the exact rational. -/
def round2 (q : ℚ) : ℚ := (roundHalfEven (q * 100) : ℚ) / 100

/-- Plain `f"{x}"` rendering of the integral percentages of the fixed
requirement table (their values are integer literals in the source). -/
def qIntStr (q : ℚ) : String := toString q.num

/-- `needle` is a prefix of `hay`. -/
def hasPref : List Char → List Char → Bool
  | [], _ => true
  | _ :: _, [] => false
  | a :: t, b :: u => a == b && hasPref t u

/-- `needle` occurs inside `hay`. -/
def hasInfix (needle : List Char) : List Char → Bool
  | [] => hasPref needle []
  | c :: t => hasPref needle (c :: t) || hasInfix needle t

/-- Python `needle in hay` on strings. -/
def strContains (hay needle : String) : Bool := hasInfix needle.data hay.data

/-- One per-category bucket while counting (`{'courses': .., 'credits': ..}`). -/
structure CatCount where
  courses : Int := 0
  credits : Int := 0
deriving DecidableEq, Repr

/-- One entry of the analysed course distribution. -/
structure CatDist where
  courses : Int
  credits : Int
  percentage : ℚ
deriving DecidableEq, Repr

/-- `_analyze_course_distribution`. -/
def analyzeCourseDistribution (subjects : List NepSubject) :
    List (String × CatDist) :=
  let init : List (String × CatCount) :=
    [("major", {}), ("minor", {}), ("skill", {}),
     ("ability_enhancement", {}), ("value_added", {})]
  let acc := subjects.foldl
    (fun (acc : List (String × CatCount) × Int) subject =>
      let subject_type := pyLower (subject.subjtype.getD "")
      let credits := subject.credits.getD 3
      match alGet? acc.1 subject_type with
      | some cc =>
        (alSet subject_type { courses := cc.courses + 1, credits := cc.credits + credits }
          acc.1, acc.2 + credits)
      | none => acc)
    (init, 0)
  acc.1.map fun kv =>
    (kv.1,
      { courses := kv.2.courses
        credits := kv.2.credits
        percentage :=
          if acc.2 > 0 then ((kv.2.credits : ℚ) / (acc.2 : ℚ)) * 100 else 0 })

/-- `course_distribution.get(category, {}).get('credits', 0)`. -/
def distCreditsOf (dist : List (String × CatDist)) (cat : String) : Int :=
  match alGet? dist cat with
  | some d => d.credits
  | none => 0

/-- `course_distribution.get(category, {}).get('percentage', 0)`. -/
def distPercentageOf (dist : List (String × CatDist)) (cat : String) : ℚ :=
  match alGet? dist cat with
  | some d => d.percentage
  | none => 0

/-- Append one violation and one recommendation. -/
def addVio (r : ComplianceReport) (v rec2 : String) : ComplianceReport :=
  { r with violations := r.violations ++ [v]
           recommendations := r.recommendations ++ [rec2] }

/-- The FYUP per-category loop body of `_check_fyup_compliance`. -/
def fyupStep (dist : List (String × CatDist)) (r : ComplianceReport)
    (cr : String × NEPRequirement) : ComplianceReport :=
  let cat := cr.1
  let req := cr.2
  let percentage := distPercentageOf dist cat
  let credits := distCreditsOf dist cat
  let is_compliant :=
    decide (percentage ≥ req.min_percentage) &&
    decide (percentage ≤ req.max_percentage) &&
    decide (credits ≥ req.min_credits)
  let entry : CatCompliance :=
    { compliant := is_compliant
      current_percentage := percentage
      required_range := some (qIntStr req.min_percentage ++ "-" ++ qIntStr req.max_percentage ++ "%")
      current_credits := some credits
      minimum_credits := some req.min_credits
      description := some req.description }
  let r1 := { r with category_compliance := alSet cat entry r.category_compliance }
  if is_compliant then r1
  else
    let r2 := { r1 with overall_compliant := false }
    let r3 :=
      if percentage < req.min_percentage then
        addVio r2
          (pyTitle cat ++ " courses are below minimum requirement (" ++
            fmt1 percentage ++ "% < " ++ qIntStr req.min_percentage ++ "%)")
          ("Increase " ++ cat ++ " course allocation by " ++
            fmt1 (req.min_percentage - percentage) ++ "%")
      else r2
    let r4 :=
      if percentage > req.max_percentage then
        addVio r3
          (pyTitle cat ++ " courses exceed maximum limit (" ++
            fmt1 percentage ++ "% > " ++ qIntStr req.max_percentage ++ "%)")
          ("Reduce " ++ cat ++ " course allocation by " ++
            fmt1 (percentage - req.max_percentage) ++ "%")
      else r3
    if credits < req.min_credits then
      addVio r4
        (pyTitle cat ++ " credits are insufficient (" ++ toString credits ++
          " < " ++ toString req.min_credits ++ ")")
        ("Add " ++ toString (req.min_credits - credits) ++ " more credits in " ++
          cat ++ " courses")
    else r4

/-- `_calculate_multidisciplinary_score`. -/
def calcMultidisciplinaryScore (subjects : List NepSubject) : ℚ :=
  if subjects = [] then 0
  else
    let disciplines := pySetList (subjects.map fun s => s.department.getD "general")
    if disciplines.length ≥ 3 then 100
    else if disciplines.length = 2 then 70
    else if disciplines.length = 1 then 40
    else 0

/-- `_check_theory_practical_balance`. -/
def checkTheoryPracticalBalance (subjects : List NepSubject) : TPBalance :=
  let tth := (subjects.map fun s => s.theory_hours.getD 0).sum
  let tph := (subjects.map fun s => s.practical_hours.getD 0).sum
  let tih := (subjects.map fun s =>
    if strContains (pyLower (s.subjtype.getD "")) "internship" then s.hours.getD 0
    else 0).sum
  let total := tth + tph + tih
  if total = 0 then
    { theory_percentage := 0, practical_percentage := 0, internship_percentage := 0 }
  else
    { theory_percentage := ((tth : ℚ) / (total : ℚ)) * 100
      practical_percentage := ((tph : ℚ) / (total : ℚ)) * 100
      internship_percentage := ((tih : ℚ) / (total : ℚ)) * 100
      theory_hours := some tth
      practical_hours := some tph
      internship_hours := some tih
      total_hours := some total }

/-- `_check_fyup_compliance`. -/
def checkFyupCompliance (input : NepInput) (r0 : ComplianceReport) :
    ComplianceReport :=
  let dist := analyzeCourseDistribution input.subjects
  let r := nepRequirements.foldl (fyupStep dist) r0
  let ms := calcMultidisciplinaryScore input.subjects
  let r := { r with multidisciplinary_score := ms }
  let r :=
    if ms < 70 then
      addVio r ("Multidisciplinary exposure is low (" ++ fmt1 ms ++ "%)")
        "Increase interdisciplinary course offerings across different faculties"
    else r
  let tp := checkTheoryPracticalBalance input.subjects
  let r := { r with credit_distribution := some tp }
  if tp.practical_percentage < 20 then
    { r with recommendations := r.recommendations ++ ["Increase practical/lab components to at least 20% of total hours"] }
  else r

/-- The teacher-education distribution. -/
structure TeacherDist where
  pedagogy : ℚ
  subject_knowledge : ℚ
  practicum : ℚ
  electives : ℚ
  practicum_hours : Int
deriving DecidableEq, Repr

/-- `_analyze_teacher_education_distribution`. -/
def analyzeTeacherEdDistribution (subjects : List NepSubject) : TeacherDist :=
  let total := subjects.length
  if total = 0 then
    { pedagogy := 0, subject_knowledge := 0, practicum := 0, electives := 0,
      practicum_hours := 0 }
  else
    let counts := subjects.foldl
      (fun (c : Int × Int × Int × Int × Int) s =>
        let t := pyLower (s.subjtype.getD "")
        if strContains t "pedagogy" || strContains t "teaching" then
          (c.1 + 1, c.2.1, c.2.2.1, c.2.2.2.1, c.2.2.2.2)
        else if strContains t "practical" || strContains t "practicum" then
          (c.1, c.2.1, c.2.2.1 + 1, c.2.2.2.1, c.2.2.2.2 + s.practical_hours.getD 20)
        else if strContains t "elective" then
          (c.1, c.2.1, c.2.2.1, c.2.2.2.1 + 1, c.2.2.2.2)
        else
          (c.1, c.2.1 + 1, c.2.2.1, c.2.2.2.1, c.2.2.2.2))
      (0, 0, 0, 0, 0)
    { pedagogy := ((counts.1 : ℚ) / (total : ℚ)) * 100
      subject_knowledge := ((counts.2.1 : ℚ) / (total : ℚ)) * 100
      practicum := ((counts.2.2.1 : ℚ) / (total : ℚ)) * 100
      electives := ((counts.2.2.2.1 : ℚ) / (total : ℚ)) * 100
      practicum_hours := counts.2.2.2.2 }

/-- `_check_teacher_education_compliance`. -/
def checkTeacherEdCompliance (input : NepInput) (r0 : ComplianceReport) :
    ComplianceReport :=
  let d := analyzeTeacherEdDistribution input.subjects
  let cats : List (String × ℚ × ℚ) :=
    [("pedagogy", d.pedagogy, 30), ("subject_knowledge", d.subject_knowledge, 40),
     ("practicum", d.practicum, 20), ("electives", d.electives, 10)]
  let r := cats.foldl
    (fun r c =>
      let is_compliant := decide (c.2.1 ≥ c.2.2)
      let entry : CatCompliance :=
        { compliant := is_compliant
          current_percentage := c.2.1
          minimum_percentage := some c.2.2 }
      let r1 := { r with category_compliance := alSet c.1 entry r.category_compliance }
      if is_compliant then r1
      else
        addVio { r1 with overall_compliant := false }
          (pyTitle c.1 ++ " component is below minimum (" ++ fmt1 c.2.1 ++
            "% < " ++ qIntStr c.2.2 ++ "%)")
          ("Increase " ++ c.1 ++ " courses by " ++ fmt1 (c.2.2 - c.2.1) ++ "%"))
    r0
  if d.practicum_hours < 100 then
    addVio r
      ("Teaching practice hours insufficient (" ++ toString d.practicum_hours ++
        " < 100 hours)")
      ("Add " ++ toString (100 - d.practicum_hours) ++
        " more hours of teaching practice")
  else r

/-- `_calculate_overall_score`. -/
def calculateOverallScore (r : ComplianceReport) : ℚ :=
  let compliant_categories : Int :=
    (r.category_compliance.filter fun cc => cc.2.compliant).length
  let total := r.category_compliance.length
  if total = 0 then 0
  else
    round2 (min 100 (max 0
      (((compliant_categories : ℚ) / (total : ℚ)) * 100 +
        r.multidisciplinary_score * (1/10) - ((r.violations.length : ℚ) * 5))))

/-- The report dict `check_compliance` initialises. -/
def initialReport : ComplianceReport := {}

/-- `check_compliance`. -/
def checkCompliance (input : NepInput) : ComplianceReport :=
  let program_type := input.program_type.getD "FYUP"
  let r :=
    if program_type ∈ (["FYUP", "ITEP"] : List String) then
      checkFyupCompliance input initialReport
    else if program_type ∈ (["B.Ed.", "M.Ed."] : List String) then
      checkTeacherEdCompliance input initialReport
    else initialReport
  { r with compliance_score := calculateOverallScore r }

lemma fyupStep_false (dist : List (String × CatDist)) (r : ComplianceReport)
    (cr : String × NEPRequirement) (h : r.overall_compliant = false) :
    (fyupStep dist r cr).overall_compliant = false := by
  simp only [fyupStep]
  split_ifs <;> simp [addVio, h]

lemma fyupStep_vio_mem (dist : List (String × CatDist)) (r : ComplianceReport)
    (cr : String × NEPRequirement) (x : String) (hx : x ∈ r.violations) :
    x ∈ (fyupStep dist r cr).violations := by
  simp only [fyupStep]
  split_ifs <;> simp [addVio, hx]

lemma fyupStep_rec_mem (dist : List (String × CatDist)) (r : ComplianceReport)
    (cr : String × NEPRequirement) (x : String) (hx : x ∈ r.recommendations) :
    x ∈ (fyupStep dist r cr).recommendations := by
  simp only [fyupStep]
  split_ifs <;> simp [addVio, hx]

lemma fyupStep_hit (dist : List (String × CatDist)) (r : ComplianceReport)
    (cat : String) (req : NEPRequirement)
    (hcred : distCreditsOf dist cat < req.min_credits) :
    (fyupStep dist r (cat, req)).overall_compliant = false ∧
    (pyTitle cat ++ " credits are insufficient (" ++ toString (distCreditsOf dist cat) ++
      " < " ++ toString req.min_credits ++ ")") ∈ (fyupStep dist r (cat, req)).violations ∧
    ("Add " ++ toString (req.min_credits - distCreditsOf dist cat) ++
      " more credits in " ++ cat ++ " courses") ∈
      (fyupStep dist r (cat, req)).recommendations := by
  have hc : decide (distCreditsOf dist cat ≥ req.min_credits) = false := by
    simp
    omega
  simp only [fyupStep, hc, Bool.and_false, Bool.false_eq_true, if_false]
  rw [if_pos hcred]
  split_ifs <;> simp [addVio]

lemma fyupFold_preserves :
    ∀ (reqs : List (String × NEPRequirement)) (dist : List (String × CatDist))
      (r : ComplianceReport),
      (r.overall_compliant = false →
        (reqs.foldl (fyupStep dist) r).overall_compliant = false) ∧
      (∀ x ∈ r.violations, x ∈ (reqs.foldl (fyupStep dist) r).violations) ∧
      (∀ x ∈ r.recommendations, x ∈ (reqs.foldl (fyupStep dist) r).recommendations) := by
  intro reqs
  induction reqs with
  | nil => intro dist r; exact ⟨fun h => h, fun x hx => hx, fun x hx => hx⟩
  | cons cr t ih =>
    intro dist r
    refine ⟨fun h => ?_, fun x hx => ?_, fun x hx => ?_⟩
    · exact (ih dist _).1 (fyupStep_false dist r cr h)
    · exact (ih dist _).2.1 x (fyupStep_vio_mem dist r cr x hx)
    · exact (ih dist _).2.2 x (fyupStep_rec_mem dist r cr x hx)

lemma fyupFold_hit :
    ∀ (reqs : List (String × NEPRequirement)) (dist : List (String × CatDist))
      (r : ComplianceReport) (cat : String) (req : NEPRequirement),
      (cat, req) ∈ reqs → distCreditsOf dist cat < req.min_credits →
      (reqs.foldl (fyupStep dist) r).overall_compliant = false ∧
      (pyTitle cat ++ " credits are insufficient (" ++ toString (distCreditsOf dist cat) ++
        " < " ++ toString req.min_credits ++ ")") ∈
        (reqs.foldl (fyupStep dist) r).violations ∧
      ("Add " ++ toString (req.min_credits - distCreditsOf dist cat) ++
        " more credits in " ++ cat ++ " courses") ∈
        (reqs.foldl (fyupStep dist) r).recommendations := by
  intro reqs
  induction reqs with
  | nil => intro dist r cat req h _; cases h
  | cons cr t ih =>
    intro dist r cat req hmem hcred
    rcases List.mem_cons.mp hmem with heq | htail
    · subst heq
      obtain ⟨h1, h2, h3⟩ := fyupStep_hit dist r cat req hcred
      rw [List.foldl_cons]
      exact ⟨(fyupFold_preserves t dist _).1 h1,
        (fyupFold_preserves t dist _).2.1 _ h2,
        (fyupFold_preserves t dist _).2.2 _ h3⟩
    · rw [List.foldl_cons]
      exact ih dist _ cat req htail hcred

lemma checkFyup_hit (input : NepInput) (r0 : ComplianceReport) (cat : String)
    (req : NEPRequirement) (hreq : (cat, req) ∈ nepRequirements)
    (hcred : distCreditsOf (analyzeCourseDistribution input.subjects) cat
      < req.min_credits) :
    (checkFyupCompliance input r0).overall_compliant = false ∧
    (pyTitle cat ++ " credits are insufficient (" ++
      toString (distCreditsOf (analyzeCourseDistribution input.subjects) cat) ++
      " < " ++ toString req.min_credits ++ ")") ∈
      (checkFyupCompliance input r0).violations ∧
    ("Add " ++
      toString (req.min_credits - distCreditsOf (analyzeCourseDistribution input.subjects) cat) ++
      " more credits in " ++ cat ++ " courses") ∈
      (checkFyupCompliance input r0).recommendations := by
  obtain ⟨h1, h2, h3⟩ := fyupFold_hit nepRequirements
    (analyzeCourseDistribution input.subjects) r0 cat req hreq hcred
  simp only [checkFyupCompliance]
  split_ifs <;> simp [addVio, h1, h2, h3]

/-- C9: for every FYUP/ITEP schedule in which some NEP category's credits
are below that category's `min_credits`, the compliance report comes back
with `overall_compliant = false`, a violation stating that category's
credits are insufficient, and a recommendation naming the number of
missing credits. -/
theorem nep_undercredit_flags (input : NepInput) (cat : String)
    (req : NEPRequirement) (hreq : (cat, req) ∈ nepRequirements)
    (hpt : (input.program_type.getD "FYUP") ∈ (["FYUP", "ITEP"] : List String))
    (hcred : distCreditsOf (analyzeCourseDistribution input.subjects) cat
      < req.min_credits) :
    (checkCompliance input).overall_compliant = false ∧
    (pyTitle cat ++ " credits are insufficient (" ++
      toString (distCreditsOf (analyzeCourseDistribution input.subjects) cat) ++
      " < " ++ toString req.min_credits ++ ")") ∈ (checkCompliance input).violations ∧
    ("Add " ++
      toString (req.min_credits - distCreditsOf (analyzeCourseDistribution input.subjects) cat) ++
      " more credits in " ++ cat ++ " courses") ∈
      (checkCompliance input).recommendations := by
  obtain ⟨h1, h2, h3⟩ := checkFyup_hit input initialReport cat req hreq hcred
  simp only [checkCompliance]
  rw [if_pos hpt]
  exact ⟨h1, h2, h3⟩

/-- The C9 concrete input: one skill course with zero credits. -/
def inputC9 : NepInput :=
  { subjects := [{ subjtype := some "skill", credits := some 0 }]
    program_type := some "FYUP" }

/-- The skill requirement record of the fixed table. -/
def skillReqC9 : NEPRequirement := ⟨"skill", 10, 20, 16, "Skill-based courses"⟩

/-- Witness: the C9 theorem at the concrete under-credited input. -/
theorem nep_undercredit_flags_witness :
    (("skill", skillReqC9) ∈ nepRequirements ∧
      (inputC9.program_type.getD "FYUP") ∈ (["FYUP", "ITEP"] : List String) ∧
      distCreditsOf (analyzeCourseDistribution inputC9.subjects) "skill"
        < skillReqC9.min_credits) ∧
    ((checkCompliance inputC9).overall_compliant = false ∧
      (pyTitle "skill" ++ " credits are insufficient (" ++
        toString (distCreditsOf (analyzeCourseDistribution inputC9.subjects) "skill") ++
        " < " ++ toString skillReqC9.min_credits ++ ")") ∈
        (checkCompliance inputC9).violations ∧
      ("Add " ++
        toString (skillReqC9.min_credits -
          distCreditsOf (analyzeCourseDistribution inputC9.subjects) "skill") ++
        " more credits in " ++ "skill" ++ " courses") ∈
        (checkCompliance inputC9).recommendations) := by
  have hm : ("skill", skillReqC9) ∈ nepRequirements :=
    List.Mem.tail _ (List.Mem.tail _ (List.Mem.head _))
  exact ⟨⟨hm, by decide, by decide⟩,
    nep_undercredit_flags inputC9 "skill" skillReqC9 hm (by decide) (by decide)⟩

end TTS
